import Mathlib

/-!
# Deferred initcall registry (`kernel/lazy_initcall.c`)

A shallow embedding of the registry of deferred built-in initializers, its
name matcher (`load_modname`), the completion barrier in `load_module`, and
the failure buffer `errors_str` with its periodic reporter `show_errors`.

Modelling conventions.

* The static array `lazy_initcalls[]` together with `counter` is a list whose
  length is `counter`; slots at and beyond `counter` are zero-initialised
  static storage, so a freshly written slot has `loaded = false`.
* The NULL-terminated policy arrays are lists of names (`Tables`); the
  functions are parametric in them and `shipped` holds the compiled-in values.
* All dispatches run under `lazy_initcall_mutex`, so an execution is a
  sequence of atomic steps.
* Effects that leave the module (calling an initializer, log lines, the
  delayed work, `free_initmem`, `panic`) are appended to `State.trace`.
* `panic` never returns: it sets `State.panicked`, after which no code runs.
* Collaborators outside the file (ELF validation, `parse_args`, allocators,
  the initializers themselves) are the oracles of `Env`.
-/

namespace LazyInitcall

/-- The `enum lazy_initcall_type` of an entry. -/
inductive lazy_initcall_type where
  | NORMAL
  | DEFERRED
deriving DecidableEq, Repr

/-- The `struct lazy_initcall`: one deferred initializer. `fn` is the handle of
the `initcall_t` function pointer. -/
structure lazy_initcall where
  fn : Nat
  modname : String
  filename : String
  type : lazy_initcall_type
  loaded : Bool
deriving DecidableEq, Repr

/-- The four static policy arrays, without their NULL terminators. -/
structure Tables where
  targets_list : List String
  builtin_list : List String
  blacklist : List String
  deferred_list : List String
deriving DecidableEq, Repr

/-- Effects visible outside the module, in program order. -/
inductive Event where
  | initcall (i : Nat) (fn : Nat)
  | pr_err (text : List Char)
  | panic (text : List Char)
  | queue_work
  | cancel_work
  | warn
  | free_initmem
  | mark_readonly
deriving DecidableEq, Repr

/-- The module's static variables (`lazy_initcalls`/`counter`, `completed`,
`errors_str`), the halted flag set by `panic`, and the effect log. -/
structure State where
  lazy_initcalls : List lazy_initcall
  completed : Bool
  errors_str : List Char
  panicked : Bool
  trace : List Event
deriving DecidableEq, Repr

/-- The collaborators the file calls into.

* `debug`: `CONFIG_LAZY_INITCALL_DEBUG` (`__fatal` is `pr_err` instead of `panic`).
* `call tr fn`: the status returned by `fn()` when invoked after the effects `tr`.
* `next_args modname args`: the (parameter, value) pairs that the first
  `parse_args` pass hands to `integrated_module_param_cb`.
* `kmalloc_ok tr size`, `kstrdup_ok tr`: whether the allocation succeeds.
* `unknown_params modname modparam`: the parameter names for which the second
  `parse_args` pass calls `unknown_integrated_module_param_cb`. -/
structure Env where
  debug : Bool
  call : List Event → Nat → Int
  next_args : String → String → List (String × Option String)
  kmalloc_ok : List Event → Nat → Bool
  kstrdup_ok : List Event → Bool
  unknown_params : String → List Char → List String

/-- The `struct load_info` as left by the validator: the results of
`elf_validity_check` and `setup_load_info`, and the extracted `info->name`. -/
structure load_info where
  elf_validity_check : Int
  setup_load_info : Int
  name : String
deriving DecidableEq, Repr

/-- The `uargs` user pointer: NULL, a pointer `strndup_user` fails on with the
given error, or a readable argument string. -/
inductive Uargs where
  | null
  | fault (err : Int)
  | str (args : String)
deriving DecidableEq, Repr

/-- The `sizeof(errors_str)`. -/
def ERRORS_STR_SIZE : Nat := 16 * 1024

/-- The `counter`: number of registered entries. -/
def State.counter (s : State) : Nat := s.lazy_initcalls.length

/-- The state at boot: empty registry, `completed` false, empty buffer. -/
def State.boot : State :=
  { lazy_initcalls := [], completed := false, errors_str := [], panicked := false, trace := [] }

/-- Append one effect to the log. -/
def emit (e : Event) (s : State) : State :=
  { s with trace := s.trace ++ [e] }

/-- Rendering of a `%d` argument. -/
def fmt_d (n : Int) : List Char := (toString n).toList

/-- `add_lazy_initcall(fn, modname, filename)`: the returned flag and the new state. -/
def add_lazy_initcall (T : Tables) (fn : Nat) (modname filename : String) (s : State) :
    Bool × State :=
  if modname ∈ T.blacklist then (false, s)
  else
    let m1 : Bool := decide (modname ∈ T.targets_list)
    let d : Bool := decide (modname ∈ T.deferred_list)
    let type := if d then lazy_initcall_type.DEFERRED else lazy_initcall_type.NORMAL
    if !(m1 || d) then (false, s)
    else
      (true, { s with lazy_initcalls := s.lazy_initcalls ++
        [{ fn := fn, modname := modname, filename := filename, type := type, loaded := false }] })

/-- The `__err(...)` macro applied to an already formatted line: `snprintf` into
the free tail of `errors_str` (at most `sizeof - len - 1` characters), then
`pr_err` of what was stored. -/
def __err (line : List Char) (s : State) : State :=
  let len := s.errors_str.length
  let stored := line.take (ERRORS_STR_SIZE - len - 1)
  { s with errors_str := s.errors_str ++ stored, trace := s.trace ++ [Event.pr_err stored] }

/-- The `strsep(&p, "\n")` loop: all segments of the text between newlines. -/
def strsep_all : List Char → List (List Char)
  | [] => [[]]
  | c :: cs =>
    if c = '\n' then [] :: strsep_all cs
    else
      match strsep_all cs with
      | [] => [[c]]
      | tok :: toks => (c :: tok) :: toks

/-- `show_errors_str()`: prints every non-empty line of the buffer; returns
whether the buffer was non-empty. -/
def show_errors_str (E : Env) (s : State) : Bool × State :=
  if s.errors_str.length = 0 then (false, s)
  else if !E.kstrdup_ok s.trace then (true, s)
  else
    let toks := (strsep_all s.errors_str).filter (fun tok => decide (tok ≠ []))
    (true, { s with trace := s.trace ++ toks.map (fun tok => Event.pr_err (tok ++ ['\n'])) })

/-- The line printed by `show_errors` for an entry that has not run. -/
def not_loaded_line (i : Nat) (modname : String) : List Char :=
  "lazy_initcalls[".toList ++ fmt_d i ++ "]: ".toList ++ modname.toList ++
    " not loaded yet\n".toList

/-- The `for (i = 0; i < counter; i++)` loop of `show_errors`, from index `i`. -/
def not_loaded_events : Nat → List lazy_initcall → List Event
  | _, [] => []
  | i, c :: cs =>
    if !c.loaded then Event.pr_err (not_loaded_line i c.modname) :: not_loaded_events (i + 1) cs
    else not_loaded_events (i + 1) cs

/-- `show_errors`: one tick of the delayed work, `boottime_us` being
`ktime_to_us(ktime_get_boottime())`. -/
def show_errors (E : Env) (boottime_us : Nat) (s : State) : State :=
  if s.panicked then s
  else if boottime_us < 30 * 1000000 then emit Event.queue_work s
  else
    let s1 := (show_errors_str E s).2
    let s2 := { s1 with trace := s1.trace ++ not_loaded_events 0 s1.lazy_initcalls }
    emit Event.queue_work s2

/-- The line recorded by `unknown_integrated_module_param_cb`. -/
def unknown_param_line (modname param : String) : List Char :=
  modname.toList ++ ": unknown parameter \x27".toList ++ param.toList ++ "\x27 ignored\n".toList

/-- `unknown_integrated_module_param_cb(param, val, modname, arg)`. -/
def unknown_integrated_module_param_cb (param modname : String) (s : State) : State :=
  __err (unknown_param_line modname param) s

/-- The string `integrated_module_param_cb` builds in `modparam`. -/
def modparam_of (modname param : String) (val : Option String) : List Char :=
  let vlen := match val with
    | some v => v.toList.length
    | none => 0
  if vlen ≠ 0 then
    modname.toList ++ ['.'] ++ param.toList ++ ['='] ++ (val.getD "").toList
  else
    modname.toList ++ ['.'] ++ param.toList

/-- The size passed to `kmalloc` by `integrated_module_param_cb`. -/
def modparam_size (modname param : String) (val : Option String) : Nat :=
  let nlen := modname.toList.length
  let plen := param.toList.length
  let vlen := match val with
    | some v => v.toList.length
    | none => 0
  if vlen ≠ 0 then nlen + plen + vlen + 3 else nlen + plen + 2

/-- The line printed when the `kmalloc` of `integrated_module_param_cb` fails. -/
def alloc_failed_line (modname param : String) : List Char :=
  "integrated_module_param_cb: allocation failed for module \x27".toList ++ modname.toList ++
    "\x27 parameter \x27".toList ++ param.toList ++ "\x27\n".toList

/-- `integrated_module_param_cb(param, val, modname, arg)`; it always returns 0,
so only the state is produced. -/
def integrated_module_param_cb (E : Env) (param : String) (val : Option String)
    (modname : String) (s : State) : State :=
  if !E.kmalloc_ok s.trace (modparam_size modname param val) then
    emit (Event.pr_err (alloc_failed_line modname param)) s
  else
    (E.unknown_params modname (modparam_of modname param val)).foldl
      (fun st p => unknown_integrated_module_param_cb p modname st) s

/-- The "Setup args" block of `load_modname`. -/
def setup_args (E : Env) (modname : String) (uargs : Uargs) (s : State) : State :=
  match uargs with
  | Uargs.null => s
  | Uargs.fault err =>
    emit (Event.pr_err ("failed to parse args: ".toList ++ fmt_d err ++ "\n".toList)) s
  | Uargs.str args =>
    if args.toList ≠ [] then
      (E.next_args modname args).foldl
        (fun st pv => integrated_module_param_cb E pv.1 pv.2 modname st) s
    else s

/-- The lookup loop of `load_modname`: index of the first entry whose `modname`
equals the requested name. -/
def find_modname (modname : String) : List lazy_initcall → Option Nat
  | [] => none
  | c :: cs =>
    if c.modname = modname then some 0
    else (find_modname modname cs).map Nat.succ

/-- The assignment `lazy_initcalls[i].loaded = true`. -/
def set_loaded : Nat → List lazy_initcall → List lazy_initcall
  | _, [] => []
  | 0, c :: cs => { c with loaded := true } :: cs
  | i + 1, c :: cs => c :: set_loaded i cs

/-- The barrier scan of `load_modname`: some NORMAL entry is not loaded. -/
def pending (l : List lazy_initcall) : Bool :=
  l.any (fun c => decide (c.type = lazy_initcall_type.NORMAL) && !c.loaded)

/-- The text passed to `__fatal`. -/
def fatal_line (modname : String) : List Char :=
  "failed to find a built-in module with the name \"".toList ++ modname.toList ++ "\"\n".toList

/-- The `__fatal(...)` macro: `pr_err` with `CONFIG_LAZY_INITCALL_DEBUG`, `panic` without. -/
def __fatal (E : Env) (modname : String) (s : State) : State :=
  if E.debug then emit (Event.pr_err (fatal_line modname)) s
  else { emit (Event.panic (fatal_line modname)) s with panicked := true }

/-- The line recorded when an initializer returns a non-zero status. -/
def init_failed_line (i : Nat) (modname : String) (ret : Int) : List Char :=
  "lazy_initcalls[".toList ++ fmt_d i ++ "]: ".toList ++ modname.toList ++
    "\x27s init function returned ".toList ++ fmt_d ret ++ "\n".toList

/-- The tail of `load_modname` once entry `i` with initializer `fn` has been
matched and marked: arguments, the call, the failure line, the barrier scan. -/
def run_initcall (E : Env) (modname : String) (uargs : Uargs) (i fn : Nat) (s : State) : State :=
  let s2 := setup_args E modname uargs s
  let ret := E.call s2.trace fn
  let s3 := emit (Event.initcall i fn) s2
  let s4 := if ret ≠ 0 then __err (init_failed_line i modname ret) s3 else s3
  if pending s4.lazy_initcalls then emit Event.queue_work s4
  else { emit Event.cancel_work s4 with completed := true }

/-- `load_modname(modname, uargs)`. -/
def load_modname (E : Env) (T : Tables) (modname : String) (uargs : Uargs) (s : State) : State :=
  if s.panicked then s
  else if modname ∈ T.blacklist then s
  else
    match find_modname modname s.lazy_initcalls with
    | none =>
      if modname ∈ T.builtin_list then s
      else __fatal E modname s
    | some i =>
      match s.lazy_initcalls[i]? with
      | none => s
      | some c =>
        if c.loaded then s
        else
          run_initcall E modname uargs i c.fn
            { s with lazy_initcalls := set_loaded i s.lazy_initcalls }

/-- `__load_module(info, uargs, flags)`: the returned error and the new state. -/
def __load_module (E : Env) (T : Tables) (info : load_info) (uargs : Uargs) (s : State) :
    Int × State :=
  if info.elf_validity_check ≠ 0 then
    (info.elf_validity_check,
      emit (Event.pr_err "Module has invalid ELF structures\n".toList) s)
  else if info.setup_load_info ≠ 0 then (info.setup_load_info, s)
  else (0, load_modname E T info.name uargs s)

/-- The loop `for (i = 0; deferred_list[i]; i++) load_modname(deferred_list[i], NULL)`. -/
def load_deferred (E : Env) (T : Tables) (names : List String) (s : State) : State :=
  names.foldl (fun st d => load_modname E T d Uargs.null st) s

/-- `load_module(info, uargs, flags)`: the returned value and the new state.
When the state comes back with `panicked` set the call did not return and the
value is meaningless. The guard `deferred_list[0] != NULL` only skips an empty
loop and a `pr_info`, so the loop is run unconditionally here. -/
def load_module (E : Env) (T : Tables) (info : load_info) (uargs : Uargs) (s : State) :
    Int × State :=
  if s.panicked then (0, s)
  else if s.completed then (0, s)
  else
    let r := __load_module E T info uargs s
    let s1 := r.2
    if s1.panicked then (r.1, s1)
    else if s1.completed then
      let s2 := load_deferred E T T.deferred_list s1
      if s2.panicked then (r.1, s2)
      else
        let f := show_errors_str E s2
        let s3 := if f.1 then emit Event.warn f.2 else f.2
        (r.1, emit Event.mark_readonly (emit Event.free_initmem s3))
    else (r.1, s1)

/-- One atomic step of the running system: a load request or a reporter tick. -/
inductive Op where
  | load (info : load_info) (uargs : Uargs)
  | tick (boottime_us : Nat)
deriving DecidableEq, Repr

/-- Execute one step. -/
def step (E : Env) (T : Tables) (s : State) : Op → State
  | Op.load info uargs => (load_module E T info uargs s).2
  | Op.tick t => show_errors E t s

/-- Execute a sequence of steps in order. -/
def run (E : Env) (T : Tables) (ops : List Op) (s : State) : State :=
  ops.foldl (step E T) s

/-- The boot scan: `add_lazy_initcall` for each discovered `(fn, modname, filename)`. -/
def register_all (T : Tables) (regs : List (Nat × String × String)) (s : State) : State :=
  regs.foldl (fun st r => (add_lazy_initcall T r.1 r.2.1 r.2.2 st).2) s

/-- A validated image whose extracted name is `name`. -/
def valid_image (name : String) : load_info :=
  { elf_validity_check := 0, setup_load_info := 0, name := name }

/-- The image passed validation. -/
def load_info.valid (info : load_info) : Prop :=
  info.elf_validity_check = 0 ∧ info.setup_load_info = 0

instance (info : load_info) : Decidable info.valid := by
  unfold load_info.valid; infer_instance

/-- Number of times the initializer of entry `i` was invoked in a log. -/
def calls (i : Nat) (tr : List Event) : Nat :=
  tr.countP (fun e => match e with
    | Event.initcall j _ => decide (j = i)
    | _ => false)

/-- An entry with its `loaded` flag cleared: the fields fixed at registration. -/
def shape (c : lazy_initcall) : lazy_initcall := { c with loaded := false }

/-- The `lazy_initcalls[i].loaded` flag, false beyond `counter`. -/
def loaded_at (l : List lazy_initcall) (i : Nat) : Bool :=
  match l[i]? with
  | some c => c.loaded
  | none => false

/-- The event is an initializer invocation. -/
def Event.is_call : Event → Bool
  | Event.initcall _ _ => true
  | _ => false

/-- The type of the registry entry an event invokes, if it is an invocation. -/
def call_type (l : List lazy_initcall) : Event → Option lazy_initcall_type
  | Event.initcall i _ => (l[i]?).map (fun c => c.type)
  | _ => none

/-- The names of the registry entries, in registration order. -/
def names (l : List lazy_initcall) : List String := l.map (fun c => c.modname)

/-- The part of the state that is program data (everything but the effect log). -/
def State.core (s : State) : List lazy_initcall × Bool × List Char × Bool :=
  (s.lazy_initcalls, s.completed, s.errors_str, s.panicked)

/-- A step that touches neither the registry nor `completed` nor `panicked` and
invokes no initializer: it may only log and append to `errors_str`. -/
structure Quiet (s s1 : State) : Prop where
  reg : s1.lazy_initcalls = s.lazy_initcalls
  completed : s1.completed = s.completed
  panicked : s1.panicked = s.panicked
  errors : s.errors_str <+: s1.errors_str
  trace : ∃ d, s1.trace = s.trace ++ d ∧ ∀ e ∈ d, Event.is_call e = false

/-- What every step guarantees: registered fields are fixed, `loaded`,
`completed` and `panicked` only go from false to true, and the buffer and the
log only grow. -/
structure Evolves (s s1 : State) : Prop where
  shape : s1.lazy_initcalls.map shape = s.lazy_initcalls.map shape
  loaded : ∀ i, loaded_at s.lazy_initcalls i = true → loaded_at s1.lazy_initcalls i = true
  completed : s.completed = true → s1.completed = true
  panicked : s.panicked = true → s1.panicked = true
  errors : s.errors_str <+: s1.errors_str
  trace : s.trace <+: s1.trace

/-- Each entry has been invoked once if it is loaded and never otherwise, and
every invocation in the log is that of the entry at its index. -/
def CallsInv (s : State) : Prop :=
  (∀ i, calls i s.trace = if loaded_at s.lazy_initcalls i = true then 1 else 0) ∧
  (∀ i f, Event.initcall i f ∈ s.trace → ∃ c, s.lazy_initcalls[i]? = some c ∧ c.fn = f)

/-- Once `completed` is set no NORMAL entry is pending. -/
def BarInv (s : State) : Prop :=
  s.completed = true → pending s.lazy_initcalls = false

/-- A loaded entry is the first entry carrying its name. -/
def FirstInv (l : List lazy_initcall) : Prop :=
  ∀ j c, l[j]? = some c → c.loaded = true → find_modname c.modname l = some j

/-- What `add_lazy_initcall` guarantees of every entry: its name is not
blacklisted, it is in one of the two enrolment lists, and it is DEFERRED exactly
when it is in `deferred_list`. -/
def Registered (T : Tables) (l : List lazy_initcall) : Prop :=
  ∀ c ∈ l, c.modname ∉ T.blacklist ∧
    (c.modname ∈ T.targets_list ∨ c.modname ∈ T.deferred_list) ∧
    (c.type = lazy_initcall_type.DEFERRED ↔ c.modname ∈ T.deferred_list)

/-- The effect of the tail of `load_modname` for entry `i`: only `completed`, the
buffer and the log change, the log gains exactly one invocation, that of `fn`
for entry `i`, and `completed` is set exactly when no NORMAL entry is pending. -/
structure Invoked (i fn : Nat) (s s1 : State) : Prop where
  reg : s1.lazy_initcalls = s.lazy_initcalls
  panicked : s1.panicked = s.panicked
  completed : s1.completed = (if pending s.lazy_initcalls = true then s.completed else true)
  errors : s.errors_str <+: s1.errors_str
  trace : ∃ d1 d2, s1.trace = s.trace ++ d1 ++ Event.initcall i fn :: d2 ∧
    (∀ e ∈ d1, Event.is_call e = false) ∧ (∀ e ∈ d2, Event.is_call e = false) ∧
    (pending s.lazy_initcalls = false → Event.cancel_work ∈ d2)

/-- The test `add_lazy_initcall` applies to a name: not blacklisted and enrolled
in `targets_list` or `deferred_list`. -/
def accepted (T : Tables) (modname : String) : Bool :=
  decide (modname ∉ T.blacklist) &&
    (decide (modname ∈ T.targets_list) || decide (modname ∈ T.deferred_list))

/-- The entry `add_lazy_initcall` writes for an accepted registration. -/
def new_entry (T : Tables) (fn : Nat) (modname filename : String) : lazy_initcall :=
  { fn := fn, modname := modname, filename := filename,
    type := if modname ∈ T.deferred_list then lazy_initcall_type.DEFERRED
      else lazy_initcall_type.NORMAL,
    loaded := false }

/-- Once `completed` is set and the machine has not halted, every entry is loaded. -/
def DoneInv (s : State) : Prop :=
  s.completed = true → s.panicked = false →
    ∀ i, i < s.lazy_initcalls.length → loaded_at s.lazy_initcalls i = true

/-! ## Concrete scenarios used to exercise the statements -/

/-- Small policy tables: two eligible names, one deferred, one ignored. -/
def demo_tables : Tables :=
  { targets_list := ["a", "b"], builtin_list := ["c", "d"], blacklist := ["x"],
    deferred_list := ["d"] }

/-- A strict-mode environment in which initializer 1 fails with -5, every other
initializer succeeds, and requests carry no parameters. -/
def demo_env : Env :=
  { debug := false, call := fun _ fn => if fn = 1 then -5 else 0, next_args := fun _ _ => [],
    kmalloc_ok := fun _ _ => true, kstrdup_ok := fun _ => true, unknown_params := fun _ _ => [] }

/-- The boot scan of the demo: three accepted components. -/
def demo_regs : List (Nat × String × String) :=
  [(1, "a", "fa"), (2, "b", "fb"), (3, "d", "fd")]

/-- The registry after the demo boot scan. -/
def demo_boot : State := register_all demo_tables demo_regs State.boot

/-- A load request for `name` with a valid image and no arguments. -/
def request (name : String) : Op := Op.load (valid_image name) Uargs.null

/-- A state whose registry holds a loaded entry and an entry under a blacklisted name. -/
def demo_mixed : State :=
  { lazy_initcalls :=
      [{ fn := 1, modname := "a", filename := "fa", type := lazy_initcall_type.NORMAL,
         loaded := true },
       { fn := 7, modname := "x", filename := "fx", type := lazy_initcall_type.NORMAL,
         loaded := false }],
    completed := false, errors_str := [], panicked := false, trace := [Event.initcall 0 1] }

/-- The request's arguments raise no unknown-parameter diagnostic: every pair the
first `parse_args` pass extracts is recognised by the second pass. -/
def no_unknown (E : Env) (modname : String) (u : Uargs) : Prop :=
  ∀ args, u = Uargs.str args → ∀ pv ∈ E.next_args modname args,
    E.unknown_params modname (modparam_of modname pv.1 pv.2) = []

/-- The demo environment with every initializer succeeding. -/
def demo_env_ok : Env := { demo_env with call := fun _ _ => 0 }

/-- The demo environment for a request `mode=fast` whose parameter `mode` is not
declared by the component: the second pass reports `a.mode` as unknown. -/
def demo_env_args : Env :=
  { demo_env with
    next_args := fun _ _ => [("mode", some "fast")],
    unknown_params := fun _ _ => ["a.mode"] }

/-- The load steps for a list of `(image, uargs)` requests. -/
def loads (rs : List (load_info × Uargs)) : List Op :=
  rs.map (fun r => Op.load r.1 r.2)

/-- The names of the NORMAL entries of a registry, in registration order. -/
def normal_names (l : List lazy_initcall) : List String :=
  names (l.filter (fun c => decide (c.type = lazy_initcall_type.NORMAL)))

/-- The shipped `targets_list[]`, without its NULL terminator. -/
def shipped_targets_list : List String :=
  ["camera", "kiwi_v2", "ipa_clientsm", "ipanetm", "rndisipam", "stm_ts_spi", "msm_kgsl",
   "mhi_dev_uci", "snd_soc_cs35l45_i2c", "sec_qc_qcom_wdt_core", "ipam", "sec_thermistor",
   "machine_dlkm", "cpufreq_stats_scmi", "usb_notifier_qcom", "coresight_hwevent",
   "coresight_tmc", "sec_direct_charger", "msm_drm", "qdss_bridge", "usb_f_qdss", "spcom",
   "lpass_cdc_wsa_macro_dlkm", "cnss2", "lpass_cdc_tx_macro_dlkm", "max77705_fuelgauge",
   "lpass_cdc_rx_macro_dlkm", "spss_utils", "abc_hub", "usb_f_gsi", "flicker_sensor", "qcom_pon",
   "bt_fm_slim", "gsim", "lpass_cdc_wsa2_macro_dlkm", "lpass_cdc_va_macro_dlkm", "mac80211",
   "sec_tsp_dumpkey", "mhi_dev_dtr", "swr_dmic_dlkm", "sec_ap_pmic", "mhi_dev_drv",
   "snd_soc_cs35l43_i2c", "wlan_firmware_service", "isg6320", "uwb", "msm_eva",
   "mhi_dev_satellite", "flicker_test", "adsp_loader_dlkm", "swr_ctrl_dlkm", "max77705_charger",
   "coresight_tpda", "audio_pkt_dlkm", "mhi_dev_netdev", "qrtr_mhi", "cps4038_charger",
   "coresight_cti", "memlat_scmi", "pdic_max77705", "qcrypto_msm_dlkm", "sdhci_msm_sec",
   "rmnet_wlan", "btpower", "stmvl53l8", "rmnet_perf", "wcd938x_dlkm", "pinctrl_lpi_dlkm",
   "coresight_dummy", "stm_p_basic", "snd_soc_hdmi_codec", "coresight_funnel", "lpass_cdc_dlkm",
   "wcd9xxx_dlkm", "mhi_cntrl_qcom", "audio_prm_dlkm", "spf_core_dlkm", "gpr_dlkm",
   "snd_soc_cirrus_amp", "q6_notifier_dlkm", "sec_qc_qcom_reboot_reason", "mbhc_dlkm",
   "qcom_q6v5_pas", "qbt2000_spidev", "fingerprint", "f_fs_ipc_log", "rmnet_shs", "bcl_soc",
   "pca9481_charger", "cnss_utils", "coresight_csr", "wez02", "hdm", "sec_common_fn",
   "sec_qc_rbcmd", "rmnet_sch", "rmnet_aps", "snd_soc_cs40l26", "qrtr_smd", "input_booster_lkm",
   "coresight_remote_etm", "radio_i2c_rtc6226_qca", "usb_f_diag", "cnss_nl",
   "wcd938x_slave_dlkm", "smcinvoke_dlkm", "stm_console", "mfd_max77705", "coresight_tpdm",
   "sec_battery", "sec_qc_rst_exinfo", "rmnet_offload", "cnss_prealloc", "stm_p_ost",
   "hdmi_dlkm", "dropdump", "usb_f_conn_gadget", "dwc3_msm", "qti_qmi_sensor_v2", "synx_driver",
   "cnss_plat_ipc_qmi_svc", "cpufreq_limit", "snd_usb_audio_qmi", "coresight_replicator",
   "coresight_stm", "repeater_qti_pmic_eusb2", "qti_userspace_cdev", "qcom_cpufreq_hw_debug",
   "i2c_msm_geni", "sb_core", "smsc95xx", "lt9611uxc", "sg", "qcom_hv_haptics", "frpc_adsprpc",
   "msm_video", "qcom_va_minidump", "leds_qti_flash", "gh_irq_lend", "nfc_sec", "spi_msm_geni",
   "msm_sharedmem", "qfprom_sys", "qcom_iommu_debug", "msm_performance", "stub_dlkm",
   "hung_task_enh", "msm_geni_serial", "gh_tlmm_vm_mem_access", "qti_ocp_notifier", "smsc75xx",
   "wsa884x_dlkm", "hall_ic", "hdcp_qseecom_dlkm", "qcom_ipc_lite", "qcom_spmi_adc5_gen3",
   "msm_ext_display", "mhi_dev_net", "msm_show_epoch", "ep_pcie_drv", "sec_qc_hw_param",
   "qseecom_proxy", "sec_abc_detect_conn", "qrtr_gunyah", "snvm", "qpnp_amoled_regulator",
   "phy_qcom_emu", "sec_arm64_fsimd_debug", "qcom_pil_info", "snd_soc_wm_adsp", "cfg80211",
   "slim_qcom_ngd_ctrl", "wsa883x_dlkm", "sdpm_clk", "hwmon", "sec_arm64_debug",
   "fingerprint_sysfs", "sec_qc_soc_id", "msm_lmh_dcvs", "reboot_mode", "industrialio_buffer_cb",
   "ddr_cdev", "dev_ril_bridge", "qti_qmi_cdev", "nb7vpq904m", "fsa4480_i2c", "sec_qc_smem",
   "memlat_vendor", "icc_test", "sec_pon_alarm", "i3c_master_msm_geni", "qcom_esoc",
   "leds_qpnp_vibrator_ldo", "max31760_fan", "sec_reboot_cmd", "pm8941_pwrkey",
   "vibrator_vib_info", "cpu_voltage_cooling", "qcom_q6v5", "qcom_spmi_temp_alarm", "kperfmon",
   "policy_engine", "sec_qc_rdx_bootdev", "usb_f_ss_acm", "leds_qti_tri_led", "usb_f_ccid",
   "swr_haptics_dlkm", "usbmon", "nvmem_qfprom", "qcom_lpm", "phy_generic", "repeater_i2c_eusb2",
   "lvstest", "leds_s2mpb02", "sec_pd", "msm_mmrm", "qcom_spss", "mhi", "phy_msm_snps_eusb2",
   "sec_audio_sysfs", "wcd_usbss_i2c", "usb_f_cdev", "qti_battery_charger", "sync_fence",
   "msm_hw_fence", "qcom_vadc_common", "switch_gpio", "cpufreq_stats_vendor", "memlat",
   "audpkt_ion_dlkm", "gh_mem_notifier", "smsc", "redriver", "usb_bam", "rdbg",
   "qti_fixed_regulator", "qcedev_mod_dlkm", "qce50_dlkm", "adsp_sleepmon", "hall_ic_notifier",
   "phy_msm_ssusb_qmp", "usb_f_ss_mon_gadget", "sps_drv", "sec_input_notifier", "ucsi_glink",
   "rmnet_perf_tether", "sec_tclm_v2", "sec_cmd", "if_cb_manager", "sec_secure_touch",
   "sec_tsp_log", "core_hang_detect", "ehset", "stm_ftrace", "hvc_gunyah", "qti_battery_debug",
   "charger_ulog_glink", "pmic_glink_debug", "altmode_glink", "phy_msm_m31_eusb2", "repeater",
   "adsp_factory_module", "sensors_core", "pmic_pon_log", "coresight_tgu", "rmnet_core",
   "boot_stats", "swr_dlkm", "rmnet_ctl", "ipa_fmwk", "plh_scmi", "plh_vendor", "sys_pm_vx",
   "subsystem_sleep_stats", "glink_probe", "dmesg_dumper", "soc_sleep_stats", "cdsp_loader",
   "q6_dlkm", "panel_event_notifier", "usb_typec_manager", "common_muic", "input_cs40l26_i2c",
   "vbus_notifier", "rimps_log", "sec_panel_notifier", "tz_log_dlkm", "snd_event_dlkm",
   "stm_core", "wcd_core_dlkm", "slimbus", "sec_vibrator_inputff_module", "eud",
   "microdump_collector", "pdic_notifier_module", "cl_dsp", "usb_notify_layer", "qcom_sysmon",
   "snd_debug_proc", "cdsprm", "smp2p", "q6_pdr_dlkm", "coresight", "glink_pkt", "gpucc_crow",
   "qcom_glink_spss", "smp2p_sleepstate", "msm_memshare", "heap_mem_ext_v01",
   "qsee_ipc_irq_bridge", "switch_class", "qti_devfreq_cdev", "qcom_cpuss_sleep_stats",
   "qti_cpufreq_cdev", "bam_dma", "debugcc_crow", "debugcc_kalama", "qcom_edac",
   "phy_qcom_ufs_qmp_v4", "pinctrl_spmi_mpp", "camcc_crow", "phy_qcom_ufs_qmp_v4_lahaina",
   "pwm_qti_lpg", "videocc_crow", "gpucc_kalama", "qcom_ramdump", "sysmon_subsystem_stats",
   "phy_qcom_ufs_qmp_v4_waipio", "pmic_glink", "pci_msm_drv", "pdr_interface",
   "rproc_qcom_common", "qcom_smd", "phy_qcom_ufs_qmp_v4_khaje", "qcom_glink_smem", "qcom_glink",
   "qmi_helpers", "twofish_generic", "sec_qc_user_reset", "lcd", "msm_show_resume_irq",
   "msm_gpi", "msm_sysstats", "ssg", "phy_qcom_ufs_qmp_v4_kona", "blk_sec_stats",
   "blk_sec_common", "twofish_common", "zram", "spmi_pmic_arb_debug", "zsmalloc", "qrng_dlkm",
   "sec_qc_param", "sec_qc_summary", "sec_qc_debug", "sec_qc_dbg_partition", "nvme", "nvme_core",
   "bcl_pmic5", "c1dcvs_scmi", "c1dcvs_vendor", "qcom_rimps", "msm_qmp", "qcom_aoss",
   "stub_regulator", "softdog", "s2mpb03", "s2mpb02_regulator", "mfd_s2mpb02",
   "s2dos05_regulator", "pmic_class", "i2c_gpio", "sec_qc_upload_cause", "sec_upload_cause",
   "sec_pmsg", "sec_param", "sec_crashkey_long", "sec_crashkey", "sec_key_notifier",
   "rtc_pm8xxx", "qrtr", "qcom_reboot_reason", "pinctrl_spmi_gpio", "spmi_pmic_arb",
   "qcom_spmi_pmic", "regmap_spmi", "qti_regmap_debugfs", "pmu_scmi", "pmu_vendor",
   "qcom_pmu_lib", "qcom_llcc_pmu", "debug_symbol", "qcom_dload_mode", "arm_smmu",
   "qcom_iommu_util", "phy_qcom_ufs_qrbtc_sdm845", "phy_qcom_ufs_qmp_v4_crow",
   "phy_qcom_ufs_qmp_v4_kalama", "phy_qcom_ufs", "nvmem_qcom_spmi_sdam", "ns", "qnoc_crow",
   "qnoc_kalama", "qnoc_qos", "pinctrl_kalama", "pinctrl_crow", "pinctrl_msm", "memory_dump_v2",
   "mem_buf", "qcom_dma_heaps", "msm_dma_iommu_mapping", "mem_buf_msgq", "mem_buf_dev",
   "mem_hooks", "llcc_qcom", "iommu_logger", "gunyah", "mdt_loader", "secure_buffer", "gh_ctrl",
   "videocc_kalama", "tcsrcc_kalama", "dispcc_kalama", "dispcc_crow", "dcc_v2",
   "crypto_qti_common", "crypto_qti_hwkm", "hwkm", "tmecom_intf", "cqhci", "clk_dummy",
   "cpu_hotplug", "thermal_pause", "sched_walt", "qcom_cpufreq_hw", "sec_pm_log", "bwmon",
   "qcom_dcvs", "dcvs_fp", "rpmh_regulator", "qcom_tsens", "thermal_minidump", "qcom_pdc",
   "qcom_ipcc", "camcc_kalama", "icc_rpmh", "icc_debug", "icc_bcm_voter", "socinfo",
   "gcc_kalama", "gcc_crow", "clk_qcom", "gdsc_regulator", "proxy_consumer", "debug_regulator",
   "clk_rpmh", "qcom_rpmh", "cmd_db", "qcom_ipc_logging", "sec_debug", "qcom_cpu_vendor_hooks",
   "gh_virt_wdt", "qcom_wdt_core", "qcom_scm", "minidump", "gh_rm_drv", "gh_dbl", "gh_msgq",
   "gh_arm_drv", "smem", "qcom_hwspinlock", "abc", "sec_qc_logger", "sec_arm64_ap_context",
   "sec_debug_region", "sec_log_buf", "sec_boot_stat", "sec_class"]

/-- The shipped `builtin_list[]`, without its NULL terminator. -/
def shipped_builtin_list : List String :=
  ["camera", "kiwi_v2", "ipa_clientsm", "ipanetm", "rndisipam", "stm_ts_spi", "msm_kgsl",
   "mhi_dev_uci", "snd_soc_cs35l45_i2c", "sec_qc_qcom_wdt_core", "ipam", "sec_thermistor",
   "machine_dlkm", "cpufreq_stats_scmi", "usb_notifier_qcom", "coresight_hwevent",
   "coresight_tmc", "sec_direct_charger", "msm_drm", "qdss_bridge", "usb_f_qdss", "spcom",
   "lpass_cdc_wsa_macro_dlkm", "cnss2", "lpass_cdc_tx_macro_dlkm", "max77705_fuelgauge",
   "lpass_cdc_rx_macro_dlkm", "spss_utils", "abc_hub", "usb_f_gsi", "flicker_sensor", "qcom_pon",
   "bt_fm_slim", "gsim", "lpass_cdc_wsa2_macro_dlkm", "lpass_cdc_va_macro_dlkm", "mac80211",
   "sec_tsp_dumpkey", "mhi_dev_dtr", "swr_dmic_dlkm", "sec_ap_pmic", "mhi_dev_drv",
   "snd_soc_cs35l43_i2c", "wlan_firmware_service", "isg6320", "uwb", "msm_eva",
   "mhi_dev_satellite", "flicker_test", "adsp_loader_dlkm", "swr_ctrl_dlkm", "max77705_charger",
   "coresight_tpda", "audio_pkt_dlkm", "mhi_dev_netdev", "qrtr_mhi", "cps4038_charger",
   "coresight_cti", "memlat_scmi", "pdic_max77705", "qcrypto_msm_dlkm", "sdhci_msm_sec",
   "rmnet_wlan", "btpower", "stmvl53l8", "rmnet_perf", "wcd938x_dlkm", "pinctrl_lpi_dlkm",
   "coresight_dummy", "stm_p_basic", "snd_soc_hdmi_codec", "coresight_funnel", "lpass_cdc_dlkm",
   "wcd9xxx_dlkm", "mhi_cntrl_qcom", "audio_prm_dlkm", "spf_core_dlkm", "gpr_dlkm",
   "snd_soc_cirrus_amp", "q6_notifier_dlkm", "sec_qc_qcom_reboot_reason", "mbhc_dlkm",
   "qcom_q6v5_pas", "qbt2000_spidev", "fingerprint", "f_fs_ipc_log", "rmnet_shs", "bcl_soc",
   "pca9481_charger", "cnss_utils", "coresight_csr", "wez02", "hdm", "sec_common_fn",
   "sec_qc_rbcmd", "rmnet_sch", "rmnet_aps", "snd_soc_cs40l26", "qrtr_smd", "input_booster_lkm",
   "coresight_remote_etm", "radio_i2c_rtc6226_qca", "usb_f_diag", "cnss_nl",
   "wcd938x_slave_dlkm", "smcinvoke_dlkm", "stm_console", "mfd_max77705", "coresight_tpdm",
   "sec_battery", "sec_qc_rst_exinfo", "rmnet_offload", "cnss_prealloc", "stm_p_ost",
   "hdmi_dlkm", "dropdump", "usb_f_conn_gadget", "dwc3_msm", "qti_qmi_sensor_v2", "synx_driver",
   "cnss_plat_ipc_qmi_svc", "cpufreq_limit", "snd_usb_audio_qmi", "coresight_replicator",
   "coresight_stm", "repeater_qti_pmic_eusb2", "qti_userspace_cdev", "qcom_cpufreq_hw_debug",
   "i2c_msm_geni", "sb_core", "smsc95xx", "lt9611uxc", "sg", "qcom_hv_haptics", "frpc_adsprpc",
   "msm_video", "qcom_va_minidump", "leds_qti_flash", "gh_irq_lend", "nfc_sec", "spi_msm_geni",
   "msm_sharedmem", "qfprom_sys", "qcom_iommu_debug", "msm_performance", "stub_dlkm",
   "hung_task_enh", "msm_geni_serial", "gh_tlmm_vm_mem_access", "qti_ocp_notifier", "smsc75xx",
   "wsa884x_dlkm", "hall_ic", "hdcp_qseecom_dlkm", "qcom_ipc_lite", "qcom_spmi_adc5_gen3",
   "msm_ext_display", "mhi_dev_net", "msm_show_epoch", "ep_pcie_drv", "sec_qc_hw_param",
   "qseecom_proxy", "sec_abc_detect_conn", "qrtr_gunyah", "snvm", "qpnp_amoled_regulator",
   "phy_qcom_emu", "sec_arm64_fsimd_debug", "qcom_pil_info", "snd_soc_wm_adsp", "cfg80211",
   "slim_qcom_ngd_ctrl", "wsa883x_dlkm", "sdpm_clk", "hwmon", "sec_arm64_debug",
   "fingerprint_sysfs", "sec_qc_soc_id", "msm_lmh_dcvs", "reboot_mode", "industrialio_buffer_cb",
   "ddr_cdev", "dev_ril_bridge", "qti_qmi_cdev", "nb7vpq904m", "fsa4480_i2c", "sec_qc_smem",
   "memlat_vendor", "icc_test", "sec_pon_alarm", "i3c_master_msm_geni", "qcom_esoc",
   "leds_qpnp_vibrator_ldo", "max31760_fan", "sec_reboot_cmd", "pm8941_pwrkey",
   "vibrator_vib_info", "cpu_voltage_cooling", "qcom_q6v5", "qcom_spmi_temp_alarm", "kperfmon",
   "policy_engine", "sec_qc_rdx_bootdev", "usb_f_ss_acm", "leds_qti_tri_led", "usb_f_ccid",
   "swr_haptics_dlkm", "usbmon", "nvmem_qfprom", "qcom_lpm", "phy_generic", "repeater_i2c_eusb2",
   "lvstest", "leds_s2mpb02", "sec_pd", "msm_mmrm", "qcom_spss", "mhi", "phy_msm_snps_eusb2",
   "sec_audio_sysfs", "wcd_usbss_i2c", "usb_f_cdev", "qti_battery_charger", "sync_fence",
   "msm_hw_fence", "qcom_vadc_common", "switch_gpio", "cpufreq_stats_vendor", "memlat",
   "audpkt_ion_dlkm", "gh_mem_notifier", "smsc", "redriver", "usb_bam", "rdbg",
   "qti_fixed_regulator", "qcedev_mod_dlkm", "qce50_dlkm", "adsp_sleepmon", "hall_ic_notifier",
   "phy_msm_ssusb_qmp", "usb_f_ss_mon_gadget", "sps_drv", "sec_input_notifier", "ucsi_glink",
   "rmnet_perf_tether", "sec_tclm_v2", "sec_cmd", "if_cb_manager", "sec_secure_touch",
   "sec_tsp_log", "core_hang_detect", "ehset", "stm_ftrace", "hvc_gunyah", "qti_battery_debug",
   "charger_ulog_glink", "pmic_glink_debug", "altmode_glink", "phy_msm_m31_eusb2", "repeater",
   "adsp_factory_module", "sensors_core", "pmic_pon_log", "coresight_tgu", "rmnet_core",
   "boot_stats", "swr_dlkm", "rmnet_ctl", "ipa_fmwk", "plh_scmi", "plh_vendor", "sys_pm_vx",
   "subsystem_sleep_stats", "glink_probe", "dmesg_dumper", "soc_sleep_stats", "cdsp_loader",
   "q6_dlkm", "panel_event_notifier", "usb_typec_manager", "common_muic", "input_cs40l26_i2c",
   "vbus_notifier", "rimps_log", "sec_panel_notifier", "tz_log_dlkm", "snd_event_dlkm",
   "stm_core", "wcd_core_dlkm", "slimbus", "sec_vibrator_inputff_module", "eud",
   "microdump_collector", "pdic_notifier_module", "cl_dsp", "usb_notify_layer", "qcom_sysmon",
   "snd_debug_proc", "cdsprm", "smp2p", "q6_pdr_dlkm", "coresight", "glink_pkt", "gpucc_crow",
   "qcom_glink_spss", "smp2p_sleepstate", "msm_memshare", "heap_mem_ext_v01",
   "qsee_ipc_irq_bridge", "switch_class", "qti_devfreq_cdev", "qcom_cpuss_sleep_stats",
   "qti_cpufreq_cdev", "bam_dma", "debugcc_crow", "debugcc_kalama", "qcom_edac",
   "phy_qcom_ufs_qmp_v4", "pinctrl_spmi_mpp", "camcc_crow", "phy_qcom_ufs_qmp_v4_lahaina",
   "pwm_qti_lpg", "videocc_crow", "gpucc_kalama", "qcom_ramdump", "sysmon_subsystem_stats",
   "phy_qcom_ufs_qmp_v4_waipio", "pmic_glink", "pci_msm_drv", "pdr_interface",
   "rproc_qcom_common", "qcom_smd", "phy_qcom_ufs_qmp_v4_khaje", "qcom_glink_smem", "qcom_glink",
   "qmi_helpers", "twofish_generic", "sec_qc_user_reset", "lcd", "msm_show_resume_irq",
   "msm_gpi", "msm_sysstats", "ssg", "phy_qcom_ufs_qmp_v4_kona", "blk_sec_stats",
   "blk_sec_common", "twofish_common", "zram", "spmi_pmic_arb_debug", "zsmalloc", "qrng_dlkm",
   "sec_qc_param", "sec_qc_summary", "sec_qc_debug", "sec_qc_dbg_partition", "nvme", "nvme_core",
   "bcl_pmic5", "c1dcvs_scmi", "c1dcvs_vendor", "qcom_rimps", "ufs_qcom", "ufshcd_crypto_qti",
   "msm_qmp", "qcom_aoss", "stub_regulator", "softdog", "s2mpb03", "s2mpb02_regulator",
   "mfd_s2mpb02", "s2dos05_regulator", "pmic_class", "i2c_gpio", "sec_qc_upload_cause",
   "sec_upload_cause", "sec_pmsg", "sec_param", "sec_crashkey_long", "sec_crashkey",
   "sec_key_notifier", "rtc_pm8xxx", "qrtr", "qcom_reboot_reason", "pinctrl_spmi_gpio",
   "spmi_pmic_arb", "qcom_spmi_pmic", "regmap_spmi", "qti_regmap_debugfs", "pmu_scmi",
   "pmu_vendor", "qcom_pmu_lib", "qcom_llcc_pmu", "debug_symbol", "qcom_dload_mode", "arm_smmu",
   "qcom_iommu_util", "phy_qcom_ufs_qrbtc_sdm845", "phy_qcom_ufs_qmp_v4_crow",
   "phy_qcom_ufs_qmp_v4_kalama", "phy_qcom_ufs", "nvmem_qcom_spmi_sdam", "ns", "qnoc_crow",
   "qnoc_kalama", "qnoc_qos", "pinctrl_kalama", "pinctrl_crow", "pinctrl_msm", "memory_dump_v2",
   "mem_buf", "qcom_dma_heaps", "msm_dma_iommu_mapping", "mem_buf_msgq", "mem_buf_dev",
   "mem_hooks", "llcc_qcom", "iommu_logger", "gunyah", "mdt_loader", "secure_buffer", "gh_ctrl",
   "videocc_kalama", "tcsrcc_kalama", "dispcc_kalama", "dispcc_crow", "dcc_v2",
   "crypto_qti_common", "crypto_qti_hwkm", "hwkm", "tmecom_intf", "cqhci", "clk_dummy",
   "cpu_hotplug", "thermal_pause", "sched_walt", "qcom_cpufreq_hw", "sec_pm_log", "bwmon",
   "qcom_dcvs", "dcvs_fp", "rpmh_regulator", "qcom_tsens", "thermal_minidump", "qcom_pdc",
   "qcom_ipcc", "camcc_kalama", "icc_rpmh", "icc_debug", "icc_bcm_voter", "socinfo",
   "gcc_kalama", "gcc_crow", "clk_qcom", "gdsc_regulator", "proxy_consumer", "debug_regulator",
   "clk_rpmh", "qcom_rpmh", "cmd_db", "qcom_ipc_logging", "sec_debug", "qcom_cpu_vendor_hooks",
   "gh_virt_wdt", "qcom_wdt_core", "qcom_scm", "minidump", "gh_rm_drv", "gh_dbl", "gh_msgq",
   "gh_arm_drv", "smem", "qcom_hwspinlock", "abc", "sec_qc_logger", "sec_arm64_ap_context",
   "sec_debug_region", "sec_log_buf", "sec_boot_stat", "sec_class"]

/-- The shipped `blacklist[]`, without its NULL terminator. -/
def shipped_blacklist : List String :=
  []

/-- The shipped `deferred_list[]`, without its NULL terminator. -/
def shipped_deferred_list : List String :=
  ["ufshcd_crypto_qti", "ufs_qcom"]

/-- The policy tables compiled into the file. -/
def shipped : Tables :=
  { targets_list := shipped_targets_list, builtin_list := shipped_builtin_list,
    blacklist := shipped_blacklist, deferred_list := shipped_deferred_list }

/-- Every invocation of a DEFERRED entry in the log comes strictly after the
invocation of every NORMAL entry: at the moment a DEFERRED entry is invoked, each
NORMAL entry has already been invoked (exactly once). -/
def DeferredOrdered (l : List lazy_initcall) (tr : List Event) : Prop :=
  ∀ tr1 e tr2, tr = tr1 ++ e :: tr2 → call_type l e = some lazy_initcall_type.DEFERRED →
    ∀ (j : Nat) (c : lazy_initcall), l[j]? = some c → c.type = lazy_initcall_type.NORMAL →
      calls j tr1 = 1

/-- The name is carried by some DEFERRED entry of the registry. -/
def deferred_name (l : List lazy_initcall) (n : String) : Prop :=
  ∃ c ∈ l, c.type = lazy_initcall_type.DEFERRED ∧ c.modname = n

/-- The C `ARRAY_SIZE` of a NULL-terminated policy array. -/
def ARRAY_SIZE (l : List String) : Nat := l.length + 1

/-- The declared length of `lazy_initcalls[]`:
`ARRAY_SIZE(targets_list) - ARRAY_SIZE(blacklist) + ARRAY_SIZE(deferred_list)`. -/
def capacity (T : Tables) : Nat :=
  ARRAY_SIZE T.targets_list - ARRAY_SIZE T.blacklist + ARRAY_SIZE T.deferred_list

/-- A step appends to the log only events that satisfy `A`. -/
def Emits (A : Event → Prop) (s s1 : State) : Prop :=
  ∃ d, s1.trace = s.trace ++ d ∧ ∀ e ∈ d, A e

/-- The demo environment built with `CONFIG_LAZY_INITCALL_DEBUG`. -/
def demo_env_debug : Env := { demo_env with debug := true }

/-- The log holds neither `free_initmem` nor `mark_readonly`. -/
def no_release (tr : List Event) : Prop :=
  Event.free_initmem ∉ tr ∧ Event.mark_readonly ∉ tr

/-- The one-way action and `completed`: either the action has not been performed
(and a live machine has `completed` false), or the machine is live with `completed`
set and the log holds `free_initmem` immediately followed by `mark_readonly` exactly
once. -/
def ReleaseInv (s : State) : Prop :=
  (no_release s.trace ∧ (s.panicked = false → s.completed = false)) ∨
  (s.completed = true ∧ s.panicked = false ∧
    ∃ a b, s.trace = a ++ Event.free_initmem :: Event.mark_readonly :: b ∧
      no_release a ∧ no_release b)

/-- The demo registry when only the deferred component is built in. -/
def demo_deferred_only : State := register_all demo_tables [(3, "d", "fd")] State.boot

/-- The names of the entries invoked in a log, in order of invocation. -/
def called_names (l : List lazy_initcall) (tr : List Event) : List String :=
  tr.filterMap (fun e => match e with
    | Event.initcall i _ => (l[i]?).map (fun c => c.modname)
    | _ => none)

/-- The registry indices of the DEFERRED entries invoked in a log, in order of
invocation. -/
def deferred_call_indices (l : List lazy_initcall) (tr : List Event) : List Nat :=
  tr.filterMap (fun e => match e with
    | Event.initcall i _ =>
      if (l[i]?).map (fun c => c.type) = some lazy_initcall_type.DEFERRED then some i else none
    | _ => none)

/-- A boot scan with the shipped tables in which `ufs_qcom` registers before
`ufshcd_crypto_qti`. -/
def shipped_demo_regs : List (Nat × String × String) :=
  [(1, "ufs_qcom", "drivers/ufs/host/ufs-qcom.c"),
   (2, "ufshcd_crypto_qti", "drivers/ufs/host/ufshcd-crypto-qti.c"),
   (3, "camera", "drivers/cam_core/camera_main.c")]

/-! ## Memory blocks -/

/-- The NUL byte that terminates a C string. -/
def NUL : Char := Char.ofNat 0

/-- The C string held by a block of memory: the bytes before the first NUL. -/
def c_str (mem : List Char) : List Char :=
  mem.takeWhile (fun c => decide (c ≠ NUL))

/-- Store `data` in a block at offset `off`; `none` when a byte would fall outside
the block. -/
def mem_write (mem : List Char) (off : Nat) (data : List Char) : Option (List Char) :=
  if off + data.length ≤ mem.length then
    some (mem.take off ++ data ++ mem.drop (off + data.length))
  else none

/-- The `snprintf(mem + off, size, ...)` of an already formatted text: at most
`size - 1` characters and a terminating NUL are stored; nothing when `size` is 0. -/
def snprintf_mem (mem : List Char) (off size : Nat) (text : List Char) : Option (List Char) :=
  if size = 0 then some mem
  else mem_write mem off (text.take (size - 1) ++ [NUL])

/-- The `__err(...)` macro on the memory of `errors_str[]`:
`len = strlen(errors_str); snprintf(errors_str + len, sizeof(errors_str) - len, ...)`. -/
def __err_mem (mem : List Char) (line : List Char) : Option (List Char) :=
  snprintf_mem mem (c_str mem).length (ERRORS_STR_SIZE - (c_str mem).length) line

/-- The stores of `integrated_module_param_cb` into the block `modparam` (whose
content before the stores is `mem`): two or three `memcpy` and the single bytes
`'.'`, `'='` and the terminating NUL. -/
def build_modparam (mem : List Char) (modname param : String) (val : Option String) :
    Option (List Char) :=
  let nlen := modname.toList.length
  let plen := param.toList.length
  let vlen := match val with
    | some v => v.toList.length
    | none => 0
  (mem_write mem 0 modname.toList).bind fun m1 =>
  (mem_write m1 nlen ['.']).bind fun m2 =>
  (mem_write m2 (nlen + 1) param.toList).bind fun m3 =>
  if vlen ≠ 0 then
    (mem_write m3 (nlen + 1 + plen) ['=']).bind fun m4 =>
    (mem_write m4 (nlen + 1 + plen + 1) (val.getD "").toList).bind fun m5 =>
    mem_write m5 (nlen + 1 + plen + 1 + vlen) [NUL]
  else
    mem_write m3 (nlen + 1 + plen) [NUL]

/-- `integrated_module_param_cb(param, val, modname, arg)` with its return value and
the memory of `modparam`: `mem` is the content of the block handed out by `kmalloc`
(of the requested size, not initialised). The result is `none` when a store falls
outside the block. -/
def integrated_module_param_cb_mem (E : Env) (mem : List Char) (param : String)
    (val : Option String) (modname : String) (s : State) : Option (Int × State) :=
  if !E.kmalloc_ok s.trace (modparam_size modname param val) then
    some (0, emit (Event.pr_err (alloc_failed_line modname param)) s)
  else
    match build_modparam mem modname param val with
    | none => none
    | some buf =>
      some (0, (E.unknown_params modname (c_str buf)).foldl
        (fun st p => unknown_integrated_module_param_cb p modname st) s)

/-- A state whose buffer holds the two characters "ab". -/
def demo_buffer_state : State := { State.boot with errors_str := ['a', 'b'] }

/-- The 16384-byte memory of `errors_str[]` holding "ab" and its terminator. -/
def demo_buffer_mem : List Char := ['a', 'b'] ++ NUL :: List.replicate 16381 'x'

/-- The lines `show_errors_str` prints for a buffer: one `pr_err` per non-empty
segment between newlines. -/
def flush_lines (buf : List Char) : List Event :=
  ((strsep_all buf).filter (fun tok => decide (tok ≠ []))).map
    (fun tok => Event.pr_err (tok ++ ['\n']))

/-- The demo environment with a failing `kstrdup`. -/
def demo_env_nomem : Env := { demo_env with kstrdup_ok := fun _ => false }

/-- What a tick is said to print for the registry: one "not loaded yet" line for each
index whose entry has `loaded` false, in increasing index order, none for the others. -/
def unloaded_report (l : List lazy_initcall) : List Event :=
  (l.enum.filter (fun p => !p.2.loaded)).map
    (fun p => Event.pr_err (not_loaded_line p.1 p.2.modname))

/-- A demo environment in which `kstrdup` succeeds only while the log is short: the
first flush after one failed request gets its copy, later ones do not. -/
def demo_env_flaky : Env := { demo_env with kstrdup_ok := fun tr => decide (tr.length ≤ 3) }

/-- The buffer is within its bound and is empty, ends a line, or is full. -/
def BufInv (b : List Char) : Prop :=
  b.length ≤ 16383 ∧ (b = [] ∨ (∃ x, b = x ++ ['\n']) ∨ b.length = 16383)

/-- A boot scan passing the name "a" twice. -/
def demo_dup_regs : List (Nat × String × String) :=
  [(1, "a", "fa"), (9, "a", "fa2"), (2, "b", "fb"), (3, "d", "fd")]

/-! ## The registry primitives -/

theorem set_loaded_shape (i : Nat) (l : List lazy_initcall) :
    (set_loaded i l).map shape = l.map shape := by
  induction l generalizing i with
  | nil => cases i <;> rfl
  | cons c cs ih =>
    cases i with
    | zero => simp [set_loaded, shape]
    | succ k => simp [set_loaded, ih]

theorem set_loaded_length (i : Nat) (l : List lazy_initcall) :
    (set_loaded i l).length = l.length := by
  have h := congrArg List.length (set_loaded_shape i l)
  simpa using h

theorem getElem?_set_loaded (i j : Nat) (l : List lazy_initcall) :
    (set_loaded i l)[j]? =
      (l[j]?).map (fun c => if j = i then { c with loaded := true } else c) := by
  induction l generalizing i j with
  | nil => cases i <;> simp [set_loaded]
  | cons c cs ih =>
    cases i with
    | zero =>
      cases j with
      | zero => simp [set_loaded]
      | succ m => simp [set_loaded]
    | succ k =>
      cases j with
      | zero => simp [set_loaded]
      | succ m => simpa [set_loaded] using ih k m

theorem loaded_at_set_loaded (i j : Nat) (l : List lazy_initcall) :
    loaded_at (set_loaded i l) j = (loaded_at l j || (decide (j = i) && decide (i < l.length))) := by
  unfold loaded_at
  rw [getElem?_set_loaded]
  cases h : l[j]? with
  | none =>
    have hj : l.length ≤ j := List.getElem?_eq_none_iff.mp h
    by_cases hji : j = i
    · subst hji; simp [Nat.not_lt.mpr hj]
    · simp [hji]
  | some c =>
    have hj : j < l.length := by
      by_contra hc
      rw [List.getElem?_eq_none_iff.mpr (Nat.le_of_not_lt hc)] at h
      cases h
    by_cases hji : j = i
    · subst hji; simp [hj]
    · simp [hji]

theorem loaded_at_set_loaded_mono (i j : Nat) (l : List lazy_initcall)
    (h : loaded_at l j = true) : loaded_at (set_loaded i l) j = true := by
  rw [loaded_at_set_loaded, h]; rfl

theorem find_modname_some {n : String} {l : List lazy_initcall} {i : Nat}
    (h : find_modname n l = some i) :
    ∃ c, l[i]? = some c ∧ c.modname = n ∧
      ∀ j c1, j < i → l[j]? = some c1 → c1.modname ≠ n := by
  induction l generalizing i with
  | nil => simp [find_modname] at h
  | cons c cs ih =>
    unfold find_modname at h
    by_cases hc : c.modname = n
    · rw [if_pos hc] at h
      cases h
      exact ⟨c, by simp, hc, fun j c1 hj _ => absurd hj (Nat.not_lt_zero j)⟩
    · rw [if_neg hc] at h
      cases hf : find_modname n cs with
      | none => rw [hf] at h; cases h
      | some k =>
        rw [hf] at h
        cases h
        obtain ⟨c0, h1, h2, h3⟩ := ih hf
        refine ⟨c0, by simpa using h1, h2, ?_⟩
        intro j c1 hj hget
        cases j with
        | zero => simp at hget; subst hget; exact hc
        | succ m => exact h3 m c1 (Nat.lt_of_succ_lt_succ hj) (by simpa using hget)

theorem find_modname_none {n : String} {l : List lazy_initcall} :
    find_modname n l = none ↔ n ∉ names l := by
  induction l with
  | nil => simp [find_modname, names]
  | cons c cs ih =>
    unfold find_modname
    by_cases hc : c.modname = n
    · simp [hc, names]
    · rw [if_neg hc]
      have hne : ¬ n = c.modname := fun h => hc h.symm
      simp only [names, List.map_cons, List.mem_cons, hne, false_or]
      rw [← names, ← ih]
      cases find_modname n cs <;> simp

theorem find_modname_lt {n : String} {l : List lazy_initcall} {i : Nat}
    (h : find_modname n l = some i) : i < l.length := by
  obtain ⟨c, h1, _⟩ := find_modname_some h
  by_contra hc
  rw [List.getElem?_eq_none_iff.mpr (Nat.le_of_not_lt hc)] at h1
  cases h1

theorem names_of_shape {l l1 : List lazy_initcall} (h : l1.map shape = l.map shape) :
    names l1 = names l := by
  have h2 := congrArg (List.map (fun c : lazy_initcall => c.modname)) h
  simpa [names, List.map_map, Function.comp_def, shape] using h2

theorem find_modname_names {n : String} {l l1 : List lazy_initcall}
    (h : names l1 = names l) : find_modname n l1 = find_modname n l := by
  induction l generalizing l1 with
  | nil =>
    cases l1 with
    | nil => rfl
    | cons a as => simp [names] at h
  | cons c cs ih =>
    cases l1 with
    | nil => simp [names] at h
    | cons a as =>
      simp only [names, List.map_cons, List.cons.injEq] at h
      unfold find_modname
      rw [h.1, @ih as h.2]

theorem find_modname_nodup {l : List lazy_initcall} (hnd : (names l).Nodup)
    {i : Nat} {c : lazy_initcall} (h : l[i]? = some c) :
    find_modname c.modname l = some i := by
  induction l generalizing i with
  | nil => simp at h
  | cons a as ih =>
    simp only [names, List.map_cons, List.nodup_cons] at hnd
    cases i with
    | zero =>
      simp at h; subst h
      simp [find_modname]
    | succ k =>
      have hk : as[k]? = some c := by simpa using h
      have hmem : c.modname ∈ names as :=
        List.mem_map.mpr ⟨c, List.getElem?_mem hk, rfl⟩
      have hne : a.modname ≠ c.modname := by
        intro he; rw [he] at hnd; exact hnd.1 hmem
      unfold find_modname
      rw [if_neg hne, ih hnd.2 hk]
      rfl

/-! ## Steps that only log -/

theorem quiet_refl (s : State) : Quiet s s :=
  ⟨rfl, rfl, rfl, List.prefix_refl _, [], by simp, by simp⟩

theorem quiet_trans {s s1 s2 : State} (h1 : Quiet s s1) (h2 : Quiet s1 s2) : Quiet s s2 := by
  obtain ⟨d1, ht1, hq1⟩ := h1.trace
  obtain ⟨d2, ht2, hq2⟩ := h2.trace
  refine ⟨h2.reg.trans h1.reg, h2.completed.trans h1.completed,
    h2.panicked.trans h1.panicked, h1.errors.trans h2.errors, d1 ++ d2, ?_, ?_⟩
  · rw [ht2, ht1, List.append_assoc]
  · intro e he
    rcases List.mem_append.mp he with h | h
    · exact hq1 e h
    · exact hq2 e h

theorem quiet_emit (e : Event) (s : State) (he : Event.is_call e = false) :
    Quiet s (emit e s) :=
  ⟨rfl, rfl, rfl, List.prefix_refl _, [e], rfl, by simpa using he⟩

theorem quiet_err (line : List Char) (s : State) : Quiet s (__err line s) :=
  ⟨rfl, rfl, rfl, List.prefix_append _ _, [Event.pr_err _], rfl, by simp [Event.is_call]⟩

theorem quiet_foldl {α : Type} (f : State → α → State) (hf : ∀ s a, Quiet s (f s a))
    (l : List α) (s : State) : Quiet s (l.foldl f s) := by
  induction l generalizing s with
  | nil => exact quiet_refl s
  | cons a as ih => exact quiet_trans (hf s a) (ih (f s a))

theorem quiet_integrated_module_param_cb (E : Env) (param : String) (val : Option String)
    (modname : String) (s : State) :
    Quiet s (integrated_module_param_cb E param val modname s) := by
  unfold integrated_module_param_cb
  split
  · exact quiet_emit _ s rfl
  · exact quiet_foldl _ (fun st p => quiet_err _ st) _ s

theorem quiet_setup_args (E : Env) (modname : String) (uargs : Uargs) (s : State) :
    Quiet s (setup_args E modname uargs s) := by
  unfold setup_args
  cases uargs with
  | null => exact quiet_refl s
  | fault err => exact quiet_emit _ s rfl
  | str args =>
    simp only
    split
    · exact quiet_foldl _ (fun st pv => quiet_integrated_module_param_cb E _ _ _ st) _ s
    · exact quiet_refl s

theorem quiet_show_errors_str (E : Env) (s : State) : Quiet s (show_errors_str E s).2 := by
  unfold show_errors_str
  split
  · exact quiet_refl s
  · split
    · exact quiet_refl s
    · refine ⟨rfl, rfl, rfl, List.prefix_refl _, _, rfl, ?_⟩
      intro e he
      obtain ⟨tok, _, rfl⟩ := List.mem_map.mp he
      rfl

theorem not_loaded_events_quiet (i : Nat) (l : List lazy_initcall) :
    ∀ e ∈ not_loaded_events i l, Event.is_call e = false := by
  induction l generalizing i with
  | nil => simp [not_loaded_events]
  | cons c cs ih =>
    intro e he
    unfold not_loaded_events at he
    split at he
    · rcases List.mem_cons.mp he with h | h
      · subst h; rfl
      · exact ih _ e h
    · exact ih _ e he

theorem quiet_show_errors (E : Env) (t : Nat) (s : State) : Quiet s (show_errors E t s) := by
  unfold show_errors
  split
  · exact quiet_refl s
  · split
    · exact quiet_emit _ s rfl
    · have h1 := quiet_show_errors_str E s
      refine quiet_trans (quiet_trans h1 ?_) (quiet_emit _ _ rfl)
      exact ⟨rfl, rfl, rfl, List.prefix_refl _, _, rfl, not_loaded_events_quiet _ _⟩

/-! ## The tail of `load_modname` -/

theorem invoked_run_initcall (E : Env) (modname : String) (uargs : Uargs) (i fn : Nat)
    (s : State) : Invoked i fn s (run_initcall E modname uargs i fn s) := by
  have hq := quiet_setup_args E modname uargs s
  obtain ⟨d1, ht1, hq1⟩ := hq.trace
  -- the state after the call and the optional failure line
  have key : ∀ s4 : State, Quiet (emit (Event.initcall i fn) (setup_args E modname uargs s)) s4 →
      Invoked i fn s (if pending s4.lazy_initcalls = true then emit Event.queue_work s4
        else { emit Event.cancel_work s4 with completed := true }) := by
    intro s4 h4
    obtain ⟨d, htr, hd⟩ := h4.trace
    have hreg : s4.lazy_initcalls = s.lazy_initcalls := h4.reg.trans hq.reg
    have hpan : s4.panicked = s.panicked := h4.panicked.trans hq.panicked
    have hcomp : s4.completed = s.completed := h4.completed.trans hq.completed
    have herr : s.errors_str <+: s4.errors_str := hq.errors.trans h4.errors
    have htr2 : s4.trace = s.trace ++ d1 ++ Event.initcall i fn :: d := by
      rw [htr]; simp [emit, ht1]
    rw [hreg]
    by_cases hp : pending s.lazy_initcalls = true
    · rw [if_pos hp]
      refine ⟨hreg, hpan, by simp [emit, hp, hcomp], herr, d1, d ++ [Event.queue_work], ?_, hq1, ?_, ?_⟩
      · simp [emit, htr2]
      · intro e he
        rcases List.mem_append.mp he with h | h
        · exact hd e h
        · simp at h; subst h; rfl
      · intro h; rw [h] at hp; cases hp
    · rw [if_neg hp]
      refine ⟨hreg, hpan, by simp [emit, hp], herr, d1, d ++ [Event.cancel_work], ?_, hq1, ?_, ?_⟩
      · simp [emit, htr2]
      · intro e he
        rcases List.mem_append.mp he with h | h
        · exact hd e h
        · simp at h; subst h; rfl
      · intro _; simp
  unfold run_initcall
  simp only
  split
  · exact key _ (quiet_err _ _)
  · exact key _ (quiet_refl _)

/-- The three ways `load_modname` can go. -/
theorem load_modname_cases (E : Env) (T : Tables) (n : String) (u : Uargs) (s : State) :
    load_modname E T n u s = s ∨
    (s.panicked = false ∧ n ∉ T.blacklist ∧ find_modname n s.lazy_initcalls = none ∧
      n ∉ T.builtin_list ∧ load_modname E T n u s = __fatal E n s) ∨
    (∃ i c, s.panicked = false ∧ n ∉ T.blacklist ∧
      find_modname n s.lazy_initcalls = some i ∧ s.lazy_initcalls[i]? = some c ∧
      c.loaded = false ∧
      load_modname E T n u s =
        run_initcall E n u i c.fn { s with lazy_initcalls := set_loaded i s.lazy_initcalls }) := by
  by_cases hp : s.panicked = true
  · left; simp [load_modname, hp]
  have hp2 : s.panicked = false := by simpa using hp
  by_cases hb : n ∈ T.blacklist
  · left; simp [load_modname, hb]
  cases hf : find_modname n s.lazy_initcalls with
  | none =>
    by_cases hbi : n ∈ T.builtin_list
    · left; simp [load_modname, hp2, hb, hf, hbi]
    · right; left
      exact ⟨hp2, hb, rfl, hbi, by simp [load_modname, hp2, hb, hf, hbi]⟩
  | some i =>
    cases hg : s.lazy_initcalls[i]? with
    | none => left; simp [load_modname, hp2, hb, hf, hg]
    | some c =>
      by_cases hl : c.loaded = true
      · left; simp [load_modname, hp2, hb, hf, hg, hl]
      · right; right
        exact ⟨i, c, hp2, hb, rfl, hg, by simpa using hl,
          by simp [load_modname, hp2, hb, hf, hg, hl]⟩

/-! ## Monotone evolution of the state -/

theorem evolves_refl (s : State) : Evolves s s :=
  ⟨rfl, fun _ h => h, fun h => h, fun h => h, List.prefix_refl _, List.prefix_refl _⟩

theorem evolves_trans {s s1 s2 : State} (h1 : Evolves s s1) (h2 : Evolves s1 s2) :
    Evolves s s2 :=
  ⟨h2.shape.trans h1.shape, fun i h => h2.loaded i (h1.loaded i h),
    fun h => h2.completed (h1.completed h), fun h => h2.panicked (h1.panicked h),
    h1.errors.trans h2.errors, h1.trace.trans h2.trace⟩

theorem evolves_of_quiet {s s1 : State} (h : Quiet s s1) : Evolves s s1 := by
  obtain ⟨d, ht, _⟩ := h.trace
  refine ⟨by rw [h.reg], fun i hi => by rw [h.reg]; exact hi, fun hc => by rw [h.completed]; exact hc,
    fun hp => by rw [h.panicked]; exact hp, h.errors, ?_⟩
  rw [ht]; exact List.prefix_append _ _

theorem fatal_fields (E : Env) (n : String) (s : State) :
    (__fatal E n s).lazy_initcalls = s.lazy_initcalls ∧
    (__fatal E n s).completed = s.completed ∧
    (__fatal E n s).errors_str = s.errors_str ∧
    (s.panicked = true → (__fatal E n s).panicked = true) ∧
    ∃ e, (__fatal E n s).trace = s.trace ++ [e] ∧ Event.is_call e = false := by
  unfold __fatal
  split
  · exact ⟨rfl, rfl, rfl, fun h => h, _, rfl, rfl⟩
  · exact ⟨rfl, rfl, rfl, fun _ => rfl, _, rfl, rfl⟩

theorem fatal_evolves (E : Env) (n : String) (s : State) : Evolves s (__fatal E n s) := by
  obtain ⟨h1, h2, h3, h4, e, h5, _⟩ := fatal_fields E n s
  refine ⟨by rw [h1], fun i hi => by rw [h1]; exact hi, fun hc => by rw [h2]; exact hc, h4,
    by rw [h3], ?_⟩
  rw [h5]; exact List.prefix_append _ _

theorem evolves_of_invoked {i fn : Nat} {s s1 : State} (h : Invoked i fn s s1) : Evolves s s1 := by
  obtain ⟨d1, d2, ht, _⟩ := h.trace
  refine ⟨by rw [h.reg], fun j hj => by rw [h.reg]; exact hj, ?_,
    fun hp => by rw [h.panicked]; exact hp, h.errors, ?_⟩
  · intro hc
    rw [h.completed]
    split
    · exact hc
    · rfl
  · rw [ht, List.append_assoc]; exact List.prefix_append _ _

theorem set_loaded_evolves (i : Nat) (s : State) :
    Evolves s { s with lazy_initcalls := set_loaded i s.lazy_initcalls } :=
  ⟨set_loaded_shape i _, fun j hj => loaded_at_set_loaded_mono i j _ hj, fun h => h, fun h => h,
    List.prefix_refl _, List.prefix_refl _⟩

theorem load_modname_evolves (E : Env) (T : Tables) (n : String) (u : Uargs) (s : State) :
    Evolves s (load_modname E T n u s) := by
  rcases load_modname_cases E T n u s with h | ⟨_, _, _, _, h⟩ | ⟨i, c, _, _, _, _, _, h⟩
  · rw [h]; exact evolves_refl s
  · rw [h]; exact fatal_evolves E n s
  · rw [h]
    exact evolves_trans (set_loaded_evolves i s) (evolves_of_invoked (invoked_run_initcall E n u i c.fn _))

theorem evolves_foldl {α : Type} (f : State → α → State) (hf : ∀ s a, Evolves s (f s a))
    (l : List α) (s : State) : Evolves s (l.foldl f s) := by
  induction l generalizing s with
  | nil => exact evolves_refl s
  | cons a as ih => exact evolves_trans (hf s a) (ih (f s a))

theorem load_deferred_evolves (E : Env) (T : Tables) (ds : List String) (s : State) :
    Evolves s (load_deferred E T ds s) :=
  evolves_foldl _ (fun st d => load_modname_evolves E T d Uargs.null st) ds s

theorem load_module_inner_evolves (E : Env) (T : Tables) (info : load_info) (u : Uargs)
    (s : State) : Evolves s (__load_module E T info u s).2 := by
  unfold __load_module
  split
  · exact evolves_of_quiet (quiet_emit (Event.pr_err _) s rfl)
  · split
    · exact evolves_refl s
    · exact load_modname_evolves E T info.name u s

theorem barrier_tail_evolves (E : Env) (s : State) :
    Evolves s (emit Event.mark_readonly (emit Event.free_initmem
      (if (show_errors_str E s).1 = true then emit Event.warn (show_errors_str E s).2
        else (show_errors_str E s).2))) := by
  have h1 := evolves_of_quiet (quiet_show_errors_str E s)
  refine evolves_trans ?_ (evolves_trans (evolves_of_quiet (quiet_emit Event.free_initmem _ rfl))
    (evolves_of_quiet (quiet_emit Event.mark_readonly _ rfl)))
  split
  · exact evolves_trans h1 (evolves_of_quiet (quiet_emit Event.warn _ rfl))
  · exact h1

theorem load_module_evolves (E : Env) (T : Tables) (info : load_info) (u : Uargs) (s : State) :
    Evolves s (load_module E T info u s).2 := by
  have h1 := load_module_inner_evolves E T info u s
  unfold load_module
  split
  · exact evolves_refl s
  · split
    · exact evolves_refl s
    · simp only
      split
      · exact h1
      · split
        · have h2 := load_deferred_evolves E T T.deferred_list (__load_module E T info u s).2
          split
          · exact evolves_trans h1 h2
          · exact evolves_trans (evolves_trans h1 h2) (barrier_tail_evolves E _)
        · exact h1

theorem step_evolves (E : Env) (T : Tables) (s : State) (op : Op) : Evolves s (step E T s op) := by
  cases op with
  | load info u => exact load_module_evolves E T info u s
  | tick t => exact evolves_of_quiet (quiet_show_errors E t s)

theorem run_evolves (E : Env) (T : Tables) (ops : List Op) (s : State) :
    Evolves s (run E T ops s) :=
  evolves_foldl _ (step_evolves E T) ops s

theorem run_append (E : Env) (T : Tables) (ops1 ops2 : List Op) (s : State) :
    run E T (ops1 ++ ops2) s = run E T ops2 (run E T ops1 s) := by
  simp [run, List.foldl_append]

theorem run_cons (E : Env) (T : Tables) (op : Op) (ops : List Op) (s : State) :
    run E T (op :: ops) s = run E T ops (step E T s op) := rfl

/-! ## Lifting an invariant from `load_modname` to whole executions -/

theorem load_deferred_preserves (E : Env) (T : Tables) (P : State → Prop)
    (hm : ∀ n u s, P s → P (load_modname E T n u s)) (ds : List String) (s : State)
    (h : P s) : P (load_deferred E T ds s) := by
  unfold load_deferred
  induction ds generalizing s with
  | nil => exact h
  | cons d ds ih => exact ih _ (hm d Uargs.null s h)

theorem load_module_preserves (E : Env) (T : Tables) (P : State → Prop)
    (hq : ∀ s s1, Quiet s s1 → P s → P s1)
    (hm : ∀ n u s, P s → P (load_modname E T n u s))
    (info : load_info) (u : Uargs) (s : State) (h : P s) :
    P (load_module E T info u s).2 := by
  have h1 : P (__load_module E T info u s).2 := by
    unfold __load_module
    split
    · exact hq _ _ (quiet_emit (Event.pr_err _) s rfl) h
    · split
      · exact h
      · exact hm _ _ _ h
  unfold load_module
  split
  · exact h
  · split
    · exact h
    · simp only
      split
      · exact h1
      · split
        · have h2 := load_deferred_preserves E T P hm T.deferred_list _ h1
          split
          · exact h2
          · apply hq _ _ (quiet_emit Event.mark_readonly _ rfl)
            apply hq _ _ (quiet_emit Event.free_initmem _ rfl)
            have h3 := hq _ _ (quiet_show_errors_str E _) h2
            split
            · exact hq _ _ (quiet_emit Event.warn _ rfl) h3
            · exact h3
        · exact h1

theorem run_preserves (E : Env) (T : Tables) (P : State → Prop)
    (hq : ∀ s s1, Quiet s s1 → P s → P s1)
    (hm : ∀ n u s, P s → P (load_modname E T n u s))
    (ops : List Op) (s : State) (h : P s) : P (run E T ops s) := by
  unfold run
  induction ops generalizing s with
  | nil => exact h
  | cons op ops ih =>
    apply ih
    cases op with
    | load info u => exact load_module_preserves E T P hq hm info u s h
    | tick t => exact hq _ _ (quiet_show_errors E t s) h

/-! ## Counting invocations -/

theorem calls_append (i : Nat) (a b : List Event) :
    calls i (a ++ b) = calls i a + calls i b := by
  simp [calls, List.countP_append]

theorem calls_quiet (i : Nat) (d : List Event) (h : ∀ e ∈ d, Event.is_call e = false) :
    calls i d = 0 := by
  unfold calls
  rw [List.countP_eq_zero]
  intro e he
  have := h e he
  cases e <;> simp_all [Event.is_call]

theorem calls_cons_initcall (i j fn : Nat) (d : List Event) :
    calls i (Event.initcall j fn :: d) = (if j = i then 1 else 0) + calls i d := by
  unfold calls
  by_cases h : j = i
  · simp [h]
    omega
  · simp [h, List.countP_cons]

theorem pending_iff (l : List lazy_initcall) :
    pending l = true ↔
      ∃ (j : Nat) (c : lazy_initcall),
        l[j]? = some c ∧ c.type = lazy_initcall_type.NORMAL ∧ c.loaded = false := by
  unfold pending
  rw [List.any_eq_true]
  constructor
  · rintro ⟨c, hc, h⟩
    obtain ⟨j, hj⟩ := List.mem_iff_getElem?.mp hc
    refine ⟨j, c, hj, ?_⟩
    simpa using h
  · rintro ⟨j, c, hj, h1, h2⟩
    exact ⟨c, List.getElem?_mem hj, by simp [h1, h2]⟩

theorem getElem?_of_shape {l l1 : List lazy_initcall} (h : l1.map shape = l.map shape)
    {i : Nat} {c1 : lazy_initcall} (h1 : l1[i]? = some c1) :
    ∃ c, l[i]? = some c ∧ shape c = shape c1 := by
  have h2 := congrArg (fun x : List lazy_initcall => x[i]?) h
  simp only [List.getElem?_map, h1, Option.map_some'] at h2
  cases hl : l[i]? with
  | none => rw [hl] at h2; cases h2
  | some c =>
    rw [hl] at h2
    exact ⟨c, rfl, by simpa using h2.symm⟩

theorem pending_antitone {l l1 : List lazy_initcall} (hs : l1.map shape = l.map shape)
    (hl : ∀ i, loaded_at l i = true → loaded_at l1 i = true) (h : pending l1 = true) :
    pending l = true := by
  rw [pending_iff] at h ⊢
  obtain ⟨j, c1, hj, h1, h2⟩ := h
  obtain ⟨c, hc, hsh⟩ := getElem?_of_shape hs hj
  refine ⟨j, c, hc, ?_, ?_⟩
  · have := congrArg lazy_initcall.type hsh
    simp only [shape] at this
    rw [this]; exact h1
  · by_contra hne
    have hlt : loaded_at l j = true := by
      simp only [loaded_at, hc]; simpa using hne
    have := hl j hlt
    simp only [loaded_at, hj] at this
    rw [this] at h2; cases h2

theorem pending_of_evolves {s s1 : State} (h : Evolves s s1)
    (hp : pending s1.lazy_initcalls = true) : pending s.lazy_initcalls = true :=
  pending_antitone h.shape h.loaded hp

/-! ## The invariants -/

theorem callsInv_quiet (s s1 : State) (h : Quiet s s1) (hi : CallsInv s) : CallsInv s1 := by
  obtain ⟨d, ht, hd⟩ := h.trace
  refine ⟨fun i => ?_, fun i f hm => ?_⟩
  · rw [ht, calls_append, calls_quiet i d hd, h.reg, Nat.add_zero]
    exact hi.1 i
  · rw [ht] at hm
    rw [h.reg]
    rcases List.mem_append.mp hm with hm | hm
    · exact hi.2 i f hm
    · have := hd _ hm
      simp [Event.is_call] at this

theorem callsInv_fatal (E : Env) (n : String) (s : State) (hi : CallsInv s) :
    CallsInv (__fatal E n s) := by
  obtain ⟨h1, _, _, _, e, h5, he⟩ := fatal_fields E n s
  refine ⟨fun i => ?_, fun i f hm => ?_⟩
  · rw [h5, calls_append, calls_quiet i [e] (by simpa using he), h1, Nat.add_zero]
    exact hi.1 i
  · rw [h5] at hm
    rw [h1]
    rcases List.mem_append.mp hm with hm | hm
    · exact hi.2 i f hm
    · simp at hm; subst hm; simp [Event.is_call] at he

theorem callsInv_load_modname (E : Env) (T : Tables) (n : String) (u : Uargs) (s : State)
    (hi : CallsInv s) : CallsInv (load_modname E T n u s) := by
  rcases load_modname_cases E T n u s with h | ⟨_, _, _, _, h⟩ | ⟨i, c, _, _, hf, hg, hl, h⟩
  · rw [h]; exact hi
  · rw [h]; exact callsInv_fatal E n s hi
  · rw [h]
    have hinv := invoked_run_initcall E n u i c.fn
      { s with lazy_initcalls := set_loaded i s.lazy_initcalls }
    obtain ⟨d1, d2, ht, hd1, hd2, _⟩ := hinv.trace
    have hlen : i < s.lazy_initcalls.length := find_modname_lt hf
    have hli : loaded_at s.lazy_initcalls i = false := by
      simp [loaded_at, hg, hl]
    refine ⟨fun j => ?_, fun j f hm => ?_⟩
    · rw [ht, hinv.reg, calls_append, calls_append, calls_cons_initcall,
        calls_quiet j d1 hd1, calls_quiet j d2 hd2, loaded_at_set_loaded]
      simp only [Nat.add_zero]
      rw [hi.1 j]
      by_cases hji : j = i
      · subst hji; simp [hli, hlen]
      · have : ¬ i = j := fun h => hji h.symm
        simp [hji, this]
    · rw [ht] at hm
      rw [hinv.reg]
      simp only [getElem?_set_loaded]
      have hold : ∀ j f, Event.initcall j f ∈ s.trace →
          ∃ c0, Option.map (fun c => if j = i then { c with loaded := true } else c)
            s.lazy_initcalls[j]? = some c0 ∧ c0.fn = f := by
        intro j f hjf
        obtain ⟨c0, h0, h1⟩ := hi.2 j f hjf
        rw [h0]
        refine ⟨_, rfl, ?_⟩
        split <;> exact h1
      simp only [List.mem_append, List.mem_cons] at hm
      rcases hm with (hm | hm) | hm | hm
      · exact hold j f hm
      · have := hd1 _ hm; simp [Event.is_call] at this
      · cases hm
        rw [hg]
        exact ⟨_, rfl, by simp⟩
      · have := hd2 _ hm; simp [Event.is_call] at this

theorem callsInv_run (E : Env) (T : Tables) (ops : List Op) (s : State) (hi : CallsInv s) :
    CallsInv (run E T ops s) :=
  run_preserves E T CallsInv callsInv_quiet (callsInv_load_modname E T) ops s hi

theorem barInv_load_modname (E : Env) (T : Tables) (n : String) (u : Uargs) (s : State)
    (hi : BarInv s) : BarInv (load_modname E T n u s) := by
  rcases load_modname_cases E T n u s with h | ⟨_, _, _, _, h⟩ | ⟨i, c, _, _, hf, hg, hl, h⟩
  · rw [h]; exact hi
  · rw [h]
    obtain ⟨h1, h2, _⟩ := fatal_fields E n s
    intro hc
    rw [h1]; rw [h2] at hc; exact hi hc
  · rw [h]
    have hinv := invoked_run_initcall E n u i c.fn
      { s with lazy_initcalls := set_loaded i s.lazy_initcalls }
    intro hc
    rw [hinv.reg]
    rw [hinv.completed] at hc
    by_contra hp
    have hp2 : pending (set_loaded i s.lazy_initcalls) = true := by simpa using hp
    simp only [hp2, if_true] at hc
    have := hi hc
    have h3 := pending_of_evolves (set_loaded_evolves i s) hp2
    rw [this] at h3; cases h3

theorem barInv_quiet (s s1 : State) (h : Quiet s s1) (hi : BarInv s) : BarInv s1 := by
  intro hc
  rw [h.reg]; rw [h.completed] at hc; exact hi hc

theorem barInv_run (E : Env) (T : Tables) (ops : List Op) (s : State) (hi : BarInv s) :
    BarInv (run E T ops s) :=
  run_preserves E T BarInv barInv_quiet (barInv_load_modname E T) ops s hi

theorem firstInv_load_modname (E : Env) (T : Tables) (n : String) (u : Uargs) (s : State)
    (hi : FirstInv s.lazy_initcalls) : FirstInv (load_modname E T n u s).lazy_initcalls := by
  rcases load_modname_cases E T n u s with h | ⟨_, _, _, _, h⟩ | ⟨i, c, _, _, hf, hg, hl, h⟩
  · rw [h]; exact hi
  · rw [h, (fatal_fields E n s).1]; exact hi
  · rw [h, (invoked_run_initcall E n u i c.fn _).reg]
    intro j c1 hj hc1
    simp only at hj ⊢
    rw [find_modname_names (names_of_shape (set_loaded_shape i s.lazy_initcalls))]
    rw [getElem?_set_loaded] at hj
    cases h0 : s.lazy_initcalls[j]? with
    | none => rw [h0] at hj; cases hj
    | some c0 =>
      rw [h0] at hj
      simp only [Option.map_some', Option.some.injEq] at hj
      by_cases hji : j = i
      · subst hji
        rw [if_pos rfl] at hj
        subst hj
        obtain ⟨c2, h2, h3, _⟩ := find_modname_some hf
        rw [h0] at h2; cases h2
        simp only
        rw [h3]; exact hf
      · rw [if_neg hji] at hj
        subst hj
        exact hi j c0 h0 hc1

theorem firstInv_run (E : Env) (T : Tables) (ops : List Op) (s : State)
    (hi : FirstInv s.lazy_initcalls) : FirstInv (run E T ops s).lazy_initcalls :=
  run_preserves E T (fun st => FirstInv st.lazy_initcalls)
    (fun _ s1 h hp => by show FirstInv s1.lazy_initcalls; rw [h.reg]; exact hp)
    (firstInv_load_modname E T) ops s hi

/-! ## Registration -/

theorem add_lazy_initcall_eq (T : Tables) (fn : Nat) (modname filename : String) (s : State) :
    add_lazy_initcall T fn modname filename s =
      if accepted T modname = true then
        (true, { s with lazy_initcalls := s.lazy_initcalls ++ [new_entry T fn modname filename] })
      else (false, s) := by
  unfold add_lazy_initcall accepted new_entry
  by_cases hb : modname ∈ T.blacklist
  · simp [hb]
  · by_cases ht : modname ∈ T.targets_list <;> by_cases hd : modname ∈ T.deferred_list <;>
      simp [hb, ht, hd]

theorem register_all_eq (T : Tables) (regs : List (Nat × String × String)) (s : State) :
    register_all T regs s =
      { s with lazy_initcalls := s.lazy_initcalls ++
        (regs.filter (fun r => accepted T r.2.1)).map (fun r => new_entry T r.1 r.2.1 r.2.2) } := by
  unfold register_all
  induction regs generalizing s with
  | nil => simp
  | cons r rs ih =>
    rw [List.foldl_cons, ih, add_lazy_initcall_eq]
    by_cases ha : accepted T r.2.1 = true
    · simp [ha, List.filter_cons]
    · simp [ha, List.filter_cons]

theorem register_all_boot (T : Tables) (regs : List (Nat × String × String)) :
    register_all T regs State.boot =
      { State.boot with lazy_initcalls :=
        (regs.filter (fun r => accepted T r.2.1)).map (fun r => new_entry T r.1 r.2.1 r.2.2) } := by
  rw [register_all_eq]; simp [State.boot]

theorem boot_names (T : Tables) (regs : List (Nat × String × String)) :
    names (register_all T regs State.boot).lazy_initcalls =
      (regs.map (fun r => r.2.1)).filter (fun n => accepted T n) := by
  rw [register_all_boot]
  simp only [names, List.map_map]
  rw [List.filter_map]
  rfl

theorem boot_entry (T : Tables) (regs : List (Nat × String × String)) {c : lazy_initcall}
    (h : c ∈ (register_all T regs State.boot).lazy_initcalls) :
    ∃ r, r ∈ regs ∧ accepted T r.2.1 = true ∧ c = new_entry T r.1 r.2.1 r.2.2 := by
  rw [register_all_boot] at h
  obtain ⟨r, hr, rfl⟩ := List.mem_map.mp h
  obtain ⟨h1, h2⟩ := List.mem_filter.mp hr
  exact ⟨r, h1, h2, rfl⟩

theorem boot_registered (T : Tables) (regs : List (Nat × String × String)) :
    Registered T (register_all T regs State.boot).lazy_initcalls := by
  intro c hc
  obtain ⟨r, _, ha, rfl⟩ := boot_entry T regs hc
  simp only [accepted, Bool.and_eq_true, Bool.or_eq_true, decide_eq_true_eq] at ha
  refine ⟨ha.1, ha.2, ?_⟩
  simp only [new_entry]
  by_cases hd : r.2.1 ∈ T.deferred_list <;> simp [hd]

theorem boot_unloaded (T : Tables) (regs : List (Nat × String × String)) (i : Nat) :
    loaded_at (register_all T regs State.boot).lazy_initcalls i = false := by
  unfold loaded_at
  cases h : (register_all T regs State.boot).lazy_initcalls[i]? with
  | none => rfl
  | some c =>
    obtain ⟨r, _, _, rfl⟩ := boot_entry T regs (List.getElem?_mem h)
    rfl

theorem boot_fields (T : Tables) (regs : List (Nat × String × String)) :
    (register_all T regs State.boot).completed = false ∧
    (register_all T regs State.boot).panicked = false ∧
    (register_all T regs State.boot).errors_str = [] ∧
    (register_all T regs State.boot).trace = [] := by
  rw [register_all_boot]; exact ⟨rfl, rfl, rfl, rfl⟩

theorem boot_callsInv (T : Tables) (regs : List (Nat × String × String)) :
    CallsInv (register_all T regs State.boot) := by
  refine ⟨fun i => ?_, fun i f h => ?_⟩
  · rw [boot_unloaded, (boot_fields T regs).2.2.2]; rfl
  · rw [(boot_fields T regs).2.2.2] at h; cases h

theorem boot_firstInv (T : Tables) (regs : List (Nat × String × String)) :
    FirstInv (register_all T regs State.boot).lazy_initcalls := by
  intro j c hj hc
  have := boot_unloaded T regs j
  simp only [loaded_at, hj] at this
  rw [this] at hc; cases hc

theorem registered_of_shape {T : Tables} {l l1 : List lazy_initcall}
    (h : l1.map shape = l.map shape) (hr : Registered T l) : Registered T l1 := by
  intro c1 hc1
  obtain ⟨j, hj⟩ := List.mem_iff_getElem?.mp hc1
  obtain ⟨c, hc, hs⟩ := getElem?_of_shape h hj
  have h1 : c1.modname = c.modname := by
    have := congrArg lazy_initcall.modname hs; simpa [shape] using this.symm
  have h2 : c1.type = c.type := by
    have := congrArg lazy_initcall.type hs; simpa [shape] using this.symm
  rw [h1, h2]
  exact hr c (List.getElem?_mem hc)

/-! ## A request loads the entry it names -/

theorem load_modname_loads (E : Env) (T : Tables) (n : String) (u : Uargs) (s : State)
    (hp : s.panicked = false) (hb : n ∉ T.blacklist) {i : Nat}
    (hf : find_modname n s.lazy_initcalls = some i) :
    loaded_at (load_modname E T n u s).lazy_initcalls i = true := by
  obtain ⟨c, hg, _, _⟩ := find_modname_some hf
  by_cases hl : c.loaded = true
  · have : load_modname E T n u s = s := by simp [load_modname, hp, hb, hf, hg, hl]
    rw [this]; simp [loaded_at, hg, hl]
  · have : load_modname E T n u s =
        run_initcall E n u i c.fn { s with lazy_initcalls := set_loaded i s.lazy_initcalls } := by
      simp [load_modname, hp, hb, hf, hg, hl]
    rw [this, (invoked_run_initcall E n u i c.fn _).reg, loaded_at_set_loaded]
    simp [find_modname_lt hf]

theorem load_modname_not_blacklisted_panicked (E : Env) (T : Tables) (n : String) (u : Uargs)
    (s : State) {i : Nat} (hf : find_modname n s.lazy_initcalls = some i) :
    (load_modname E T n u s).panicked = s.panicked := by
  rcases load_modname_cases E T n u s with h | ⟨_, _, h0, _, _⟩ | ⟨j, c, _, _, _, _, _, h⟩
  · rw [h]
  · rw [hf] at h0; cases h0
  · rw [h, (invoked_run_initcall E n u j c.fn _).panicked]

theorem load_deferred_loads (E : Env) (T : Tables) (ds : List String) (s : State)
    (hp : (load_deferred E T ds s).panicked = false) {d : String} (hd : d ∈ ds)
    (hb : d ∉ T.blacklist) {i : Nat} (hf : find_modname d s.lazy_initcalls = some i) :
    loaded_at (load_deferred E T ds s).lazy_initcalls i = true := by
  induction ds generalizing s with
  | nil => cases hd
  | cons a as ih =>
    have hstep : load_deferred E T (a :: as) s =
        load_deferred E T as (load_modname E T a Uargs.null s) := rfl
    rw [hstep] at hp ⊢
    have hev := load_deferred_evolves E T as (load_modname E T a Uargs.null s)
    have hev1 := load_modname_evolves E T a Uargs.null s
    rcases List.mem_cons.mp hd with h | h
    · subst h
      apply hev.loaded
      apply load_modname_loads E T d Uargs.null s _ hb hf
      by_contra hc
      have h1 : s.panicked = true := by simpa using hc
      rw [hev.panicked (hev1.panicked h1)] at hp; cases hp
    · apply ih _ hp h
      rw [find_modname_names (names_of_shape hev1.shape)]
      exact hf

theorem loaded_of_not_pending {l : List lazy_initcall} (h : pending l = false) {i : Nat}
    {c : lazy_initcall} (hc : l[i]? = some c) (ht : c.type = lazy_initcall_type.NORMAL) :
    loaded_at l i = true := by
  by_contra hne
  have : pending l = true := by
    rw [pending_iff]
    refine ⟨i, c, hc, ht, ?_⟩
    simpa [loaded_at, hc] using hne
  rw [h] at this; cases this

theorem type_cases (t : lazy_initcall_type) :
    t = lazy_initcall_type.NORMAL ∨ t = lazy_initcall_type.DEFERRED := by
  cases t
  · exact Or.inl rfl
  · exact Or.inr rfl

theorem load_module_inner_cases (E : Env) (T : Tables) (info : load_info) (u : Uargs)
    (s : State) :
    (Quiet s (__load_module E T info u s).2 ∧ ¬ info.valid) ∨
    (info.valid ∧ __load_module E T info u s = (0, load_modname E T info.name u s)) := by
  unfold __load_module load_info.valid
  by_cases h1 : info.elf_validity_check = 0
  · by_cases h2 : info.setup_load_info = 0
    · right; simp [h1, h2]
    · left; simp [h1, h2]; exact quiet_refl s
  · left
    simp only [h1, ne_eq, not_false_eq_true, if_true, false_and]
    exact ⟨quiet_emit (Event.pr_err _) s rfl, trivial⟩

theorem load_module_inner_barInv (E : Env) (T : Tables) (info : load_info) (u : Uargs)
    (s : State) (h : BarInv s) : BarInv (__load_module E T info u s).2 := by
  rcases load_module_inner_cases E T info u s with ⟨hq, _⟩ | ⟨_, he⟩
  · exact barInv_quiet _ _ hq h
  · rw [he]; exact barInv_load_modname E T _ _ _ h

/-- The state `load_module` returns once the barrier has fired and the deferred
entries have been dispatched without a panic. -/
theorem load_module_fired (E : Env) (T : Tables) (info : load_info) (u : Uargs) (s : State)
    (hp : s.panicked = false) (hc : s.completed = false)
    (h1p : (__load_module E T info u s).2.panicked = false)
    (h1c : (__load_module E T info u s).2.completed = true)
    (h2p : (load_deferred E T T.deferred_list (__load_module E T info u s).2).panicked = false) :
    Quiet (load_deferred E T T.deferred_list (__load_module E T info u s).2)
      (load_module E T info u s).2 := by
  unfold load_module
  simp only [hp, hc, h1p, h1c, h2p, if_true, if_false, Bool.false_eq_true]
  have h3 := quiet_show_errors_str E
    (load_deferred E T T.deferred_list (__load_module E T info u s).2)
  refine quiet_trans ?_ (quiet_trans (quiet_emit Event.free_initmem _ rfl)
    (quiet_emit Event.mark_readonly _ rfl))
  split
  · exact quiet_trans h3 (quiet_emit Event.warn _ rfl)
  · exact h3

theorem doneInv_load_module (E : Env) (T : Tables) (info : load_info) (u : Uargs) (s : State)
    (hr : Registered T s.lazy_initcalls) (hnd : (names s.lazy_initcalls).Nodup)
    (hi : DoneInv s) : DoneInv (load_module E T info u s).2 := by
  by_cases hp : s.panicked = true
  · have : load_module E T info u s = (0, s) := by simp [load_module, hp]
    rw [this]; exact hi
  have hp : s.panicked = false := by simpa using hp
  by_cases hc : s.completed = true
  · have : load_module E T info u s = (0, s) := by simp [load_module, hp, hc]
    rw [this]; exact hi
  have hc : s.completed = false := by simpa using hc
  have hb1 : BarInv (__load_module E T info u s).2 :=
    load_module_inner_barInv E T info u s (fun h => by rw [hc] at h; cases h)
  have hev1 := load_module_inner_evolves E T info u s
  by_cases h1p : (__load_module E T info u s).2.panicked = true
  · have : (load_module E T info u s).2 = (__load_module E T info u s).2 := by
      simp [load_module, hp, hc, h1p]
    rw [this]
    intro _ h; rw [h1p] at h; cases h
  have h1p : (__load_module E T info u s).2.panicked = false := by simpa using h1p
  by_cases h1c : (__load_module E T info u s).2.completed = true
  · by_cases h2p : (load_deferred E T T.deferred_list
        (__load_module E T info u s).2).panicked = true
    · have : (load_module E T info u s).2 =
          load_deferred E T T.deferred_list (__load_module E T info u s).2 := by
        simp [load_module, hp, hc, h1p, h1c, h2p]
      rw [this]
      intro _ h; rw [h2p] at h; cases h
    have h2p : (load_deferred E T T.deferred_list
        (__load_module E T info u s).2).panicked = false := by simpa using h2p
    have hq := load_module_fired E T info u s hp hc h1p h1c h2p
    have hev2 := load_deferred_evolves E T T.deferred_list (__load_module E T info u s).2
    intro _ _ i hlt
    rw [hq.reg] at hlt ⊢
    -- the entry at index `i` after the deferred loop, and before the request
    obtain ⟨c2, hc2⟩ : ∃ c2, (load_deferred E T T.deferred_list
        (__load_module E T info u s).2).lazy_initcalls[i]? = some c2 :=
      ⟨_, List.getElem?_eq_getElem hlt⟩
    obtain ⟨c1, hc1, hs1⟩ := getElem?_of_shape hev2.shape hc2
    obtain ⟨c, hc0, hs0⟩ := getElem?_of_shape hev1.shape hc1
    have hn1 : c1.modname = c.modname := by
      have := congrArg lazy_initcall.modname hs0; simpa [shape] using this.symm
    have ht1 : c1.type = c.type := by
      have := congrArg lazy_initcall.type hs0; simpa [shape] using this.symm
    rcases type_cases c1.type with ht | ht
    · exact hev2.loaded i (loaded_of_not_pending (hb1 h1c) hc1 ht)
    · obtain ⟨hbl, _, hdef⟩ := hr c (List.getElem?_mem hc0)
      have hd : c.modname ∈ T.deferred_list := hdef.mp (by rw [← ht1]; exact ht)
      have hf : find_modname c.modname s.lazy_initcalls = some i := find_modname_nodup hnd hc0
      apply load_deferred_loads E T T.deferred_list _ h2p hd hbl
      rw [find_modname_names (names_of_shape hev1.shape)]
      exact hf
  · have : (load_module E T info u s).2 = (__load_module E T info u s).2 := by
      simp [load_module, hp, hc, h1p, h1c]
    rw [this]
    intro h; exact absurd h h1c

theorem doneInv_step (E : Env) (T : Tables) (op : Op) (s : State)
    (hr : Registered T s.lazy_initcalls) (hnd : (names s.lazy_initcalls).Nodup)
    (hi : DoneInv s) : DoneInv (step E T s op) := by
  cases op with
  | load info u => exact doneInv_load_module E T info u s hr hnd hi
  | tick t =>
    have hq := quiet_show_errors E t s
    intro hc hp
    show ∀ i, i < (show_errors E t s).lazy_initcalls.length →
      loaded_at (show_errors E t s).lazy_initcalls i = true
    rw [hq.reg]
    exact hi (by rw [← hq.completed]; exact hc) (by rw [← hq.panicked]; exact hp)

theorem doneInv_run (E : Env) (T : Tables) (ops : List Op) (s : State)
    (hr : Registered T s.lazy_initcalls) (hnd : (names s.lazy_initcalls).Nodup)
    (hi : DoneInv s) : DoneInv (run E T ops s) := by
  induction ops generalizing s with
  | nil => exact hi
  | cons op ops ih =>
    rw [run_cons]
    have hev := step_evolves E T s op
    apply ih
    · exact registered_of_shape hev.shape hr
    · rw [names_of_shape hev.shape]; exact hnd
    · exact doneInv_step E T op s hr hnd hi

theorem boot_doneInv (T : Tables) (regs : List (Nat × String × String)) :
    DoneInv (register_all T regs State.boot) := by
  intro h
  rw [(boot_fields T regs).1] at h; cases h

/-- A valid request that is reached while the machine is live leaves the first
entry carrying the requested name loaded. -/
theorem load_module_loads (E : Env) (T : Tables) (info : load_info) (u : Uargs) (s : State)
    (hr : Registered T s.lazy_initcalls) (hnd : (names s.lazy_initcalls).Nodup)
    (hi : DoneInv s) (hp : s.panicked = false) (hv : info.valid) {i : Nat} {c : lazy_initcall}
    (hc : s.lazy_initcalls[i]? = some c) (hn : info.name = c.modname) :
    loaded_at (load_module E T info u s).2.lazy_initcalls i = true := by
  by_cases hcomp : s.completed = true
  · have : load_module E T info u s = (0, s) := by simp [load_module, hp, hcomp]
    rw [this]
    exact hi hcomp hp i (by
      by_contra hlt
      rw [List.getElem?_eq_none_iff.mpr (Nat.le_of_not_lt hlt)] at hc; cases hc)
  · apply Evolves.loaded (s := (__load_module E T info u s).2)
    · -- everything `load_module` does after `__load_module` only evolves the state
      have hev2 := load_deferred_evolves E T T.deferred_list (__load_module E T info u s).2
      unfold load_module
      simp only [hp, hcomp, if_false, Bool.false_eq_true]
      split
      · exact evolves_refl _
      · split
        · split
          · exact hev2
          · exact evolves_trans hev2 (barrier_tail_evolves E _)
        · exact evolves_refl _
    · rcases load_module_inner_cases E T info u s with ⟨_, hnv⟩ | ⟨_, he⟩
      · exact absurd hv hnv
      · rw [he]
        apply load_modname_loads E T info.name u s hp
        · rw [hn]; exact (hr c (List.getElem?_mem hc)).1
        · rw [hn]; exact find_modname_nodup hnd hc

theorem load_modname_live (E : Env) (T : Tables) (n : String) (u : Uargs) (s : State)
    (hp : s.panicked = false)
    (h : E.debug = true ∨ n ∈ T.builtin_list ∨ n ∈ names s.lazy_initcalls) :
    (load_modname E T n u s).panicked = false := by
  rcases load_modname_cases E T n u s with h1 | ⟨_, _, hf, hb, h1⟩ | ⟨i, c, _, _, _, _, _, h1⟩
  · rw [h1]; exact hp
  · rw [h1]
    rcases h with hd | hbi | hn
    · simp [__fatal, hd, emit, hp]
    · exact absurd hbi hb
    · exact absurd hn (find_modname_none.mp hf)
  · rw [h1, (invoked_run_initcall E n u i c.fn _).panicked]; exact hp

theorem load_deferred_live (E : Env) (T : Tables) (ds : List String) (s : State)
    (hp : s.panicked = false) (h : E.debug = true ∨ ∀ d ∈ ds, d ∈ T.builtin_list) :
    (load_deferred E T ds s).panicked = false := by
  induction ds generalizing s with
  | nil => exact hp
  | cons a as ih =>
    have hstep : load_deferred E T (a :: as) s =
        load_deferred E T as (load_modname E T a Uargs.null s) := rfl
    rw [hstep]
    apply ih
    · apply load_modname_live E T a Uargs.null s hp
      rcases h with hd | hb
      · exact Or.inl hd
      · exact Or.inr (Or.inl (hb a (List.mem_cons_self _ _)))
    · rcases h with hd | hb
      · exact Or.inl hd
      · exact Or.inr (fun d hd => hb d (List.mem_cons_of_mem _ hd))

/-! ## Claims -/

theorem run_debug_live (E : Env) (T : Tables) (hd : E.debug = true) (ops : List Op) (s : State)
    (hp : s.panicked = false) : (run E T ops s).panicked = false :=
  run_preserves E T (fun st => st.panicked = false)
    (fun _ s1 h hs => by show s1.panicked = false; rw [h.panicked]; exact hs)
    (fun n u st hs => load_modname_live E T n u st hs (Or.inl hd)) ops s hp

theorem count_initcall_eq_calls (i fn : Nat) (tr : List Event)
    (h : ∀ f, Event.initcall i f ∈ tr → f = fn) :
    List.count (Event.initcall i fn) tr = calls i tr := by
  induction tr with
  | nil => rfl
  | cons e es ih =>
    have ih2 := ih (fun f hf => h f (List.mem_cons_of_mem _ hf))
    cases e with
    | initcall j f =>
      rw [calls_cons_initcall]
      by_cases hj : j = i
      · subst hj
        have hf : f = fn := h f (List.mem_cons_self _ _)
        subst hf
        simp [ih2]; omega
      · have hne : Event.initcall j f ≠ Event.initcall i fn := by
          intro he; cases he; exact hj rfl
        rw [List.count_cons_of_ne hne.symm, ih2]; simp [hj]
    | _ =>
      rw [List.count_cons_of_ne (by simp), ih2]
      simp [calls, List.countP_cons]

/-- C1. Exactly-once invocation: in a registry built by `add_lazy_initcall` whose
names are pairwise distinct, if the name of the entry at index `i` is requested with
a valid image by some dispatch of the sequence, then over the whole sequence of steps
(load requests and reporter ticks) the initializer of that entry is invoked exactly
once. A dispatch of the sequence is one that takes place: in a strict build an unknown
name makes `load_modname` panic and nothing runs afterwards, so the request for the
entry has to come before any such halt; in a debug build nothing halts. -/
theorem C1_exactly_once (E : Env) (T : Tables) (regs : List (Nat × String × String))
    (pre post : List Op) (info : load_info) (u : Uargs) (i : Nat) (c : lazy_initcall)
    (hnd : (names (register_all T regs State.boot).lazy_initcalls).Nodup)
    (hc : (register_all T regs State.boot).lazy_initcalls[i]? = some c)
    (hv : info.valid) (hn : info.name = c.modname)
    (hlive : E.debug = true ∨ (run E T pre (register_all T regs State.boot)).panicked = false) :
    calls i (run E T (pre ++ Op.load info u :: post)
      (register_all T regs State.boot)).trace = 1 ∧
    List.count (Event.initcall i c.fn) (run E T (pre ++ Op.load info u :: post)
      (register_all T regs State.boot)).trace = 1 := by
  have hlive : (run E T pre (register_all T regs State.boot)).panicked = false := by
    rcases hlive with hd | h
    · exact run_debug_live E T hd pre _ (boot_fields T regs).2.1
    · exact h
  have hr := boot_registered T regs
  have hev0 := run_evolves E T pre (register_all T regs State.boot)
  have hci := callsInv_run E T (pre ++ Op.load info u :: post) _ (boot_callsInv T regs)
  have hdone := doneInv_run E T pre _ hr hnd (boot_doneInv T regs)
  have hevf := run_evolves E T (pre ++ Op.load info u :: post) (register_all T regs State.boot)
  -- the entry at index `i` when the request arrives
  obtain ⟨c1, hc1, hs1⟩ := getElem?_of_shape hev0.shape.symm hc
  have hn1 : info.name = c1.modname := by
    have := congrArg lazy_initcall.modname hs1
    simp only [shape] at this
    rw [hn, ← this]
  have hl : loaded_at (run E T (pre ++ Op.load info u :: post)
      (register_all T regs State.boot)).lazy_initcalls i = true := by
    rw [run_append, run_cons]
    apply (run_evolves E T post _).loaded
    exact load_module_loads E T info u _ (registered_of_shape hev0.shape hr)
      (by rw [names_of_shape hev0.shape]; exact hnd) hdone hlive hv hc1 hn1
  have h1 : calls i (run E T (pre ++ Op.load info u :: post)
      (register_all T regs State.boot)).trace = 1 := by
    rw [hci.1 i, if_pos hl]
  refine ⟨h1, ?_⟩
  rw [count_initcall_eq_calls, h1]
  intro f hf
  obtain ⟨c2, hc2, hf2⟩ := hci.2 i f hf
  obtain ⟨c3, hc3, hs3⟩ := getElem?_of_shape hevf.shape hc2
  rw [hc] at hc3
  cases hc3
  have := congrArg lazy_initcall.fn hs3
  simp only [shape] at this
  rw [← hf2, this]

theorem C1_exactly_once_witness :
    calls 0 (run demo_env demo_tables ([request "b"] ++ request "a" :: [request "a"])
      (register_all demo_tables demo_regs State.boot)).trace = 1 ∧
    List.count (Event.initcall 0 1) (run demo_env demo_tables
      ([request "b"] ++ request "a" :: [request "a"])
      (register_all demo_tables demo_regs State.boot)).trace = 1 :=
  C1_exactly_once demo_env demo_tables demo_regs [request "b"] [request "a"]
    (valid_image "a") Uargs.null 0
    { fn := 1, modname := "a", filename := "fa", type := lazy_initcall_type.NORMAL,
      loaded := false }
    (by decide) (by decide) (by decide) rfl (Or.inr (by decide))

theorem run_take_evolves (E : Env) (T : Tables) (ops : List Op) (s : State) {j k : Nat}
    (h : j ≤ k) : Evolves (run E T (ops.take j) s) (run E T (ops.take k) s) := by
  obtain ⟨m, rfl⟩ := Nat.exists_eq_add_of_le h
  rw [List.take_add, run_append]
  exact run_evolves E T _ _

/-- C2. Barrier monotonicity: along every sequence of steps `completed` is false up
to some step and true from then on (it flips at most once and never back), and a
dispatch that starts with `completed` set returns 0 and changes nothing: no registry
entry, not the buffer, and no initializer is invoked. -/
theorem C2_barrier_monotone (E : Env) (T : Tables) (s : State) (ops : List Op) :
    (∃ k, ∀ j, j ≤ ops.length → ((run E T (ops.take j) s).completed = true ↔ k ≤ j)) ∧
    (∀ info u, s.completed = true → load_module E T info u s = (0, s)) := by
  constructor
  · by_cases h : ∃ j, (run E T (ops.take j) s).completed = true
    · classical
      refine ⟨Nat.find h, fun j _ => ⟨fun hj => Nat.find_min' h hj, fun hj => ?_⟩⟩
      exact (run_take_evolves E T ops s hj).completed (Nat.find_spec h)
    · refine ⟨ops.length + 1, fun j hj => ⟨fun hc => absurd ⟨j, hc⟩ h, fun hk => ?_⟩⟩
      omega
  · intro info u hc
    unfold load_module
    by_cases hp : s.panicked = true
    · simp [hp]
    · simp [hp, hc]

theorem C2_barrier_monotone_witness :
    (∃ k, ∀ j, j ≤ [request "a", request "b", request "a"].length →
      ((run demo_env demo_tables ([request "a", request "b", request "a"].take j)
        demo_boot).completed = true ↔ k ≤ j)) ∧
    load_module demo_env demo_tables (valid_image "a") (Uargs.str "p=1")
        (run demo_env demo_tables [request "a", request "b"] demo_boot) =
      (0, run demo_env demo_tables [request "a", request "b"] demo_boot) :=
  ⟨(C2_barrier_monotone demo_env demo_tables demo_boot
      [request "a", request "b", request "a"]).1,
    (C2_barrier_monotone demo_env demo_tables
      (run demo_env demo_tables [request "a", request "b"] demo_boot) []).2
      (valid_image "a") (Uargs.str "p=1") (by decide)⟩

/-- C8. Ignore precedence: for a name in `blacklist`, whatever the registry holds
(even an entry under that name) and whatever the state, a dispatch with a valid image
returns 0 and leaves the whole state unchanged: no `loaded` flag, not `completed`, not
the buffer, and no initializer is invoked. -/
theorem C8_ignore_precedence (E : Env) (T : Tables) (info : load_info) (u : Uargs) (s : State)
    (hv : info.valid) (hb : info.name ∈ T.blacklist) :
    load_module E T info u s = (0, s) := by
  by_cases hp : s.panicked = true
  · simp [load_module, hp]
  by_cases hc : s.completed = true
  · simp [load_module, hp, hc]
  have h1 : __load_module E T info u s = (0, s) := by
    unfold load_info.valid at hv
    simp [__load_module, hv.1, hv.2, load_modname, hb]
  simp [load_module, hp, hc, h1]

theorem C8_ignore_precedence_witness :
    load_module demo_env demo_tables (valid_image "x") (Uargs.str "p=1") demo_mixed =
      (0, demo_mixed) :=
  C8_ignore_precedence demo_env demo_tables (valid_image "x") (Uargs.str "p=1") demo_mixed
    (by decide) (by decide)

/-- C9. Registration contract: `add_lazy_initcall` returns true exactly when the name
is not in `blacklist` and is in `targets_list` or `deferred_list`. When it returns true
the registry is the old one with one entry appended at index `counter`, holding the
given initializer, name and file name, `loaded` false, and type DEFERRED exactly when
the name is in `deferred_list`; `counter` grows by one, earlier entries and the rest of
the state are untouched. When it returns false the state is unchanged. -/
theorem C9_registration_contract (T : Tables) (fn : Nat) (modname filename : String)
    (s : State) :
    ((add_lazy_initcall T fn modname filename s).1 = true ↔
      (modname ∉ T.blacklist ∧ (modname ∈ T.targets_list ∨ modname ∈ T.deferred_list))) ∧
    ((add_lazy_initcall T fn modname filename s).1 = true →
      (add_lazy_initcall T fn modname filename s).2 =
        { s with lazy_initcalls := s.lazy_initcalls ++
          [{ fn := fn, modname := modname, filename := filename,
             type := if modname ∈ T.deferred_list then lazy_initcall_type.DEFERRED
               else lazy_initcall_type.NORMAL,
             loaded := false }] } ∧
      (add_lazy_initcall T fn modname filename s).2.counter = s.counter + 1 ∧
      (add_lazy_initcall T fn modname filename s).2.lazy_initcalls[s.counter]? =
        some { fn := fn, modname := modname, filename := filename,
               type := if modname ∈ T.deferred_list then lazy_initcall_type.DEFERRED
                 else lazy_initcall_type.NORMAL,
               loaded := false } ∧
      ∀ j, j < s.counter →
        (add_lazy_initcall T fn modname filename s).2.lazy_initcalls[j]? =
          s.lazy_initcalls[j]?) ∧
    ((add_lazy_initcall T fn modname filename s).1 = false →
      (add_lazy_initcall T fn modname filename s).2 = s) := by
  rw [add_lazy_initcall_eq]
  have hacc : accepted T modname = true ↔
      (modname ∉ T.blacklist ∧ (modname ∈ T.targets_list ∨ modname ∈ T.deferred_list)) := by
    simp only [accepted, Bool.and_eq_true, Bool.or_eq_true, decide_eq_true_eq]
  by_cases ha : accepted T modname = true
  · rw [if_pos ha]
    refine ⟨⟨fun _ => hacc.mp ha, fun _ => rfl⟩, fun _ => ⟨rfl, ?_, ?_, fun j hj => ?_⟩,
      fun h => Bool.noConfusion h⟩
    · simp [State.counter]
    · simp [State.counter, new_entry]
    · simp only [State.counter] at hj
      exact List.getElem?_append_left hj
  · rw [if_neg ha]
    refine ⟨⟨fun h => Bool.noConfusion h, fun h => absurd (hacc.mpr h) ha⟩,
      fun h => Bool.noConfusion h, fun _ => rfl⟩

theorem C9_registration_contract_witness :
    (add_lazy_initcall demo_tables 3 "d" "fd" demo_mixed).1 = true ∧
    (add_lazy_initcall demo_tables 3 "d" "fd" demo_mixed).2.lazy_initcalls[2]? =
      some { fn := 3, modname := "d", filename := "fd", type := lazy_initcall_type.DEFERRED,
             loaded := false } ∧
    (add_lazy_initcall demo_tables 9 "x" "fx" demo_mixed).2 = demo_mixed :=
  ⟨(C9_registration_contract demo_tables 3 "d" "fd" demo_mixed).1.mpr (by decide),
    ((C9_registration_contract demo_tables 3 "d" "fd" demo_mixed).2.1 (by decide)).2.2.1,
    (C9_registration_contract demo_tables 9 "x" "fx" demo_mixed).2.2 (by decide)⟩

/-- C10 as stated fails: registering the eligible name "a" twice yields two
entries named "a". -/
theorem C10_duplicate_counterexample :
    ¬ (names (register_all demo_tables [(1, "a", "fa"), (2, "a", "fa")]
      State.boot).lazy_initcalls).Nodup := by
  decide

/-- C10 amended. `add_lazy_initcall` performs no duplicate check: the registry names
are exactly the accepted names in the order they were passed, so they are pairwise
distinct whenever the names passed to `add_lazy_initcall` are pairwise distinct. -/
theorem C10_names_distinct (T : Tables) (regs : List (Nat × String × String))
    (h : (regs.map (fun r => r.2.1)).Nodup) :
    names (register_all T regs State.boot).lazy_initcalls =
      (regs.map (fun r => r.2.1)).filter (fun n => accepted T n) ∧
    (names (register_all T regs State.boot).lazy_initcalls).Nodup := by
  rw [boot_names]
  exact ⟨rfl, h.filter _⟩

theorem C10_names_distinct_witness :
    names (register_all demo_tables demo_regs State.boot).lazy_initcalls =
      (demo_regs.map (fun r => r.2.1)).filter (fun n => accepted demo_tables n) ∧
    (names (register_all demo_tables demo_regs State.boot).lazy_initcalls).Nodup :=
  C10_names_distinct demo_tables demo_regs (by decide)

/-! ## Return value and failure line -/

theorem load_module_ret (E : Env) (T : Tables) (info : load_info) (u : Uargs) (s : State)
    (hv : info.valid) : (load_module E T info u s).1 = 0 := by
  have h1 : (__load_module E T info u s).1 = 0 := by
    unfold load_info.valid at hv
    simp [__load_module, hv.1, hv.2]
  unfold load_module
  split
  · rfl
  · split
    · rfl
    · simp only
      split
      · exact h1
      · split
        · split <;> exact h1
        · exact h1

theorem setup_args_no_unknown (E : Env) (modname : String) (u : Uargs) (s : State)
    (h : no_unknown E modname u) : (setup_args E modname u s).errors_str = s.errors_str := by
  cases u with
  | null => rfl
  | fault err => rfl
  | str args =>
    have key : ∀ (l : List (String × Option String)) (st : State),
        (∀ pv ∈ l, E.unknown_params modname (modparam_of modname pv.1 pv.2) = []) →
        (l.foldl (fun st pv => integrated_module_param_cb E pv.1 pv.2 modname st) st).errors_str
          = st.errors_str := by
      intro l
      induction l with
      | nil => intro st _; rfl
      | cons pv rest ih =>
        intro st hl
        rw [List.foldl_cons, ih _ (fun q hq => hl q (List.mem_cons_of_mem _ hq))]
        unfold integrated_module_param_cb
        split
        · rfl
        · rw [hl pv (List.mem_cons_self _ _)]; rfl
    unfold setup_args
    simp only
    split
    · exact key _ s (h args rfl)
    · rfl

/-- The tail of `load_modname` when the initializer returns `r ≠ 0`. -/
theorem run_initcall_failed (E : Env) (modname : String) (u : Uargs) (i fn : Nat) (s : State)
    (r : Int) (hr : ∀ tr, E.call tr fn = r) (hr0 : r ≠ 0) :
    (run_initcall E modname u i fn s).errors_str =
      (setup_args E modname u s).errors_str ++
        (init_failed_line i modname r).take
          (ERRORS_STR_SIZE - (setup_args E modname u s).errors_str.length - 1) ∧
    Event.pr_err ((init_failed_line i modname r).take
      (ERRORS_STR_SIZE - (setup_args E modname u s).errors_str.length - 1)) ∈
      (run_initcall E modname u i fn s).trace := by
  unfold run_initcall
  simp only [hr, ne_eq, hr0, not_false_eq_true, if_true]
  split
  · simp [emit, __err]
  · simp [emit, __err]

/-- What `load_modname` does for a live state when the requested name is first
carried by the unloaded entry `i`. -/
theorem load_modname_fresh (E : Env) (T : Tables) (n : String) (u : Uargs) (s : State)
    (hp : s.panicked = false) (hb : n ∉ T.blacklist) {i : Nat} {c : lazy_initcall}
    (hf : find_modname n s.lazy_initcalls = some i) (hc : s.lazy_initcalls[i]? = some c)
    (hl : c.loaded = false) :
    load_modname E T n u s =
      run_initcall E n u i c.fn { s with lazy_initcalls := set_loaded i s.lazy_initcalls } := by
  simp [load_modname, hp, hb, hf, hc, hl]

/-- What `load_modname` does for a live state when the requested name is first
carried by an entry that is already loaded. -/
theorem load_modname_loaded (E : Env) (T : Tables) (n : String) (u : Uargs) (s : State)
    {i : Nat} {c : lazy_initcall}
    (hf : find_modname n s.lazy_initcalls = some i) (hc : s.lazy_initcalls[i]? = some c)
    (hl : c.loaded = true) : load_modname E T n u s = s := by
  by_cases hp : s.panicked = true
  · simp [load_modname, hp]
  by_cases hb : n ∈ T.blacklist
  · simp [load_modname, hb]
  simp [load_modname, hp, hb, hf, hc, hl]

theorem load_module_inner_valid (E : Env) (T : Tables) (info : load_info) (u : Uargs)
    (s : State) (hv : info.valid) :
    __load_module E T info u s = (0, load_modname E T info.name u s) := by
  unfold load_info.valid at hv
  simp [__load_module, hv.1, hv.2]

/-- With a valid image, a live state and `completed` false before and after
`load_modname`, `load_module` is just `load_modname`. -/
theorem load_module_pending (E : Env) (T : Tables) (info : load_info) (u : Uargs) (s : State)
    (hv : info.valid) (hp : s.panicked = false) (hc : s.completed = false)
    (h1 : (load_modname E T info.name u s).completed = false) :
    load_module E T info u s = (0, load_modname E T info.name u s) := by
  unfold load_module
  rw [load_module_inner_valid E T info u s hv]
  simp only [hp, hc, h1, Bool.false_eq_true, if_false]
  split <;> rfl

theorem load_module_after_inner (E : Env) (T : Tables) (info : load_info) (u : Uargs)
    (s : State) (hp : s.panicked = false) (hc : s.completed = false) :
    Evolves (__load_module E T info u s).2 (load_module E T info u s).2 := by
  have hev2 := load_deferred_evolves E T T.deferred_list (__load_module E T info u s).2
  unfold load_module
  simp only [hp, hc, if_false, Bool.false_eq_true]
  split
  · exact evolves_refl _
  · split
    · split
      · exact hev2
      · exact evolves_trans hev2 (barrier_tail_evolves E _)
    · exact evolves_refl _

theorem load_module_of_panicked (E : Env) (T : Tables) (info : load_info) (u : Uargs)
    (s : State) (h : s.panicked = true) : load_module E T info u s = (0, s) := by
  simp [load_module, h]

theorem load_module_of_completed (E : Env) (T : Tables) (info : load_info) (u : Uargs)
    (s : State) (h : s.completed = true) : load_module E T info u s = (0, s) := by
  by_cases hp : s.panicked = true
  · simp [load_module, hp]
  · simp [load_module, hp, h]

/-- C5 as stated fails: entry "a" has an initializer returning -5, yet the dispatch
returns 0, the very value returned when the same initializer succeeds. -/
theorem C5_return_counterexample :
    demo_boot.lazy_initcalls[0]? =
      some { fn := 1, modname := "a", filename := "fa", type := lazy_initcall_type.NORMAL,
             loaded := false } ∧
    demo_env.call [] 1 = -5 ∧ demo_env_ok.call [] 1 = 0 ∧
    Event.initcall 0 1 ∈
      (load_module demo_env demo_tables (valid_image "a") Uargs.null demo_boot).2.trace ∧
    (load_module demo_env demo_tables (valid_image "a") Uargs.null demo_boot).1 = 0 ∧
    (load_module demo_env demo_tables (valid_image "a") Uargs.null demo_boot).1 =
      (load_module demo_env_ok demo_tables (valid_image "a") Uargs.null demo_boot).1 := by
  decide

/-- C5 amended. A dispatch with a valid image returns 0 whatever the initializer
returns (`load_modname` is `void`); when the first entry carrying the requested name
has not run and its initializer returns `r ≠ 0`, the code `r` is surfaced only through
the failure line, printed by `pr_err` (cut to the free space of the buffer). -/
theorem C5_failure_not_returned (E : Env) (T : Tables) (info : load_info) (u : Uargs)
    (s : State) (i : Nat) (c : lazy_initcall) (r : Int)
    (hv : info.valid) (hp : s.panicked = false) (hcomp : s.completed = false)
    (hb : info.name ∉ T.blacklist)
    (hf : find_modname info.name s.lazy_initcalls = some i)
    (hc : s.lazy_initcalls[i]? = some c) (hl : c.loaded = false)
    (hr : ∀ tr, E.call tr c.fn = r) (hr0 : r ≠ 0) :
    (load_module E T info u s).1 = 0 ∧
    ∃ stored, stored <+: init_failed_line i info.name r ∧
      Event.pr_err stored ∈ (load_module E T info u s).2.trace := by
  refine ⟨load_module_ret E T info u s hv,
    (init_failed_line i info.name r).take (ERRORS_STR_SIZE -
      (setup_args E info.name u
        { s with lazy_initcalls := set_loaded i s.lazy_initcalls }).errors_str.length - 1),
    List.take_prefix _ _, ?_⟩
  have hev := load_module_after_inner E T info u s hp hcomp
  rw [load_module_inner_valid E T info u s hv] at hev
  apply hev.trace.subset
  rw [load_modname_fresh E T info.name u s hp hb hf hc hl]
  exact (run_initcall_failed E info.name u i c.fn _ r hr hr0).2

theorem C5_failure_not_returned_witness :
    (load_module demo_env demo_tables (valid_image "a") Uargs.null demo_boot).1 = 0 ∧
    ∃ stored, stored <+: init_failed_line 0 (valid_image "a").name (-5) ∧
      Event.pr_err stored ∈
        (load_module demo_env demo_tables (valid_image "a") Uargs.null demo_boot).2.trace :=
  C5_failure_not_returned demo_env demo_tables (valid_image "a") Uargs.null demo_boot 0
    { fn := 1, modname := "a", filename := "fa", type := lazy_initcall_type.NORMAL,
      loaded := false } (-5)
    (by decide) (by decide) (by decide) (by decide) (by decide) (by decide) rfl
    (fun _ => rfl) (by decide)

/-- C6 as stated fails: entry "a" (NORMAL, index 0, not run, initializer returning -5)
is dispatched with the argument `mode=fast` whose parameter is unknown; the buffer
then holds the unknown-parameter line before the failure line, so it is not the
previous buffer plus exactly one line. -/
theorem C6_unknown_param_counterexample :
    demo_boot.lazy_initcalls[0]? =
      some { fn := 1, modname := "a", filename := "fa", type := lazy_initcall_type.NORMAL,
             loaded := false } ∧
    demo_env_args.call [] 1 = -5 ∧
    (load_module demo_env_args demo_tables (valid_image "a") (Uargs.str "mode=fast")
      demo_boot).2.errors_str ≠
      (demo_boot.errors_str ++ init_failed_line 0 "a" (-5)).take (ERRORS_STR_SIZE - 1) ∧
    (load_module demo_env_args demo_tables (valid_image "a") (Uargs.str "mode=fast")
      demo_boot).2.errors_str =
      unknown_param_line "a" "a.mode" ++ init_failed_line 0 "a" (-5) := by
  decide

/-- C6 amended. Let the requested name be first carried by entry `i`, not blacklisted
and not yet run, in a live state with `completed` false; let its initializer return
`r ≠ 0` and the arguments raise no unknown-parameter diagnostic. When `load_modname`
returns, the entry is loaded, `errors_str` is the previous buffer followed by exactly the
line `lazy_initcalls[i]: <name>'s init function returned <r>` cut to the free space, and
`completed` is set exactly when no NORMAL entry is pending. The entry stays loaded when
`load_module` returns; and if another NORMAL entry is still unloaded, `load_module`
returns in that very state with `completed` false. -/
theorem C6_failed_initializer_recorded (E : Env) (T : Tables) (info : load_info) (u : Uargs)
    (s : State) (i : Nat) (c : lazy_initcall) (r : Int)
    (hv : info.valid) (hp : s.panicked = false) (hcomp : s.completed = false)
    (hb : info.name ∉ T.blacklist)
    (hf : find_modname info.name s.lazy_initcalls = some i)
    (hc : s.lazy_initcalls[i]? = some c) (hl : c.loaded = false)
    (hr : ∀ tr, E.call tr c.fn = r) (hr0 : r ≠ 0) (hargs : no_unknown E info.name u) :
    loaded_at (load_modname E T info.name u s).lazy_initcalls i = true ∧
    (load_modname E T info.name u s).errors_str =
      s.errors_str ++ (init_failed_line i info.name r).take
        (ERRORS_STR_SIZE - s.errors_str.length - 1) ∧
    ((load_modname E T info.name u s).completed = true ↔
      pending (load_modname E T info.name u s).lazy_initcalls = false) ∧
    loaded_at (load_module E T info u s).2.lazy_initcalls i = true ∧
    ((∃ (j : Nat) (c2 : lazy_initcall), j ≠ i ∧ s.lazy_initcalls[j]? = some c2 ∧
        c2.type = lazy_initcall_type.NORMAL ∧ c2.loaded = false) →
      (load_module E T info u s).2 = load_modname E T info.name u s ∧
      (load_module E T info u s).2.completed = false) := by
  have hl1 := load_modname_loads E T info.name u s hp hb hf
  have heq := load_modname_fresh E T info.name u s hp hb hf hc hl
  have hinv := invoked_run_initcall E info.name u i c.fn
    { s with lazy_initcalls := set_loaded i s.lazy_initcalls }
  have hcompl : (load_modname E T info.name u s).completed = true ↔
      pending (load_modname E T info.name u s).lazy_initcalls = false := by
    rw [heq, hinv.completed, hinv.reg]
    by_cases hpe : pending (set_loaded i s.lazy_initcalls) = true
    · simp [hpe, hcomp]
    · simp [hpe]
  refine ⟨hl1, ?_, hcompl, ?_, ?_⟩
  · rw [heq, (run_initcall_failed E info.name u i c.fn _ r hr hr0).1,
      setup_args_no_unknown E info.name u _ hargs]
  · have hev := load_module_after_inner E T info u s hp hcomp
    rw [load_module_inner_valid E T info u s hv] at hev
    exact hev.loaded i hl1
  · rintro ⟨j, c2, hji, hc2, ht2, hl2⟩
    have hpend : pending (load_modname E T info.name u s).lazy_initcalls = true := by
      rw [heq, hinv.reg, pending_iff]
      refine ⟨j, c2, ?_, ht2, hl2⟩
      simp only
      rw [getElem?_set_loaded, hc2]
      simp [hji]
    have hnc : (load_modname E T info.name u s).completed = false := by
      by_contra hne
      have h1 : (load_modname E T info.name u s).completed = true := by simpa using hne
      rw [hcompl.mp h1] at hpend; cases hpend
    have := load_module_pending E T info u s hv hp hcomp hnc
    rw [this]
    exact ⟨rfl, hnc⟩

theorem C6_failed_initializer_recorded_witness :
    loaded_at (load_modname demo_env demo_tables (valid_image "a").name Uargs.null
      demo_boot).lazy_initcalls 0 = true ∧
    (load_modname demo_env demo_tables (valid_image "a").name Uargs.null demo_boot).errors_str =
      demo_boot.errors_str ++ (init_failed_line 0 (valid_image "a").name (-5)).take
        (ERRORS_STR_SIZE - demo_boot.errors_str.length - 1) ∧
    ((load_modname demo_env demo_tables (valid_image "a").name Uargs.null
        demo_boot).completed = true ↔
      pending (load_modname demo_env demo_tables (valid_image "a").name Uargs.null
        demo_boot).lazy_initcalls = false) ∧
    loaded_at (load_module demo_env demo_tables (valid_image "a") Uargs.null
      demo_boot).2.lazy_initcalls 0 = true ∧
    ((∃ (j : Nat) (c2 : lazy_initcall), j ≠ 0 ∧ demo_boot.lazy_initcalls[j]? = some c2 ∧
        c2.type = lazy_initcall_type.NORMAL ∧ c2.loaded = false) →
      (load_module demo_env demo_tables (valid_image "a") Uargs.null demo_boot).2 =
        load_modname demo_env demo_tables (valid_image "a").name Uargs.null demo_boot ∧
      (load_module demo_env demo_tables (valid_image "a") Uargs.null
        demo_boot).2.completed = false) :=
  C6_failed_initializer_recorded demo_env demo_tables (valid_image "a") Uargs.null demo_boot 0
    { fn := 1, modname := "a", filename := "fa", type := lazy_initcall_type.NORMAL,
      loaded := false } (-5)
    (by decide) (by decide) (by decide) (by decide) (by decide) (by decide) rfl
    (fun _ => rfl) (by decide) (fun _ h => Uargs.noConfusion h)

/-- C7. Idempotent re-request: in every state reached from a boot scan by any
sequence of steps, if the machine is live and the entry at index `i` is loaded, a
dispatch (valid image) of that entry's name returns 0 and leaves the whole state
unchanged: no initializer is invoked and the buffer, every entry and `completed` are as
before. Consequently, for any state and any registered name, a second dispatch of the
same name right after the first changes nothing. -/
theorem C7_idempotent_rerequest (E : Env) (T : Tables) (regs : List (Nat × String × String))
    (ops : List Op) (info : load_info) (u : Uargs) (i : Nat) (c : lazy_initcall)
    (hp : (run E T ops (register_all T regs State.boot)).panicked = false)
    (hc : (run E T ops (register_all T regs State.boot)).lazy_initcalls[i]? = some c)
    (hl : c.loaded = true) (hv : info.valid) (hn : info.name = c.modname) :
    load_module E T info u (run E T ops (register_all T regs State.boot)) =
      (0, run E T ops (register_all T regs State.boot)) ∧
    ∀ (st : State) (u1 u2 : Uargs), info.name ∈ names st.lazy_initcalls →
      (load_module E T info u2 (load_module E T info u1 st).2).2 =
        (load_module E T info u1 st).2 := by
  constructor
  · have hfirst := firstInv_run E T ops _ (boot_firstInv T regs)
    have hf := hfirst i c hc hl
    rw [← hn] at hf
    have h1 := load_modname_loaded E T info.name u _ hf hc hl
    unfold load_module
    rw [load_module_inner_valid E T info u _ hv, h1]
    simp only [hp, Bool.false_eq_true, if_false]
    split <;> rfl
  · intro st u1 u2 hmem
    by_cases h1p : (load_module E T info u1 st).2.panicked = true
    · rw [load_module_of_panicked E T info u2 _ h1p]
    by_cases h1c : (load_module E T info u1 st).2.completed = true
    · rw [load_module_of_completed E T info u2 _ h1c]
    have h1p : (load_module E T info u1 st).2.panicked = false := by simpa using h1p
    have h1c : (load_module E T info u1 st).2.completed = false := by simpa using h1c
    have hev := load_module_evolves E T info u1 st
    have hsp : st.panicked = false := by
      by_contra hne
      have : st.panicked = true := by simpa using hne
      rw [hev.panicked this] at h1p; cases h1p
    have hsc : st.completed = false := by
      by_contra hne
      have : st.completed = true := by simpa using hne
      rw [hev.completed this] at h1c; cases h1c
    have hmod : load_modname E T info.name u2 (load_module E T info u1 st).2 =
        (load_module E T info u1 st).2 := by
      by_cases hb : info.name ∈ T.blacklist
      · simp [load_modname, hb]
      · cases hfind : find_modname info.name st.lazy_initcalls with
        | none => exact absurd hmem (find_modname_none.mp hfind)
        | some k =>
          have hl1 := load_modname_loads E T info.name u1 st hsp hb hfind
          have hev2 := load_module_after_inner E T info u1 st hsp hsc
          rw [load_module_inner_valid E T info u1 st hv] at hev2
          have hl2 := hev2.loaded k hl1
          have hfind2 : find_modname info.name (load_module E T info u1 st).2.lazy_initcalls
              = some k := by
            rw [find_modname_names (names_of_shape hev.shape)]; exact hfind
          obtain ⟨c2, hc2, _, _⟩ := find_modname_some hfind2
          apply load_modname_loaded E T info.name u2 _ hfind2 hc2
          simpa [loaded_at, hc2] using hl2
    have := load_module_pending E T info u2 _ hv h1p h1c (by rw [hmod]; exact h1c)
    rw [this, hmod]

theorem C7_idempotent_rerequest_witness :
    load_module demo_env demo_tables (valid_image "a") Uargs.null
        (run demo_env demo_tables [request "a"] (register_all demo_tables demo_regs State.boot)) =
      (0, run demo_env demo_tables [request "a"]
        (register_all demo_tables demo_regs State.boot)) ∧
    ∀ (st : State) (u1 u2 : Uargs), (valid_image "a").name ∈ names st.lazy_initcalls →
      (load_module demo_env demo_tables (valid_image "a") u2
        (load_module demo_env demo_tables (valid_image "a") u1 st).2).2 =
        (load_module demo_env demo_tables (valid_image "a") u1 st).2 :=
  C7_idempotent_rerequest demo_env demo_tables demo_regs [request "a"] (valid_image "a")
    Uargs.null 0
    { fn := 1, modname := "a", filename := "fa", type := lazy_initcall_type.NORMAL,
      loaded := true }
    (by decide) (by decide) rfl (by decide) rfl

/-! ## The barrier fires on the last NORMAL request -/

theorem entry_of_shape {l L : List lazy_initcall} (h : l.map shape = L.map shape) {j : Nat}
    {c : lazy_initcall} (hc : L[j]? = some c) :
    ∃ c1, l[j]? = some c1 ∧ c1.modname = c.modname ∧ c1.type = c.type ∧ c1.fn = c.fn := by
  obtain ⟨c1, h1, hs⟩ := getElem?_of_shape h.symm hc
  refine ⟨c1, h1, ?_, ?_, ?_⟩
  · have := congrArg lazy_initcall.modname hs; simpa [shape] using this
  · have := congrArg lazy_initcall.type hs; simpa [shape] using this
  · have := congrArg lazy_initcall.fn hs; simpa [shape] using this

theorem find_of_nodup_shape {l L : List lazy_initcall} (h : l.map shape = L.map shape)
    (hnd : (names L).Nodup) {j : Nat} {c : lazy_initcall} (hc : L[j]? = some c) :
    find_modname c.modname l = some j := by
  rw [find_modname_names (names_of_shape h)]
  exact find_modname_nodup hnd hc

/-- One request for a registered name other than that of a pending NORMAL entry:
the barrier does not fire, only the named entry can become loaded. -/
theorem load_module_normal_step (E : Env) (T : Tables) (L : List lazy_initcall)
    (r : load_info × Uargs) (s : State)
    (hs : s.lazy_initcalls.map shape = L.map shape) (hnd : (names L).Nodup)
    (hp : s.panicked = false) (hc : s.completed = false)
    {im : Nat} {cm : lazy_initcall} (hm : L[im]? = some cm)
    (hmt : cm.type = lazy_initcall_type.NORMAL) (hml : loaded_at s.lazy_initcalls im = false)
    (hne : r.1.name ≠ cm.modname) (hv : r.1.valid) (hreg : r.1.name ∈ names L)
    (hbl : r.1.name ∉ T.blacklist) :
    (load_module E T r.1 r.2 s).2.panicked = false ∧
    (load_module E T r.1 r.2 s).2.completed = false ∧
    (∀ j c, L[j]? = some c → r.1.name ≠ c.modname → loaded_at s.lazy_initcalls j = false →
      loaded_at (load_module E T r.1 r.2 s).2.lazy_initcalls j = false) ∧
    (∀ j c, L[j]? = some c → r.1.name = c.modname →
      loaded_at (load_module E T r.1 r.2 s).2.lazy_initcalls j = true) := by
  have hnames : names s.lazy_initcalls = names L := names_of_shape hs
  have key : (load_modname E T r.1.name r.2 s).panicked = false ∧
      (load_modname E T r.1.name r.2 s).completed = false ∧
      (∀ j c, L[j]? = some c → r.1.name ≠ c.modname → loaded_at s.lazy_initcalls j = false →
        loaded_at (load_modname E T r.1.name r.2 s).lazy_initcalls j = false) ∧
      (∀ j c, L[j]? = some c → r.1.name = c.modname →
        loaded_at (load_modname E T r.1.name r.2 s).lazy_initcalls j = true) := by
    cases hfind : find_modname r.1.name s.lazy_initcalls with
    | none =>
      have := find_modname_none.mp hfind
      rw [hnames] at this
      exact absurd hreg this
    | some i =>
      obtain ⟨ci, hci, hcin, _⟩ := find_modname_some hfind
      obtain ⟨cm1, hcm1, hcm1n, hcm1t, _⟩ := entry_of_shape hs hm
      have hiim : im ≠ i := by
        intro he
        subst he
        rw [hci] at hcm1
        cases hcm1
        exact hne (hcin.symm.trans hcm1n)
      have hidx : ∀ j c, L[j]? = some c → r.1.name = c.modname → j = i := by
        intro j c hj hn
        have := find_of_nodup_shape hs hnd hj
        rw [← hn, hfind] at this
        cases this; rfl
      by_cases hl : ci.loaded = true
      · rw [load_modname_loaded E T r.1.name r.2 s hfind hci hl]
        refine ⟨hp, hc, fun j c _ _ h => h, fun j c hj hn => ?_⟩
        rw [hidx j c hj hn]
        simp [loaded_at, hci, hl]
      · have hl : ci.loaded = false := by simpa using hl
        rw [load_modname_fresh E T r.1.name r.2 s hp hbl hfind hci hl]
        have hinv := invoked_run_initcall E r.1.name r.2 i ci.fn
          { s with lazy_initcalls := set_loaded i s.lazy_initcalls }
        have hpend : pending (set_loaded i s.lazy_initcalls) = true := by
          rw [pending_iff]
          refine ⟨im, cm1, ?_, hcm1t.trans hmt, ?_⟩
          · rw [getElem?_set_loaded, hcm1]; simp [hiim]
          · simpa [loaded_at, hcm1] using hml
        refine ⟨by rw [hinv.panicked]; exact hp, ?_, fun j c hj hn h => ?_, fun j c hj hn => ?_⟩
        · rw [hinv.completed]; simp only at hpend ⊢; rw [if_pos hpend]; exact hc
        · rw [hinv.reg]
          simp only
          rw [loaded_at_set_loaded, h]
          have hji : j ≠ i := by
            intro he
            subst he
            obtain ⟨c1, hc1, hc1n, _⟩ := entry_of_shape hs hj
            rw [hci] at hc1; cases hc1
            exact hn (hcin.symm.trans hc1n)
          simp [hji]
        · rw [hinv.reg]
          simp only
          rw [loaded_at_set_loaded, hidx j c hj hn]
          simp [find_modname_lt hfind]
  rw [load_module_pending E T r.1 r.2 s hv hp hc key.2.1]
  exact key

/-- A run of requests for registered names other than that of a pending NORMAL
entry: the barrier never fires, the named entries become loaded and no other
entry does. -/
theorem run_normals (E : Env) (T : Tables) (L : List lazy_initcall) (hnd : (names L).Nodup)
    {im : Nat} {cm : lazy_initcall} (hm : L[im]? = some cm)
    (hmt : cm.type = lazy_initcall_type.NORMAL)
    (init : List (load_info × Uargs)) (s : State)
    (hs : s.lazy_initcalls.map shape = L.map shape)
    (hp : s.panicked = false) (hc : s.completed = false)
    (hml : loaded_at s.lazy_initcalls im = false)
    (hreq : ∀ r ∈ init, r.1.name ≠ cm.modname ∧ r.1.valid ∧ r.1.name ∈ names L ∧
      r.1.name ∉ T.blacklist) :
    (run E T (loads init) s).panicked = false ∧
    (run E T (loads init) s).completed = false ∧
    (∀ j c, L[j]? = some c → (∀ r ∈ init, r.1.name ≠ c.modname) →
      loaded_at s.lazy_initcalls j = false →
      loaded_at (run E T (loads init) s).lazy_initcalls j = false) ∧
    (∀ j c, L[j]? = some c → (∃ r ∈ init, r.1.name = c.modname) →
      loaded_at (run E T (loads init) s).lazy_initcalls j = true) := by
  induction init generalizing s with
  | nil =>
    refine ⟨hp, hc, fun j c _ _ h => h, fun j c _ h => ?_⟩
    obtain ⟨r, hr, _⟩ := h
    cases hr
  | cons r rs ih =>
    obtain ⟨h1, h2, h3, h4⟩ := hreq r (List.mem_cons_self _ _)
    obtain ⟨hp1, hc1, hun1, hld1⟩ :=
      load_module_normal_step E T L r s hs hnd hp hc hm hmt hml h1 h2 h3 h4
    have hs1 : (load_module E T r.1 r.2 s).2.lazy_initcalls.map shape = L.map shape :=
      (load_module_evolves E T r.1 r.2 s).shape.trans hs
    have hrun : run E T (loads (r :: rs)) s =
        run E T (loads rs) (load_module E T r.1 r.2 s).2 := rfl
    obtain ⟨hp2, hc2, hun2, hld2⟩ := ih (load_module E T r.1 r.2 s).2 hs1 hp1 hc1
      (hun1 im cm hm h1 hml) (fun q hq => hreq q (List.mem_cons_of_mem _ hq))
    rw [hrun]
    refine ⟨hp2, hc2, fun j c hj hn h => ?_, fun j c hj hn => ?_⟩
    · exact hun2 j c hj (fun q hq => hn q (List.mem_cons_of_mem _ hq))
        (hun1 j c hj (hn r (List.mem_cons_self _ _)) h)
    · obtain ⟨q, hq, hqn⟩ := hn
      rcases List.mem_cons.mp hq with he | hq2
      · subst he
        exact (run_evolves E T (loads rs) _).loaded j (hld1 j c hj hqn)
      · exact hld2 j c hj ⟨q, hq2, hqn⟩

theorem calls_pos_mem {i : Nat} {d : List Event} (h : 0 < calls i d) :
    ∃ f, Event.initcall i f ∈ d := by
  unfold calls at h
  obtain ⟨e, he, hpe⟩ := List.countP_pos_iff.mp h
  cases e with
  | initcall j f =>
    simp only [decide_eq_true_eq] at hpe
    subst hpe
    exact ⟨f, he⟩
  | _ => simp at hpe

theorem normal_names_nodup {l : List lazy_initcall} (h : (names l).Nodup) :
    (normal_names l).Nodup := by
  unfold normal_names names
  exact h.sublist ((List.filter_sublist l).map _)

theorem mem_normal_names {l : List lazy_initcall} {n : String} :
    n ∈ normal_names l ↔ ∃ c ∈ l, c.type = lazy_initcall_type.NORMAL ∧ c.modname = n := by
  unfold normal_names names
  simp only [List.mem_map, List.mem_filter, decide_eq_true_eq]
  constructor
  · rintro ⟨c, ⟨h1, h2⟩, h3⟩; exact ⟨c, h1, h2, h3⟩
  · rintro ⟨c, h1, h2, h3⟩; exact ⟨c, ⟨h1, h2⟩, h3⟩

theorem loads_append (a b : List (load_info × Uargs)) : loads (a ++ b) = loads a ++ loads b := by
  simp [loads]

/-- C3. The barrier fires exactly on the last NORMAL dispatch. The registry is built by
`add_lazy_initcall` with pairwise distinct names; the requests `init ++ [last]` carry
valid images and name each NORMAL entry exactly once, in any order, with arbitrary
arguments and arbitrary initializer statuses; every `deferred_list` name is in
`builtin_list` (as in the shipped tables) or the build is a debug build, so that the
barrier's own dispatches cannot panic. Then `completed` is false after every proper
prefix of the requests and true after the last one, and the last call cancels the
periodic reporter and invokes the initializer of every DEFERRED entry. -/
theorem C3_barrier_fires_on_last_normal (E : Env) (T : Tables)
    (regs : List (Nat × String × String)) (init : List (load_info × Uargs))
    (last : load_info × Uargs)
    (hnd : (names (register_all T regs State.boot).lazy_initcalls).Nodup)
    (hdef : E.debug = true ∨ ∀ d ∈ T.deferred_list, d ∈ T.builtin_list)
    (hv : ∀ r ∈ init ++ [last], r.1.valid)
    (hperm : ((init ++ [last]).map (fun r => r.1.name)).Perm
      (normal_names (register_all T regs State.boot).lazy_initcalls)) :
    (∀ k, k ≤ init.length →
      (run E T (loads (init.take k)) (register_all T regs State.boot)).completed = false) ∧
    (run E T (loads (init ++ [last])) (register_all T regs State.boot)).completed = true ∧
    ∃ delta, (run E T (loads (init ++ [last])) (register_all T regs State.boot)).trace =
        (run E T (loads init) (register_all T regs State.boot)).trace ++ delta ∧
      Event.cancel_work ∈ delta ∧
      ∀ i c, (register_all T regs State.boot).lazy_initcalls[i]? = some c →
        c.type = lazy_initcall_type.DEFERRED → Event.initcall i c.fn ∈ delta := by
  have hr := boot_registered T regs
  have hbf := boot_fields T regs
  -- what the permutation hypothesis says
  have hreq_nodup : ((init ++ [last]).map (fun r => r.1.name)).Nodup :=
    hperm.nodup_iff.mpr (normal_names_nodup hnd)
  have hreq_normal : ∀ r ∈ init ++ [last], ∃ c ∈ (register_all T regs State.boot).lazy_initcalls,
      c.type = lazy_initcall_type.NORMAL ∧ c.modname = r.1.name := by
    intro r hr
    apply mem_normal_names.mp
    exact hperm.subset (List.mem_map.mpr ⟨r, hr, rfl⟩)
  have hcover : ∀ c ∈ (register_all T regs State.boot).lazy_initcalls,
      c.type = lazy_initcall_type.NORMAL →
      (∃ r ∈ init, r.1.name = c.modname) ∨ last.1.name = c.modname := by
    intro c hc ht
    have : c.modname ∈ (init ++ [last]).map (fun r => r.1.name) :=
      hperm.symm.subset (mem_normal_names.mpr ⟨c, hc, ht, rfl⟩)
    obtain ⟨r, hr, hrn⟩ := List.mem_map.mp this
    rcases List.mem_append.mp hr with h | h
    · exact Or.inl ⟨r, h, hrn⟩
    · simp at h; subst h; exact Or.inr hrn
  -- the entry named by the last request
  obtain ⟨cm, hcm, hcmt, hcmn⟩ := hreq_normal last (by simp)
  obtain ⟨im, him⟩ := List.mem_iff_getElem?.mp hcm
  have hinit_ne : ∀ r ∈ init, r.1.name ≠ cm.modname := by
    intro r hr he
    rw [List.map_append, List.nodup_append] at hreq_nodup
    exact hreq_nodup.2.2 (List.mem_map.mpr ⟨r, hr, rfl⟩)
      (List.mem_map.mpr ⟨last, by simp, (he.trans hcmn).symm⟩)
  have hreq : ∀ r ∈ init, r.1.name ≠ cm.modname ∧ r.1.valid ∧
      r.1.name ∈ names (register_all T regs State.boot).lazy_initcalls ∧
      r.1.name ∉ T.blacklist := by
    intro r hr0
    obtain ⟨c, hc, _, hcn⟩ := hreq_normal r (List.mem_append_left _ hr0)
    refine ⟨hinit_ne r hr0, hv r (List.mem_append_left _ hr0), ?_, ?_⟩
    · exact List.mem_map.mpr ⟨c, hc, hcn⟩
    · rw [← hcn]; exact (hr c hc).1
  have hA := fun (l : List (load_info × Uargs)) (hl : ∀ r ∈ l, r ∈ init) =>
    run_normals E T (register_all T regs State.boot).lazy_initcalls hnd him hcmt l
      (register_all T regs State.boot) rfl hbf.2.1 hbf.1 (boot_unloaded T regs im)
      (fun r hr0 => hreq r (hl r hr0))
  refine ⟨fun k _ => (hA (init.take k) (fun r hr0 => List.mem_of_mem_take hr0)).2.1, ?_⟩
  obtain ⟨hp, hc, hun, hld⟩ := hA init (fun r hr0 => hr0)
  -- the state before the last request
  have hev0 := run_evolves E T (loads init) (register_all T regs State.boot)
  have hci0 := callsInv_run E T (loads init) _ (boot_callsInv T regs)
  have hrun : run E T (loads (init ++ [last])) (register_all T regs State.boot) =
      (load_module E T last.1 last.2
        (run E T (loads init) (register_all T regs State.boot))).2 := by
    rw [loads_append, run_append]; rfl
  rw [hrun]
  generalize hsdef : run E T (loads init) (register_all T regs State.boot) = s at *
  have hvl : last.1.valid := hv last (by simp)
  have hbl : last.1.name ∉ T.blacklist := by rw [← hcmn]; exact (hr cm hcm).1
  have hfind : find_modname last.1.name s.lazy_initcalls = some im := by
    rw [← hcmn]; exact find_of_nodup_shape hev0.shape hnd him
  obtain ⟨cm1, hcm1, _, _, _⟩ := entry_of_shape hev0.shape him
  have hml : loaded_at s.lazy_initcalls im = false :=
    hun im cm him hinit_ne (boot_unloaded T regs im)
  have hcm1l : cm1.loaded = false := by simpa [loaded_at, hcm1] using hml
  have hfresh := load_modname_fresh E T last.1.name last.2 s hp hbl hfind hcm1 hcm1l
  have hinv := invoked_run_initcall E last.1.name last.2 im cm1.fn
    { s with lazy_initcalls := set_loaded im s.lazy_initcalls }
  -- no NORMAL entry is pending once the last one is marked
  have hnp : pending (set_loaded im s.lazy_initcalls) = false := by
    by_contra hne
    have hpe : pending (set_loaded im s.lazy_initcalls) = true := by simpa using hne
    obtain ⟨j, c, hj, hjt, hjl⟩ := (pending_iff _).mp hpe
    have hlj : loaded_at (set_loaded im s.lazy_initcalls) j = false := by
      simp [loaded_at, hj, hjl]
    rw [loaded_at_set_loaded] at hlj
    simp only [Bool.or_eq_false_iff, Bool.and_eq_false_iff, decide_eq_false_iff_not] at hlj
    have hjim : j ≠ im := by
      rcases hlj.2 with h | h
      · exact h
      · exact absurd (find_modname_lt hfind) h
    obtain ⟨c0, hc0, hshape⟩ := getElem?_of_shape (set_loaded_shape im s.lazy_initcalls) hj
    obtain ⟨cL, hcL, hsL⟩ := getElem?_of_shape hev0.shape hc0
    have htL : cL.type = lazy_initcall_type.NORMAL := by
      have h1 := congrArg lazy_initcall.type hsL
      have h2 := congrArg lazy_initcall.type hshape
      simp only [shape] at h1 h2
      rw [h1, h2]; exact hjt
    rcases hcover cL (List.getElem?_mem hcL) htL with hin | hla
    · have := hld j cL hcL hin
      rw [hlj.1] at this; cases this
    · have := find_of_nodup_shape hev0.shape hnd hcL
      rw [← hla, hfind] at this
      cases this
      exact hjim rfl
  have h1c : (load_modname E T last.1.name last.2 s).completed = true := by
    rw [hfresh, hinv.completed]; simp only; rw [hnp]; rfl
  have h1p : (load_modname E T last.1.name last.2 s).panicked = false := by
    rw [hfresh, hinv.panicked]; exact hp
  have hinner := load_module_inner_valid E T last.1 last.2 s hvl
  have h2p : (load_deferred E T T.deferred_list
      (__load_module E T last.1 last.2 s).2).panicked = false := by
    rw [hinner]; exact load_deferred_live E T _ _ h1p hdef
  have hq := load_module_fired E T last.1 last.2 s hp hc (by rw [hinner]; exact h1p)
    (by rw [hinner]; exact h1c) h2p
  have hev1 := load_module_after_inner E T last.1 last.2 s hp hc
  rw [hinner] at hev1
  have hfin_c : (load_module E T last.1 last.2 s).2.completed = true := hev1.completed h1c
  have hfin_p : (load_module E T last.1 last.2 s).2.panicked = false := by
    rw [hq.panicked]; exact h2p
  refine ⟨hfin_c, ?_⟩
  -- the effects of the last call
  obtain ⟨d1, d2, ht1, _, _, hcancel⟩ := hinv.trace
  obtain ⟨t, ht⟩ := hev1.trace
  have htrace : (load_module E T last.1 last.2 s).2.trace =
      s.trace ++ (d1 ++ Event.initcall im cm1.fn :: d2 ++ t) := by
    rw [← ht, hfresh, ht1]; simp
  refine ⟨_, htrace, ?_, ?_⟩
  · have := hcancel hnp
    simp [this]
  · intro i c hi hit
    have hs := hev0.shape
    have hnot : ∀ r ∈ init, r.1.name ≠ c.modname := by
      intro r hr0 he
      obtain ⟨c2, hc2, hc2t, hc2n⟩ := hreq_normal r (List.mem_append_left _ hr0)
      obtain ⟨j2, hj2⟩ := List.mem_iff_getElem?.mp hc2
      have h1 := find_modname_nodup hnd hj2
      have h2 := find_modname_nodup hnd hi
      rw [hc2n, he, h2] at h1
      cases h1
      rw [hi] at hj2; cases hj2
      rw [hit] at hc2t; cases hc2t
    have hli : loaded_at s.lazy_initcalls i = false :=
      hun i c hi hnot (boot_unloaded T regs i)
    have hcalls0 : calls i s.trace = 0 := by rw [hci0.1 i, hli]; rfl
    have hrs : Registered T s.lazy_initcalls := registered_of_shape hs hr
    have hnds : (names s.lazy_initcalls).Nodup := by rw [names_of_shape hs]; exact hnd
    have hdone := doneInv_load_module E T last.1 last.2 s hrs hnds
      (fun h => by rw [hc] at h; cases h)
    have hevf := load_module_evolves E T last.1 last.2 s
    obtain ⟨cf, hcf, _, _, hcff⟩ := entry_of_shape (hevf.shape.trans hs) hi
    have hlt : i < (load_module E T last.1 last.2 s).2.lazy_initcalls.length := by
      by_contra hge
      rw [List.getElem?_eq_none_iff.mpr (Nat.le_of_not_lt hge)] at hcf; cases hcf
    have hlf := hdone hfin_c hfin_p i hlt
    have hcif := load_module_preserves E T CallsInv callsInv_quiet (callsInv_load_modname E T)
      last.1 last.2 s hci0
    have hcalls1 := hcif.1 i
    rw [hlf, htrace, calls_append, hcalls0] at hcalls1
    simp only [if_true, Nat.zero_add] at hcalls1
    obtain ⟨f, hf⟩ := calls_pos_mem (by rw [hcalls1]; exact Nat.one_pos)
    have hfmem : Event.initcall i f ∈ (load_module E T last.1 last.2 s).2.trace := by
      rw [htrace]; exact List.mem_append_right _ hf
    obtain ⟨c3, hc3, hc3f⟩ := hcif.2 i f hfmem
    rw [hcf] at hc3; cases hc3
    rw [← hcff, hc3f]; exact hf

set_option maxRecDepth 100000 in
/-- In the shipped tables every `deferred_list` name is also in `builtin_list`, so the
barrier's own dispatches never reach `__fatal`. -/
theorem shipped_deferred_builtin : ∀ d ∈ shipped.deferred_list, d ∈ shipped.builtin_list := by
  decide

theorem C3_barrier_fires_on_last_normal_witness :
    (∀ k, k ≤ [(valid_image "b", Uargs.null)].length →
      (run demo_env demo_tables (loads ([(valid_image "b", Uargs.null)].take k))
        (register_all demo_tables demo_regs State.boot)).completed = false) ∧
    (run demo_env demo_tables
      (loads ([(valid_image "b", Uargs.null)] ++ [(valid_image "a", Uargs.str "x=1")]))
      (register_all demo_tables demo_regs State.boot)).completed = true ∧
    ∃ delta, (run demo_env demo_tables
        (loads ([(valid_image "b", Uargs.null)] ++ [(valid_image "a", Uargs.str "x=1")]))
        (register_all demo_tables demo_regs State.boot)).trace =
        (run demo_env demo_tables (loads [(valid_image "b", Uargs.null)])
          (register_all demo_tables demo_regs State.boot)).trace ++ delta ∧
      Event.cancel_work ∈ delta ∧
      ∀ i c, (register_all demo_tables demo_regs State.boot).lazy_initcalls[i]? = some c →
        c.type = lazy_initcall_type.DEFERRED → Event.initcall i c.fn ∈ delta :=
  C3_barrier_fires_on_last_normal demo_env demo_tables demo_regs
    [(valid_image "b", Uargs.null)] (valid_image "a", Uargs.str "x=1")
    (by decide) (Or.inr (by decide)) (by decide) (by decide)

/-! ## Deferred entries run after the NORMAL ones -/

theorem call_type_of_shape {l l1 : List lazy_initcall} (h : l1.map shape = l.map shape)
    (e : Event) : call_type l1 e = call_type l e := by
  cases e with
  | initcall i f =>
    simp only [call_type]
    have h2 := congrArg (fun x : List lazy_initcall => (x[i]?).map (fun c => c.type)) h
    simpa [List.getElem?_map, Option.map_map, Function.comp_def, shape] using h2
  | _ => rfl

theorem ordered_of_shape {l l1 : List lazy_initcall} (h : l1.map shape = l.map shape)
    {tr : List Event} (ho : DeferredOrdered l tr) : DeferredOrdered l1 tr := by
  intro tr1 e tr2 heq hdef j c hj ht
  rw [call_type_of_shape h] at hdef
  obtain ⟨c0, hc0, hs⟩ := getElem?_of_shape h hj
  have ht0 : c0.type = lazy_initcall_type.NORMAL := by
    have := congrArg lazy_initcall.type hs
    simp only [shape] at this
    rw [this]; exact ht
  exact ho tr1 e tr2 heq hdef j c0 hc0 ht0

theorem deferred_name_of_shape {l l1 : List lazy_initcall} (h : l1.map shape = l.map shape)
    {n : String} (hd : deferred_name l1 n) : deferred_name l n := by
  obtain ⟨c1, hc1, ht, hn⟩ := hd
  obtain ⟨j, hj⟩ := List.mem_iff_getElem?.mp hc1
  obtain ⟨c, hc, hs⟩ := getElem?_of_shape h hj
  refine ⟨c, List.getElem?_mem hc, ?_, ?_⟩
  · have := congrArg lazy_initcall.type hs
    simp only [shape] at this
    rw [this]; exact ht
  · have := congrArg lazy_initcall.modname hs
    simp only [shape] at this
    rw [this]; exact hn

theorem ordered_append (l : List lazy_initcall) (tr d : List Event)
    (h : DeferredOrdered l tr)
    (hd : ∀ d1 e d2, d = d1 ++ e :: d2 → call_type l e = some lazy_initcall_type.DEFERRED →
      ∀ (j : Nat) (c : lazy_initcall), l[j]? = some c → c.type = lazy_initcall_type.NORMAL →
        calls j (tr ++ d1) = 1) :
    DeferredOrdered l (tr ++ d) := by
  intro tr1 e tr2 heq hdef j c hj ht
  rcases List.append_eq_append_iff.mp heq with ⟨a1, h1, h2⟩ | ⟨c1, h1, h2⟩
  · rw [h1]
    exact hd a1 e tr2 h2 hdef j c hj ht
  · cases c1 with
    | nil =>
      simp only [List.nil_append, List.append_nil] at h1 h2
      have := hd [] e tr2 h2.symm hdef j c hj ht
      rw [List.append_nil, h1] at this
      exact this
    | cons x xs =>
      simp only [List.cons_append, List.cons.injEq] at h2
      obtain ⟨hx, _⟩ := h2
      subst hx
      exact h tr1 e xs h1 hdef j c hj ht

theorem call_type_quiet (l : List lazy_initcall) {e : Event} (h : Event.is_call e = false) :
    call_type l e = none := by
  cases e <;> simp_all [Event.is_call, call_type]

theorem ordered_append_quiet (l : List lazy_initcall) (tr d : List Event)
    (h : DeferredOrdered l tr) (hq : ∀ e ∈ d, Event.is_call e = false) :
    DeferredOrdered l (tr ++ d) := by
  apply ordered_append l tr d h
  intro d1 e d2 hd hdef
  have he : e ∈ d := by rw [hd]; simp
  rw [call_type_quiet l (hq e he)] at hdef
  cases hdef

theorem ordered_append_single (l : List lazy_initcall) (tr : List Event) (e : Event)
    (h : DeferredOrdered l tr)
    (he : call_type l e = some lazy_initcall_type.DEFERRED →
      ∀ (j : Nat) (c : lazy_initcall), l[j]? = some c → c.type = lazy_initcall_type.NORMAL →
        calls j tr = 1) :
    DeferredOrdered l (tr ++ [e]) := by
  apply ordered_append l tr [e] h
  intro d1 e1 d2 hd hdef j c hj ht
  cases d1 with
  | nil =>
    simp only [List.nil_append, List.cons.injEq] at hd
    rw [← hd.1] at hdef
    rw [List.append_nil]
    exact he hdef j c hj ht
  | cons x xs =>
    simp only [List.cons_append, List.cons.injEq] at hd
    have := congrArg List.length hd.2
    simp at this
    omega

theorem ordered_quiet {s s1 : State} (hq : Quiet s s1)
    (h : DeferredOrdered s.lazy_initcalls s.trace) :
    DeferredOrdered s1.lazy_initcalls s1.trace := by
  obtain ⟨d, ht, hd⟩ := hq.trace
  rw [hq.reg, ht]
  exact ordered_append_quiet _ _ _ h hd

theorem ordered_load_modname (E : Env) (T : Tables) (n : String) (u : Uargs) (s : State)
    (hO : DeferredOrdered s.lazy_initcalls s.trace) (hC : CallsInv s)
    (hallow : deferred_name s.lazy_initcalls n → pending s.lazy_initcalls = false) :
    DeferredOrdered (load_modname E T n u s).lazy_initcalls (load_modname E T n u s).trace := by
  rcases load_modname_cases E T n u s with h | ⟨_, _, _, _, h⟩ | ⟨i, c, _, _, hf, hg, hl, h⟩
  · rw [h]; exact hO
  · rw [h]
    obtain ⟨h1, _, _, _, e, h5, he⟩ := fatal_fields E n s
    rw [h1, h5]
    exact ordered_append_quiet _ _ _ hO (by simpa using he)
  · rw [h]
    have hinv := invoked_run_initcall E n u i c.fn
      { s with lazy_initcalls := set_loaded i s.lazy_initcalls }
    obtain ⟨d1, d2, ht, hd1, hd2, _⟩ := hinv.trace
    rw [hinv.reg, ht]
    apply ordered_of_shape (set_loaded_shape i s.lazy_initcalls)
    have hstep : s.trace ++ d1 ++ Event.initcall i c.fn :: d2 =
        (s.trace ++ d1 ++ [Event.initcall i c.fn]) ++ d2 := by simp
    simp only
    rw [hstep]
    apply ordered_append_quiet _ _ _ _ hd2
    apply ordered_append_single _ _ _ (ordered_append_quiet _ _ _ hO hd1)
    intro hdef j cj hj htj
    simp only [call_type, hg, Option.map_some', Option.some.injEq] at hdef
    obtain ⟨cn, hcn, hcnn, _⟩ := find_modname_some hf
    rw [hg] at hcn; cases hcn
    have hp := hallow ⟨c, List.getElem?_mem hg, hdef, hcnn⟩
    rw [calls_append, calls_quiet j d1 hd1, hC.1 j, loaded_of_not_pending hp hj htj]
    rfl

theorem ordered_load_deferred (E : Env) (T : Tables) (ds : List String) (s : State)
    (hO : DeferredOrdered s.lazy_initcalls s.trace) (hC : CallsInv s)
    (hp : pending s.lazy_initcalls = false) :
    DeferredOrdered (load_deferred E T ds s).lazy_initcalls (load_deferred E T ds s).trace := by
  induction ds generalizing s with
  | nil => exact hO
  | cons a as ih =>
    have hstep : load_deferred E T (a :: as) s =
        load_deferred E T as (load_modname E T a Uargs.null s) := rfl
    rw [hstep]
    apply ih
    · exact ordered_load_modname E T a Uargs.null s hO hC (fun _ => hp)
    · exact callsInv_load_modname E T a Uargs.null s hC
    · by_contra hne
      have h1 : pending (load_modname E T a Uargs.null s).lazy_initcalls = true := by
        simpa using hne
      have := pending_of_evolves (load_modname_evolves E T a Uargs.null s) h1
      rw [hp] at this; cases this

theorem ordered_load_module (E : Env) (T : Tables) (info : load_info) (u : Uargs) (s : State)
    (hO : DeferredOrdered s.lazy_initcalls s.trace) (hC : CallsInv s)
    (hallow : deferred_name s.lazy_initcalls info.name → pending s.lazy_initcalls = false) :
    DeferredOrdered (load_module E T info u s).2.lazy_initcalls
      (load_module E T info u s).2.trace := by
  by_cases hp : s.panicked = true
  · rw [load_module_of_panicked E T info u s hp]; exact hO
  by_cases hc : s.completed = true
  · rw [load_module_of_completed E T info u s hc]; exact hO
  have hp : s.panicked = false := by simpa using hp
  have hc : s.completed = false := by simpa using hc
  have hO1 : DeferredOrdered (__load_module E T info u s).2.lazy_initcalls
      (__load_module E T info u s).2.trace := by
    rcases load_module_inner_cases E T info u s with ⟨hq, _⟩ | ⟨_, he⟩
    · exact ordered_quiet hq hO
    · rw [he]; exact ordered_load_modname E T info.name u s hO hC hallow
  have hC1 : CallsInv (__load_module E T info u s).2 := by
    rcases load_module_inner_cases E T info u s with ⟨hq, _⟩ | ⟨_, he⟩
    · exact callsInv_quiet _ _ hq hC
    · rw [he]; exact callsInv_load_modname E T info.name u s hC
  have hB1 : BarInv (__load_module E T info u s).2 :=
    load_module_inner_barInv E T info u s (fun h => by rw [hc] at h; cases h)
  by_cases h1p : (__load_module E T info u s).2.panicked = true
  · have : (load_module E T info u s).2 = (__load_module E T info u s).2 := by
      simp [load_module, hp, hc, h1p]
    rw [this]; exact hO1
  have h1p : (__load_module E T info u s).2.panicked = false := by simpa using h1p
  by_cases h1c : (__load_module E T info u s).2.completed = true
  · have hO2 := ordered_load_deferred E T T.deferred_list _ hO1 hC1 (hB1 h1c)
    by_cases h2p : (load_deferred E T T.deferred_list
        (__load_module E T info u s).2).panicked = true
    · have : (load_module E T info u s).2 =
          load_deferred E T T.deferred_list (__load_module E T info u s).2 := by
        simp [load_module, hp, hc, h1p, h1c, h2p]
      rw [this]; exact hO2
    · have h2p : (load_deferred E T T.deferred_list
          (__load_module E T info u s).2).panicked = false := by simpa using h2p
      exact ordered_quiet (load_module_fired E T info u s hp hc h1p h1c h2p) hO2
  · have : (load_module E T info u s).2 = (__load_module E T info u s).2 := by
      simp [load_module, hp, hc, h1p, h1c]
    rw [this]; exact hO1

theorem ordered_run (E : Env) (T : Tables) (ops : List Op) (s : State)
    (hO : DeferredOrdered s.lazy_initcalls s.trace) (hC : CallsInv s)
    (hd : ∀ pre info u post, ops = pre ++ Op.load info u :: post →
      deferred_name s.lazy_initcalls info.name →
      pending (run E T pre s).lazy_initcalls = false) :
    DeferredOrdered (run E T ops s).lazy_initcalls (run E T ops s).trace := by
  induction ops generalizing s with
  | nil => exact hO
  | cons op ops ih =>
    rw [run_cons]
    have hev := step_evolves E T s op
    apply ih
    · cases op with
      | load info u =>
        exact ordered_load_module E T info u s hO hC (fun h => hd [] info u ops rfl h)
      | tick t => exact ordered_quiet (quiet_show_errors E t s) hO
    · cases op with
      | load info u =>
        exact load_module_preserves E T CallsInv callsInv_quiet (callsInv_load_modname E T)
          info u s hC
      | tick t => exact callsInv_quiet _ _ (quiet_show_errors E t s) hC
    · intro pre info u post heq hdn
      have := hd (op :: pre) info u post (by rw [heq]; rfl) (deferred_name_of_shape hev.shape hdn)
      rw [run_cons] at this
      exact this

/-- C4 as stated fails: with entries "a", "b" (NORMAL) and "d" (DEFERRED), a direct
request for "d" followed by a request for "a" invokes the DEFERRED initializer first. -/
theorem C4_direct_request_counterexample :
    (run demo_env_ok demo_tables [request "d", request "a"] demo_boot).trace =
      [Event.initcall 2 3, Event.queue_work, Event.initcall 0 1, Event.queue_work] ∧
    call_type demo_boot.lazy_initcalls (Event.initcall 2 3) =
      some lazy_initcall_type.DEFERRED ∧
    call_type demo_boot.lazy_initcalls (Event.initcall 0 1) = some lazy_initcall_type.NORMAL ∧
    ¬ DeferredOrdered (run demo_env_ok demo_tables [request "d", request "a"]
        demo_boot).lazy_initcalls
      (run demo_env_ok demo_tables [request "d", request "a"] demo_boot).trace := by
  refine ⟨by decide, by decide, by decide, fun h => ?_⟩
  have := h [] (Event.initcall 2 3) [Event.queue_work, Event.initcall 0 1, Event.queue_work]
    (by decide) (by decide) 0
    { fn := 1, modname := "a", filename := "fa", type := lazy_initcall_type.NORMAL,
      loaded := true } (by decide) rfl
  exact absurd this (by decide)

/-- C4 amended. From a registry built by `add_lazy_initcall`, in every execution in
which a dispatch names a DEFERRED entry only when no NORMAL entry is pending (in
particular when deferred names are never requested directly and are run by the
barrier alone), each invocation of a DEFERRED entry's initializer comes strictly
after the invocation of every NORMAL entry's initializer. -/
theorem C4_deferred_after_normal (E : Env) (T : Tables) (regs : List (Nat × String × String))
    (ops : List Op)
    (hd : ∀ pre info u post, ops = pre ++ Op.load info u :: post →
      deferred_name (register_all T regs State.boot).lazy_initcalls info.name →
      pending (run E T pre (register_all T regs State.boot)).lazy_initcalls = false) :
    DeferredOrdered (run E T ops (register_all T regs State.boot)).lazy_initcalls
      (run E T ops (register_all T regs State.boot)).trace := by
  apply ordered_run E T ops _ _ (boot_callsInv T regs) hd
  intro tr1 e tr2 heq
  rw [(boot_fields T regs).2.2.2] at heq
  cases tr1 <;> cases heq

theorem C4_deferred_after_normal_witness :
    DeferredOrdered
      (run demo_env demo_tables [request "b", request "a"]
        (register_all demo_tables demo_regs State.boot)).lazy_initcalls
      (run demo_env demo_tables [request "b", request "a"]
        (register_all demo_tables demo_regs State.boot)).trace :=
  C4_deferred_after_normal demo_env demo_tables demo_regs [request "b", request "a"]
    (fun pre info u post heq hdn => by
      have hnot : ∀ n, n = "a" ∨ n = "b" →
          ¬ deferred_name (register_all demo_tables demo_regs State.boot).lazy_initcalls n := by
        intro n hn h
        obtain ⟨c, hc, ht, hcn⟩ := h
        have hall : ∀ c ∈ (register_all demo_tables demo_regs State.boot).lazy_initcalls,
            c.type = lazy_initcall_type.DEFERRED → c.modname ≠ "a" ∧ c.modname ≠ "b" := by
          decide
        rcases hn with rfl | rfl
        · exact (hall c hc ht).1 hcn
        · exact (hall c hc ht).2 hcn
      cases pre with
      | nil =>
        simp only [List.nil_append, request, List.cons.injEq, Op.load.injEq] at heq
        exact absurd hdn (hnot _ (Or.inr (by rw [← heq.1.1]; rfl)))
      | cons x xs =>
        cases xs with
        | nil =>
          simp only [List.cons_append, List.nil_append, request, List.cons.injEq,
            Op.load.injEq] at heq
          exact absurd hdn (hnot _ (Or.inl (by rw [← heq.2.1.1]; rfl)))
        | cons y ys =>
          simp only [List.cons_append, request, List.cons.injEq] at heq
          have := congrArg List.length heq.2.2
          simp at this
          omega)

/-! ## Registry capacity -/

theorem boot_counter_le (T : Tables) (regs : List (Nat × String × String))
    (hnd : (regs.map (fun r => r.2.1)).Nodup) :
    (register_all T regs State.boot).counter ≤ T.targets_list.length + T.deferred_list.length := by
  have hlen : (register_all T regs State.boot).counter =
      (names (register_all T regs State.boot).lazy_initcalls).length := by
    simp [State.counter, names]
  rw [hlen, boot_names, ← List.length_append]
  apply List.Subperm.length_le
  apply List.Nodup.subperm (hnd.filter _)
  intro n hn
  have ha := (List.mem_filter.mp hn).2
  simp only [accepted, Bool.and_eq_true, Bool.or_eq_true, decide_eq_true_eq] at ha
  exact List.mem_append.mpr ha.2

set_option maxRecDepth 100000 in
theorem shipped_lengths :
    shipped.targets_list.length = 478 ∧ shipped.blacklist.length = 0 ∧
    shipped.deferred_list.length = 2 := by
  decide

theorem shipped_capacity : capacity shipped = 481 := by
  obtain ⟨h1, h2, h3⟩ := shipped_lengths
  simp [capacity, ARRAY_SIZE, h1, h2, h3]

/-- C11. Registry capacity is never exceeded: with the shipped policy tables the
declared length of `lazy_initcalls[]` is 481, and in every boot scan that passes each
component name at most once `counter` stays below it after every call; so each write
`lazy_initcalls[counter]` of an accepted registration is in bounds. -/
theorem C11_capacity_never_exceeded (regs : List (Nat × String × String))
    (hnd : (regs.map (fun r => r.2.1)).Nodup) :
    capacity shipped = 481 ∧
    (∀ k, (register_all shipped (regs.take k) State.boot).counter < capacity shipped) ∧
    (∀ pre r post, regs = pre ++ r :: post →
      (add_lazy_initcall shipped r.1 r.2.1 r.2.2 (register_all shipped pre State.boot)).1 = true →
      (register_all shipped pre State.boot).counter < capacity shipped) := by
  have hk : ∀ k, (register_all shipped (regs.take k) State.boot).counter < capacity shipped := by
    intro k
    have hsub : ((regs.take k).map (fun r => r.2.1)).Nodup :=
      hnd.sublist ((List.take_sublist k regs).map _)
    have := boot_counter_le shipped (regs.take k) hsub
    obtain ⟨h1, _, h3⟩ := shipped_lengths
    rw [shipped_capacity]
    omega
  refine ⟨shipped_capacity, hk, ?_⟩
  intro pre r post heq _
  have := hk pre.length
  rw [heq, List.take_left'] at this
  · exact this
  · rfl

theorem C11_capacity_never_exceeded_witness :
    capacity shipped = 481 ∧
    (∀ k, (register_all shipped
      ([(1, "camera", "drivers/cam.c"), (2, "ufs_qcom", "drivers/ufs.c")].take k)
      State.boot).counter < capacity shipped) ∧
    (∀ pre r post,
      [(1, "camera", "drivers/cam.c"), (2, "ufs_qcom", "drivers/ufs.c")] = pre ++ r :: post →
      (add_lazy_initcall shipped r.1 r.2.1 r.2.2 (register_all shipped pre State.boot)).1 = true →
      (register_all shipped pre State.boot).counter < capacity shipped) :=
  C11_capacity_never_exceeded [(1, "camera", "drivers/cam.c"), (2, "ufs_qcom", "drivers/ufs.c")]
    (by decide)

/-! ## Frame of a step -/

/-- C17. Only `loaded` changes after registration, and only upward: every step (a
`load_module` dispatch or a reporter tick) keeps the number of entries and, for each
index, the entry's initializer, name, file name and type; a `loaded` flag that is true
before the step is true after it. -/
theorem C17_only_loaded_changes (E : Env) (T : Tables) (s : State) (op : Op) :
    (step E T s op).lazy_initcalls.length = s.lazy_initcalls.length ∧
    ∀ (i : Nat) (c : lazy_initcall), s.lazy_initcalls[i]? = some c →
      ∃ c1 : lazy_initcall, (step E T s op).lazy_initcalls[i]? = some c1 ∧ c1.fn = c.fn ∧
        c1.modname = c.modname ∧ c1.filename = c.filename ∧ c1.type = c.type ∧
        (c.loaded = true → c1.loaded = true) := by
  have hev := step_evolves E T s op
  constructor
  · have := congrArg List.length hev.shape
    simpa using this
  · intro i c hc
    obtain ⟨c1, hc1, hs⟩ := getElem?_of_shape hev.shape.symm hc
    refine ⟨c1, hc1, ?_, ?_, ?_, ?_, ?_⟩
    · have := congrArg lazy_initcall.fn hs; simpa [shape] using this
    · have := congrArg lazy_initcall.modname hs; simpa [shape] using this
    · have := congrArg lazy_initcall.filename hs; simpa [shape] using this
    · have := congrArg lazy_initcall.type hs; simpa [shape] using this
    · intro hl
      have := hev.loaded i (by simp [loaded_at, hc, hl])
      simpa [loaded_at, hc1] using this

theorem C17_only_loaded_changes_witness :
    (step demo_env demo_tables demo_mixed (request "x")).lazy_initcalls.length =
      demo_mixed.lazy_initcalls.length ∧
    ∃ c1 : lazy_initcall,
      (step demo_env demo_tables demo_mixed (Op.tick 31000000)).lazy_initcalls[0]? = some c1 ∧
      c1.fn = 1 ∧ c1.modname = "a" ∧ c1.filename = "fa" ∧
      c1.type = lazy_initcall_type.NORMAL ∧ c1.loaded = true :=
  ⟨(C17_only_loaded_changes demo_env demo_tables demo_mixed (request "x")).1,
    by
      obtain ⟨c1, h1, h2, h3, h4, h5, h6⟩ :=
        (C17_only_loaded_changes demo_env demo_tables demo_mixed (Op.tick 31000000)).2 0
          { fn := 1, modname := "a", filename := "fa", type := lazy_initcall_type.NORMAL,
            loaded := true } (by decide)
      exact ⟨c1, h1, h2, h3, h4, h5, h6 rfl⟩⟩

/-! ## Which events a step may log -/

theorem emits_refl (A : Event → Prop) (s : State) : Emits A s s :=
  ⟨[], by simp, by simp⟩

theorem emits_trans {A : Event → Prop} {s s1 s2 : State} (h1 : Emits A s s1)
    (h2 : Emits A s1 s2) : Emits A s s2 := by
  obtain ⟨d1, ht1, hd1⟩ := h1
  obtain ⟨d2, ht2, hd2⟩ := h2
  refine ⟨d1 ++ d2, by rw [ht2, ht1, List.append_assoc], ?_⟩
  intro e he
  rcases List.mem_append.mp he with h | h
  · exact hd1 e h
  · exact hd2 e h

theorem emits_emit {A : Event → Prop} (e : Event) (s : State) (h : A e) :
    Emits A s (emit e s) :=
  ⟨[e], rfl, by simpa using h⟩

theorem emits_err {A : Event → Prop} (hlog : ∀ t, A (Event.pr_err t)) (line : List Char)
    (s : State) : Emits A s (__err line s) :=
  ⟨[Event.pr_err _], rfl, by simpa using hlog _⟩

theorem emits_foldl {A : Event → Prop} {α : Type} (f : State → α → State)
    (hf : ∀ s a, Emits A s (f s a)) (l : List α) (s : State) : Emits A s (l.foldl f s) := by
  induction l generalizing s with
  | nil => exact emits_refl A s
  | cons a as ih => exact emits_trans (hf s a) (ih (f s a))

theorem emits_integrated_module_param_cb {A : Event → Prop} (hlog : ∀ t, A (Event.pr_err t))
    (E : Env) (param : String) (val : Option String) (modname : String) (s : State) :
    Emits A s (integrated_module_param_cb E param val modname s) := by
  unfold integrated_module_param_cb
  split
  · exact emits_emit _ s (hlog _)
  · exact emits_foldl _ (fun st p => emits_err hlog _ st) _ s

theorem emits_setup_args {A : Event → Prop} (hlog : ∀ t, A (Event.pr_err t)) (E : Env)
    (modname : String) (uargs : Uargs) (s : State) :
    Emits A s (setup_args E modname uargs s) := by
  unfold setup_args
  cases uargs with
  | null => exact emits_refl A s
  | fault err => exact emits_emit _ s (hlog _)
  | str args =>
    simp only
    split
    · exact emits_foldl _ (fun st pv => emits_integrated_module_param_cb hlog E _ _ _ st) _ s
    · exact emits_refl A s

theorem emits_show_errors_str {A : Event → Prop} (hlog : ∀ t, A (Event.pr_err t)) (E : Env)
    (s : State) : Emits A s (show_errors_str E s).2 := by
  unfold show_errors_str
  split
  · exact emits_refl A s
  · split
    · exact emits_refl A s
    · refine ⟨_, rfl, ?_⟩
      intro e he
      obtain ⟨tok, _, rfl⟩ := List.mem_map.mp he
      exact hlog _

theorem not_loaded_events_log {A : Event → Prop} (hlog : ∀ t, A (Event.pr_err t)) (i : Nat)
    (l : List lazy_initcall) : ∀ e ∈ not_loaded_events i l, A e := by
  induction l generalizing i with
  | nil => simp [not_loaded_events]
  | cons c cs ih =>
    intro e he
    unfold not_loaded_events at he
    split at he
    · rcases List.mem_cons.mp he with h | h
      · subst h; exact hlog _
      · exact ih _ e h
    · exact ih _ e he

theorem emits_show_errors {A : Event → Prop} (hlog : ∀ t, A (Event.pr_err t))
    (hq : A Event.queue_work) (E : Env) (t : Nat) (s : State) :
    Emits A s (show_errors E t s) := by
  unfold show_errors
  split
  · exact emits_refl A s
  · split
    · exact emits_emit _ s hq
    · refine emits_trans (emits_trans (emits_show_errors_str hlog E s) ?_) (emits_emit _ _ hq)
      exact ⟨_, rfl, not_loaded_events_log hlog _ _⟩

theorem emits_run_initcall {A : Event → Prop} (hlog : ∀ t, A (Event.pr_err t))
    (hq : A Event.queue_work) (hc : A Event.cancel_work) (E : Env) (modname : String)
    (u : Uargs) (i fn : Nat) (hcall : A (Event.initcall i fn)) (s : State) :
    Emits A s (run_initcall E modname u i fn s) := by
  have h2 := emits_setup_args hlog E modname u s
  have h3 : Emits A s (emit (Event.initcall i fn) (setup_args E modname u s)) :=
    emits_trans h2 (emits_emit _ _ hcall)
  have key : ∀ s4 : State, Emits A s s4 →
      Emits A s (if pending s4.lazy_initcalls = true then emit Event.queue_work s4
        else { emit Event.cancel_work s4 with completed := true }) := by
    intro s4 h4
    split
    · exact emits_trans h4 (emits_emit _ _ hq)
    · obtain ⟨d, hd, hA⟩ := h4
      refine ⟨d ++ [Event.cancel_work], by simp [emit, hd], ?_⟩
      intro e he
      rcases List.mem_append.mp he with h | h
      · exact hA e h
      · simp at h; subst h; exact hc
  unfold run_initcall
  simp only
  split
  · exact key _ (emits_trans h3 (emits_err hlog _ _))
  · exact key _ h3

theorem emits_fatal {A : Event → Prop} (E : Env) (n : String) (s : State)
    (hd : E.debug = true → A (Event.pr_err (fatal_line n)))
    (hs : E.debug = false → A (Event.panic (fatal_line n))) :
    Emits A s (__fatal E n s) := by
  unfold __fatal
  by_cases h : E.debug = true
  · rw [if_pos h]; exact emits_emit _ s (hd h)
  · rw [if_neg h]
    exact ⟨[Event.panic (fatal_line n)], rfl, by simpa using hs (by simpa using h)⟩

theorem emits_load_modname {A : Event → Prop} (hlog : ∀ t, A (Event.pr_err t))
    (hq : A Event.queue_work) (hc : A Event.cancel_work) (hcall : ∀ i f, A (Event.initcall i f))
    (E : Env) (T : Tables) (n : String) (u : Uargs) (s : State)
    (hpanic : n ∉ T.blacklist → n ∉ names s.lazy_initcalls → n ∉ T.builtin_list →
      A (Event.panic (fatal_line n))) :
    Emits A s (load_modname E T n u s) := by
  rcases load_modname_cases E T n u s with h | ⟨_, hb, hf, hbi, h⟩ | ⟨i, c, _, _, _, _, _, h⟩
  · rw [h]; exact emits_refl A s
  · rw [h]
    exact emits_fatal E n s (fun _ => hlog _) (fun _ => hpanic hb (find_modname_none.mp hf) hbi)
  · rw [h]
    exact emits_run_initcall hlog hq hc E n u i c.fn (hcall i c.fn) _

theorem emits_load_deferred {A : Event → Prop} (hlog : ∀ t, A (Event.pr_err t))
    (hq : A Event.queue_work) (hc : A Event.cancel_work) (hcall : ∀ i f, A (Event.initcall i f))
    (E : Env) (T : Tables) (ds : List String) (s : State)
    (hpanic : ∀ d ∈ ds, d ∉ T.blacklist → d ∉ names s.lazy_initcalls → d ∉ T.builtin_list →
      A (Event.panic (fatal_line d))) :
    Emits A s (load_deferred E T ds s) := by
  induction ds generalizing s with
  | nil => exact emits_refl A s
  | cons a as ih =>
    have hstep : load_deferred E T (a :: as) s =
        load_deferred E T as (load_modname E T a Uargs.null s) := rfl
    rw [hstep]
    refine emits_trans (emits_load_modname hlog hq hc hcall E T a Uargs.null s
      (hpanic a (List.mem_cons_self _ _))) (ih _ ?_)
    intro d hd
    rw [names_of_shape (load_modname_evolves E T a Uargs.null s).shape]
    exact hpanic d (List.mem_cons_of_mem _ hd)

theorem emits_load_module_inner {A : Event → Prop} (hlog : ∀ t, A (Event.pr_err t))
    (hq : A Event.queue_work) (hc : A Event.cancel_work) (hcall : ∀ i f, A (Event.initcall i f))
    (E : Env) (T : Tables) (info : load_info) (u : Uargs) (s : State)
    (hpanic : info.name ∉ T.blacklist → info.name ∉ names s.lazy_initcalls →
      info.name ∉ T.builtin_list → A (Event.panic (fatal_line info.name))) :
    Emits A s (__load_module E T info u s).2 := by
  unfold __load_module
  split
  · exact emits_emit _ s (hlog _)
  · split
    · exact emits_refl A s
    · exact emits_load_modname hlog hq hc hcall E T info.name u s hpanic

/-- The whole of `load_module`, for a set of events that contains everything but
possibly the panic lines: those are allowed for the requested name and the deferred
names only when the name is unknown. -/
theorem emits_load_module {A : Event → Prop} (hlog : ∀ t, A (Event.pr_err t))
    (hq : A Event.queue_work) (hc : A Event.cancel_work) (hcall : ∀ i f, A (Event.initcall i f))
    (hw : A Event.warn) (hf : A Event.free_initmem) (hm : A Event.mark_readonly)
    (E : Env) (T : Tables) (info : load_info) (u : Uargs) (s : State)
    (hpanic : ∀ d, d = info.name ∨ d ∈ T.deferred_list → d ∉ T.blacklist →
      d ∉ names s.lazy_initcalls → d ∉ T.builtin_list → A (Event.panic (fatal_line d))) :
    Emits A s (load_module E T info u s).2 := by
  have h1 := emits_load_module_inner hlog hq hc hcall E T info u s (hpanic _ (Or.inl rfl))
  have h2 : Emits A (__load_module E T info u s).2
      (load_deferred E T T.deferred_list (__load_module E T info u s).2) := by
    apply emits_load_deferred hlog hq hc hcall
    intro d hd
    rw [names_of_shape (load_module_inner_evolves E T info u s).shape]
    exact hpanic d (Or.inr hd)
  unfold load_module
  split
  · exact emits_refl A s
  · split
    · exact emits_refl A s
    · simp only
      split
      · exact h1
      · split
        · split
          · exact emits_trans h1 h2
          · refine emits_trans (emits_trans h1 h2) ?_
            refine emits_trans ?_ (emits_trans (emits_emit _ _ hf) (emits_emit _ _ hm))
            split
            · exact emits_trans (emits_show_errors_str hlog E _) (emits_emit _ _ hw)
            · exact emits_show_errors_str hlog E _
        · exact h1

/-! ## Unknown names -/

theorem fatal_line_inj {a b : String} (h : fatal_line a = fatal_line b) : a = b := by
  unfold fatal_line at h
  have h1 := List.append_cancel_right h
  have h2 := List.append_cancel_left h1
  exact String.ext h2

/-- The effect of a dispatch of an unknown name: exactly that of `__fatal`. -/
theorem load_module_unknown (E : Env) (T : Tables) (info : load_info) (u : Uargs) (s : State)
    (hp : s.panicked = false) (hc : s.completed = false) (hv : info.valid)
    (h1 : info.name ∉ T.blacklist) (h2 : info.name ∉ names s.lazy_initcalls)
    (h3 : info.name ∉ T.builtin_list) :
    load_module E T info u s = (0, __fatal E info.name s) := by
  have hf : find_modname info.name s.lazy_initcalls = none := find_modname_none.mpr h2
  have hm : load_modname E T info.name u s = __fatal E info.name s := by
    simp [load_modname, hp, h1, hf, h3]
  unfold load_module
  rw [load_module_inner_valid E T info u s hv, hm]
  simp only [hp, hc, Bool.false_eq_true, if_false]
  by_cases hd : E.debug = true
  · have : __fatal E info.name s = emit (Event.pr_err (fatal_line info.name)) s := by
      simp [__fatal, hd]
    rw [this]
    simp [emit, hp, hc]
  · have : (__fatal E info.name s).panicked = true := by simp [__fatal, hd]
    simp [this]

/-- The effect of a dispatch of a name that is not registered but is in
`builtin_list`: nothing. -/
theorem load_module_builtin (E : Env) (T : Tables) (info : load_info) (u : Uargs) (s : State)
    (hv : info.valid) (h2 : info.name ∉ names s.lazy_initcalls)
    (h3 : info.name ∈ T.builtin_list) :
    load_module E T info u s = (0, s) := by
  by_cases hp : s.panicked = true
  · exact load_module_of_panicked E T info u s hp
  by_cases hc : s.completed = true
  · exact load_module_of_completed E T info u s hc
  have hp : s.panicked = false := by simpa using hp
  have hc : s.completed = false := by simpa using hc
  have hf : find_modname info.name s.lazy_initcalls = none := find_modname_none.mpr h2
  have hm : load_modname E T info.name u s = s := by
    by_cases hb : info.name ∈ T.blacklist
    · simp [load_modname, hb]
    · simp [load_modname, hp, hb, hf, h3]
  rw [load_module_pending E T info u s hv hp hc (by rw [hm]; exact hc), hm]

/-- C12. Classification failure is raised exactly for unknown names. For a live state
with `completed` false and a valid image: if the requested name is not in `blacklist`,
carried by no registry entry and not in `builtin_list`, the dispatch does exactly what
`__fatal` does for that name (panic in a strict build, a `pr_err` line in a debug
build); in a strict build the panic for the requested name is raised by the dispatch
if and only if the name is unknown in that sense; and a name absent from the registry
but present in `builtin_list` returns 0 and changes nothing. -/
theorem C12_fatal_iff_unknown (E : Env) (T : Tables) (info : load_info) (u : Uargs) (s : State)
    (hp : s.panicked = false) (hc : s.completed = false) (hv : info.valid) :
    ((info.name ∉ T.blacklist ∧ info.name ∉ names s.lazy_initcalls ∧
        info.name ∉ T.builtin_list) →
      load_module E T info u s = (0, __fatal E info.name s)) ∧
    (E.debug = false → ∀ delta, (load_module E T info u s).2.trace = s.trace ++ delta →
      (Event.panic (fatal_line info.name) ∈ delta ↔
        (info.name ∉ T.blacklist ∧ info.name ∉ names s.lazy_initcalls ∧
          info.name ∉ T.builtin_list))) ∧
    (info.name ∉ names s.lazy_initcalls → info.name ∈ T.builtin_list →
      load_module E T info u s = (0, s)) := by
  refine ⟨fun h => load_module_unknown E T info u s hp hc hv h.1 h.2.1 h.2.2, ?_,
    fun h2 h3 => load_module_builtin E T info u s hv h2 h3⟩
  intro hd delta hdelta
  constructor
  · intro hmem
    by_contra hknown
    have hem : Emits (fun e => e ≠ Event.panic (fatal_line info.name)) s
        (load_module E T info u s).2 := by
      apply emits_load_module (by simp) (by simp) (by simp) (by simp) (by simp) (by simp)
        (by simp)
      intro d hdn h1 h2 h3 heq
      have hdeq : d = info.name := fatal_line_inj (Event.panic.inj heq)
      subst hdeq
      exact hknown ⟨h1, h2, h3⟩
    obtain ⟨d2, ht2, hA⟩ := hem
    rw [hdelta] at ht2
    have := List.append_cancel_left ht2
    subst this
    exact hA _ hmem rfl
  · intro h
    have heq := load_module_unknown E T info u s hp hc hv h.1 h.2.1 h.2.2
    rw [heq] at hdelta
    have hfat : (__fatal E info.name s).trace = s.trace ++ [Event.panic (fatal_line info.name)] := by
      simp [__fatal, hd, emit]
    simp only at hdelta
    rw [hfat] at hdelta
    have := List.append_cancel_left hdelta
    rw [← this]
    simp

theorem C12_fatal_iff_unknown_witness :
    load_module demo_env demo_tables (valid_image "zz") Uargs.null demo_boot =
      (0, __fatal demo_env (valid_image "zz").name demo_boot) ∧
    (∀ delta, (load_module demo_env demo_tables (valid_image "zz") Uargs.null demo_boot).2.trace =
        demo_boot.trace ++ delta →
      (Event.panic (fatal_line (valid_image "zz").name) ∈ delta ↔
        ((valid_image "zz").name ∉ demo_tables.blacklist ∧
          (valid_image "zz").name ∉ names demo_boot.lazy_initcalls ∧
          (valid_image "zz").name ∉ demo_tables.builtin_list))) ∧
    load_module demo_env demo_tables (valid_image "c") Uargs.null demo_boot = (0, demo_boot) :=
  ⟨(C12_fatal_iff_unknown demo_env demo_tables (valid_image "zz") Uargs.null demo_boot
      (by decide) (by decide) (by decide)).1 (by decide),
    (C12_fatal_iff_unknown demo_env demo_tables (valid_image "zz") Uargs.null demo_boot
      (by decide) (by decide) (by decide)).2.1 (by decide),
    (C12_fatal_iff_unknown demo_env demo_tables (valid_image "c") Uargs.null demo_boot
      (by decide) (by decide) (by decide)).2.2 (by decide) (by decide)⟩

/-- C13 as stated fails: in a debug build the unknown name "zz" is dispatched on the
demo registry; nothing is appended to `errors_str`, so a later flush reports nothing. -/
theorem C13_not_recorded_counterexample :
    demo_env_debug.debug = true ∧
    "zz" ∉ names demo_boot.lazy_initcalls ∧ "zz" ∉ demo_tables.builtin_list ∧
    "zz" ∉ demo_tables.blacklist ∧ demo_boot.completed = false ∧
    (load_module demo_env_debug demo_tables (valid_image "zz") Uargs.null
      demo_boot).2.errors_str = [] ∧
    (show_errors_str demo_env_debug
      (load_module demo_env_debug demo_tables (valid_image "zz") Uargs.null demo_boot).2).1 =
      false := by
  decide

/-- C13 amended. In a debug build, for a live state with `completed` false and a valid
image whose name is in neither the registry nor `builtin_list` nor `blacklist`, the
dispatch returns 0 and its only effect is the line printed with `pr_err`: no
initializer is invoked, no `loaded` flag and not `completed` change, and `errors_str`
is left as it was (the line is not recorded for a later flush). -/
theorem C13_debug_unknown_logged (E : Env) (T : Tables) (info : load_info) (u : Uargs)
    (s : State) (hd : E.debug = true) (hp : s.panicked = false) (hc : s.completed = false)
    (hv : info.valid) (h1 : info.name ∉ T.blacklist)
    (h2 : info.name ∉ names s.lazy_initcalls) (h3 : info.name ∉ T.builtin_list) :
    load_module E T info u s = (0, emit (Event.pr_err (fatal_line info.name)) s) ∧
    (load_module E T info u s).2.errors_str = s.errors_str ∧
    (load_module E T info u s).2.lazy_initcalls = s.lazy_initcalls ∧
    (load_module E T info u s).2.completed = s.completed := by
  have h := load_module_unknown E T info u s hp hc hv h1 h2 h3
  have hf : __fatal E info.name s = emit (Event.pr_err (fatal_line info.name)) s := by
    simp [__fatal, hd]
  rw [hf] at h
  rw [h]
  exact ⟨rfl, rfl, rfl, rfl⟩

theorem C13_debug_unknown_logged_witness :
    load_module demo_env_debug demo_tables (valid_image "zz") Uargs.null demo_boot =
      (0, emit (Event.pr_err (fatal_line (valid_image "zz").name)) demo_boot) ∧
    (load_module demo_env_debug demo_tables (valid_image "zz") Uargs.null demo_boot).2.errors_str
      = demo_boot.errors_str ∧
    (load_module demo_env_debug demo_tables (valid_image "zz") Uargs.null
      demo_boot).2.lazy_initcalls = demo_boot.lazy_initcalls ∧
    (load_module demo_env_debug demo_tables (valid_image "zz") Uargs.null demo_boot).2.completed
      = demo_boot.completed :=
  C13_debug_unknown_logged demo_env_debug demo_tables (valid_image "zz") Uargs.null demo_boot
    rfl (by decide) (by decide) (by decide) (by decide) (by decide) (by decide)

/-! ## The one-way action -/

theorem no_release_emits {s s1 : State}
    (h : Emits (fun e => e ≠ Event.free_initmem ∧ e ≠ Event.mark_readonly) s s1) :
    ∃ d, s1.trace = s.trace ++ d ∧ no_release d := by
  obtain ⟨d, hd, hA⟩ := h
  exact ⟨d, hd, fun hm => (hA _ hm).1 rfl, fun hm => (hA _ hm).2 rfl⟩

theorem no_release_append {a b : List Event} (ha : no_release a) (hb : no_release b) :
    no_release (a ++ b) := by
  constructor
  · intro h
    rcases List.mem_append.mp h with h | h
    · exact ha.1 h
    · exact hb.1 h
  · intro h
    rcases List.mem_append.mp h with h | h
    · exact ha.2 h
    · exact hb.2 h

/-- A step that performs no release and changes neither `completed` nor `panicked`
keeps the invariant. -/
theorem releaseInv_plain {s s1 : State} (hi : ReleaseInv s)
    (hc : s1.completed = s.completed) (hp : s1.panicked = s.panicked)
    (h : Emits (fun e => e ≠ Event.free_initmem ∧ e ≠ Event.mark_readonly) s s1) :
    ReleaseInv s1 := by
  obtain ⟨d, hd, hnr⟩ := no_release_emits h
  rcases hi with ⟨h0, h1⟩ | ⟨h0, h1, a, b, htr, ha, hb⟩
  · left
    refine ⟨by rw [hd]; exact no_release_append h0 hnr, ?_⟩
    rw [hc, hp]; exact h1
  · right
    refine ⟨by rw [hc]; exact h0, by rw [hp]; exact h1, a, b ++ d, ?_, ha,
      no_release_append hb hnr⟩
    rw [hd, htr]; simp

theorem load_module_fired_eq (E : Env) (T : Tables) (info : load_info) (u : Uargs) (s : State)
    (hp : s.panicked = false) (hc : s.completed = false)
    (h1p : (__load_module E T info u s).2.panicked = false)
    (h1c : (__load_module E T info u s).2.completed = true)
    (h2p : (load_deferred E T T.deferred_list (__load_module E T info u s).2).panicked = false) :
    (load_module E T info u s).2 =
      emit Event.mark_readonly (emit Event.free_initmem
        (if (show_errors_str E
            (load_deferred E T T.deferred_list (__load_module E T info u s).2)).1 = true
          then emit Event.warn (show_errors_str E
            (load_deferred E T T.deferred_list (__load_module E T info u s).2)).2
          else (show_errors_str E
            (load_deferred E T T.deferred_list (__load_module E T info u s).2)).2)) := by
  unfold load_module
  simp only [hp, hc, h1p, h1c, h2p, if_true, if_false, Bool.false_eq_true]

theorem releaseInv_load_module (E : Env) (T : Tables) (info : load_info) (u : Uargs)
    (s : State) (hi : ReleaseInv s) : ReleaseInv (load_module E T info u s).2 := by
  by_cases hp : s.panicked = true
  · rw [load_module_of_panicked E T info u s hp]; exact hi
  by_cases hc : s.completed = true
  · rw [load_module_of_completed E T info u s hc]; exact hi
  have hp : s.panicked = false := by simpa using hp
  have hc : s.completed = false := by simpa using hc
  -- the action has not been performed yet
  have h0 : no_release s.trace := by
    rcases hi with ⟨h0, _⟩ | ⟨h1, _⟩
    · exact h0
    · rw [hc] at h1; cases h1
  have hA : ∀ t, (fun e => e ≠ Event.free_initmem ∧ e ≠ Event.mark_readonly) (Event.pr_err t) :=
    fun t => ⟨by simp, by simp⟩
  have hem1 : Emits (fun e => e ≠ Event.free_initmem ∧ e ≠ Event.mark_readonly) s
      (__load_module E T info u s).2 :=
    emits_load_module_inner hA ⟨by simp, by simp⟩ ⟨by simp, by simp⟩
      (fun _ _ => ⟨by simp, by simp⟩) E T info u s (fun _ _ _ => ⟨by simp, by simp⟩)
  obtain ⟨d1, hd1, hn1⟩ := no_release_emits hem1
  have hnr1 : no_release (__load_module E T info u s).2.trace := by
    rw [hd1]; exact no_release_append h0 hn1
  by_cases h1p : (__load_module E T info u s).2.panicked = true
  · have : (load_module E T info u s).2 = (__load_module E T info u s).2 := by
      simp [load_module, hp, hc, h1p]
    rw [this]
    exact Or.inl ⟨hnr1, fun h => by rw [h1p] at h; cases h⟩
  have h1p : (__load_module E T info u s).2.panicked = false := by simpa using h1p
  by_cases h1c : (__load_module E T info u s).2.completed = true
  · have hem2 : Emits (fun e => e ≠ Event.free_initmem ∧ e ≠ Event.mark_readonly)
        (__load_module E T info u s).2
        (load_deferred E T T.deferred_list (__load_module E T info u s).2) :=
      emits_load_deferred hA ⟨by simp, by simp⟩ ⟨by simp, by simp⟩
        (fun _ _ => ⟨by simp, by simp⟩) E T _ _ (fun _ _ _ _ _ => ⟨by simp, by simp⟩)
    obtain ⟨d2, hd2, hn2⟩ := no_release_emits hem2
    have hnr2 : no_release
        (load_deferred E T T.deferred_list (__load_module E T info u s).2).trace := by
      rw [hd2]; exact no_release_append hnr1 hn2
    by_cases h2p : (load_deferred E T T.deferred_list
        (__load_module E T info u s).2).panicked = true
    · have : (load_module E T info u s).2 =
          load_deferred E T T.deferred_list (__load_module E T info u s).2 := by
        simp [load_module, hp, hc, h1p, h1c, h2p]
      rw [this]
      exact Or.inl ⟨hnr2, fun h => by rw [h2p] at h; cases h⟩
    have h2p : (load_deferred E T T.deferred_list
        (__load_module E T info u s).2).panicked = false := by simpa using h2p
    right
    have hq := load_module_fired E T info u s hp hc h1p h1c h2p
    have hev := load_deferred_evolves E T T.deferred_list (__load_module E T info u s).2
    refine ⟨by rw [hq.completed]; exact hev.completed h1c, by rw [hq.panicked]; exact h2p, ?_⟩
    -- the flush and the warning come before the release
    have hem3 : Emits (fun e => e ≠ Event.free_initmem ∧ e ≠ Event.mark_readonly)
        (load_deferred E T T.deferred_list (__load_module E T info u s).2)
        (if (show_errors_str E
            (load_deferred E T T.deferred_list (__load_module E T info u s).2)).1 = true
          then emit Event.warn (show_errors_str E
            (load_deferred E T T.deferred_list (__load_module E T info u s).2)).2
          else (show_errors_str E
            (load_deferred E T T.deferred_list (__load_module E T info u s).2)).2) := by
      split
      · exact emits_trans (emits_show_errors_str hA E _) (emits_emit _ _ ⟨by simp, by simp⟩)
      · exact emits_show_errors_str hA E _
    obtain ⟨d3, hd3, hn3⟩ := no_release_emits hem3
    refine ⟨(load_deferred E T T.deferred_list (__load_module E T info u s).2).trace ++ d3, [],
      ?_, no_release_append hnr2 hn3, ⟨by simp, by simp⟩⟩
    have hemit : ∀ x : State, (emit Event.mark_readonly (emit Event.free_initmem x)).trace =
        x.trace ++ [Event.free_initmem, Event.mark_readonly] := by
      intro x; simp [emit]
    rw [load_module_fired_eq E T info u s hp hc h1p h1c h2p, hemit, hd3]
  · have : (load_module E T info u s).2 = (__load_module E T info u s).2 := by
      simp [load_module, hp, hc, h1p, h1c]
    rw [this]
    exact Or.inl ⟨hnr1, fun _ => by simpa using h1c⟩

theorem releaseInv_run (E : Env) (T : Tables) (ops : List Op) (s : State)
    (hi : ReleaseInv s) : ReleaseInv (run E T ops s) := by
  induction ops generalizing s with
  | nil => exact hi
  | cons op ops ih =>
    rw [run_cons]
    apply ih
    cases op with
    | load info u => exact releaseInv_load_module E T info u s hi
    | tick t =>
      have hq := quiet_show_errors E t s
      exact releaseInv_plain hi hq.completed hq.panicked
        (emits_show_errors (fun _ => ⟨by simp, by simp⟩) ⟨by simp, by simp⟩ E t s)

theorem count_of_no_release {tr : List Event} (h : no_release tr) :
    tr.count Event.free_initmem = 0 ∧ tr.count Event.mark_readonly = 0 :=
  ⟨List.count_eq_zero.mpr h.1, List.count_eq_zero.mpr h.2⟩

/-- C14. The one-way action is performed exactly once. After every sequence of steps
from a boot scan, `free_initmem` and `mark_readonly` have each been performed at most
once; when the machine is live (the last dispatch returned), they have been performed
zero times if `completed` is false, and exactly once, `free_initmem` immediately
followed by `mark_readonly`, if `completed` is true. -/
theorem C14_release_exactly_once (E : Env) (T : Tables) (regs : List (Nat × String × String))
    (ops : List Op) :
    ((run E T ops (register_all T regs State.boot)).trace.count Event.free_initmem ≤ 1 ∧
      (run E T ops (register_all T regs State.boot)).trace.count Event.mark_readonly ≤ 1) ∧
    ((run E T ops (register_all T regs State.boot)).panicked = false →
      (run E T ops (register_all T regs State.boot)).completed = false →
      (run E T ops (register_all T regs State.boot)).trace.count Event.free_initmem = 0 ∧
      (run E T ops (register_all T regs State.boot)).trace.count Event.mark_readonly = 0) ∧
    ((run E T ops (register_all T regs State.boot)).panicked = false →
      (run E T ops (register_all T regs State.boot)).completed = true →
      (run E T ops (register_all T regs State.boot)).trace.count Event.free_initmem = 1 ∧
      (run E T ops (register_all T regs State.boot)).trace.count Event.mark_readonly = 1 ∧
      ∃ a b, (run E T ops (register_all T regs State.boot)).trace =
        a ++ Event.free_initmem :: Event.mark_readonly :: b) := by
  have hboot : ReleaseInv (register_all T regs State.boot) := by
    left
    rw [(boot_fields T regs).2.2.2]
    exact ⟨⟨by simp, by simp⟩, fun _ => (boot_fields T regs).1⟩
  have hi := releaseInv_run E T ops _ hboot
  generalize run E T ops (register_all T regs State.boot) = s at hi
  rcases hi with ⟨h0, h1⟩ | ⟨h0, h1, a, b, htr, ha, hb⟩
  · obtain ⟨c1, c2⟩ := count_of_no_release h0
    refine ⟨⟨by omega, by omega⟩, fun _ _ => ⟨c1, c2⟩, fun hp hc => ?_⟩
    rw [h1 hp] at hc; cases hc
  · obtain ⟨a1, a2⟩ := count_of_no_release ha
    obtain ⟨b1, b2⟩ := count_of_no_release hb
    have hf : s.trace.count Event.free_initmem = 1 := by
      rw [htr, List.count_append, a1]
      simp [List.count_cons, b1]
    have hm : s.trace.count Event.mark_readonly = 1 := by
      rw [htr, List.count_append, a2]
      simp [List.count_cons, b2]
    refine ⟨⟨by omega, by omega⟩, fun _ hc => ?_, fun _ _ => ⟨hf, hm, a, b, htr⟩⟩
    rw [h0] at hc; cases hc

theorem C14_release_exactly_once_witness :
    (run demo_env demo_tables [request "a", request "b", request "a"]
      (register_all demo_tables demo_regs State.boot)).trace.count Event.free_initmem = 1 ∧
    (run demo_env demo_tables [request "a", request "b", request "a"]
      (register_all demo_tables demo_regs State.boot)).trace.count Event.mark_readonly = 1 ∧
    ∃ a b, (run demo_env demo_tables [request "a", request "b", request "a"]
      (register_all demo_tables demo_regs State.boot)).trace =
        a ++ Event.free_initmem :: Event.mark_readonly :: b :=
  (C14_release_exactly_once demo_env demo_tables demo_regs
    [request "a", request "b", request "a"]).2.2 (by decide) (by decide)

/-! ## When the barrier scan runs -/

theorem pending_false_iff (l : List lazy_initcall) :
    pending l = false ↔
      ∀ c ∈ l, c.type = lazy_initcall_type.NORMAL → c.loaded = true := by
  unfold pending
  rw [List.any_eq_false]
  constructor
  · intro h c hc ht
    have := h c hc
    simpa [ht] using this
  · intro h c hc
    by_cases ht : c.type = lazy_initcall_type.NORMAL
    · simp [ht, h c hc ht]
    · simp [ht]

theorem load_module_blacklisted (E : Env) (T : Tables) (info : load_info) (u : Uargs)
    (s : State) (hv : info.valid) (hb : info.name ∈ T.blacklist) :
    load_module E T info u s = (0, s) := by
  by_cases hp : s.panicked = true
  · exact load_module_of_panicked E T info u s hp
  by_cases hc : s.completed = true
  · exact load_module_of_completed E T info u s hc
  have hp : s.panicked = false := by simpa using hp
  have hc : s.completed = false := by simpa using hc
  have hm : load_modname E T info.name u s = s := by simp [load_modname, hb]
  rw [load_module_pending E T info u s hv hp hc (by rw [hm]; exact hc), hm]

theorem load_module_already_loaded (E : Env) (T : Tables) (info : load_info) (u : Uargs)
    (s : State) (hv : info.valid) {i : Nat} {c : lazy_initcall}
    (hf : find_modname info.name s.lazy_initcalls = some i)
    (hg : s.lazy_initcalls[i]? = some c) (hl : c.loaded = true) :
    load_module E T info u s = (0, s) := by
  by_cases hp : s.panicked = true
  · exact load_module_of_panicked E T info u s hp
  by_cases hc : s.completed = true
  · exact load_module_of_completed E T info u s hc
  have hp : s.panicked = false := by simpa using hp
  have hc : s.completed = false := by simpa using hc
  have hm := load_modname_loaded E T info.name u s hf hg hl
  rw [load_module_pending E T info u s hv hp hc (by rw [hm]; exact hc), hm]

/-- C16 as stated fails: the registry holds only the DEFERRED entry "d" and the name
"c", known only from `builtin_list`, is dispatched; `load_modname` returns before the
barrier scan, so `completed` stays false although no NORMAL entry is unloaded. -/
theorem C16_early_return_counterexample :
    demo_deferred_only.completed = false ∧
    (load_module demo_env demo_tables (valid_image "c") Uargs.null
      demo_deferred_only).2.completed = false ∧
    (∀ c ∈ (load_module demo_env demo_tables (valid_image "c") Uargs.null
        demo_deferred_only).2.lazy_initcalls,
      c.type = lazy_initcall_type.NORMAL → c.loaded = true) ∧
    ¬ ((load_module demo_env demo_tables (valid_image "c") Uargs.null
        demo_deferred_only).2.completed = true ↔
      ∀ c ∈ (load_module demo_env demo_tables (valid_image "c") Uargs.null
          demo_deferred_only).2.lazy_initcalls,
        c.type = lazy_initcall_type.NORMAL → c.loaded = true) := by
  decide

/-- C16 amended. For a dispatch with a valid image that starts live with `completed`
false: `completed` afterwards implies that every NORMAL entry is loaded; if the
requested name is first carried by an entry that has not run (and is not blacklisted),
so that `load_modname` reaches its barrier scan, `completed` afterwards is true if and
only if every NORMAL entry is loaded; and a dispatch of a blacklisted name, of a name
whose entry has already run, or of a name known only from `builtin_list` returns
before the scan and changes nothing, `completed` included. -/
theorem C16_barrier_after_invocation (E : Env) (T : Tables) (info : load_info) (u : Uargs)
    (s : State) (hp : s.panicked = false) (hc : s.completed = false) (hv : info.valid) :
    ((load_module E T info u s).2.completed = true →
      ∀ c ∈ (load_module E T info u s).2.lazy_initcalls,
        c.type = lazy_initcall_type.NORMAL → c.loaded = true) ∧
    (∀ (i : Nat) (c : lazy_initcall), info.name ∉ T.blacklist →
      find_modname info.name s.lazy_initcalls = some i → s.lazy_initcalls[i]? = some c →
      c.loaded = false →
      ((load_module E T info u s).2.completed = true ↔
        ∀ c ∈ (load_module E T info u s).2.lazy_initcalls,
          c.type = lazy_initcall_type.NORMAL → c.loaded = true)) ∧
    ((info.name ∈ T.blacklist ∨
        (∃ (i : Nat) (c : lazy_initcall), find_modname info.name s.lazy_initcalls = some i ∧
          s.lazy_initcalls[i]? = some c ∧ c.loaded = true) ∨
        (info.name ∉ names s.lazy_initcalls ∧ info.name ∈ T.builtin_list)) →
      load_module E T info u s = (0, s)) := by
  have hbar : BarInv (load_module E T info u s).2 :=
    load_module_preserves E T BarInv barInv_quiet (barInv_load_modname E T) info u s
      (fun h => by rw [hc] at h; cases h)
  have h1 : (load_module E T info u s).2.completed = true →
      ∀ c ∈ (load_module E T info u s).2.lazy_initcalls,
        c.type = lazy_initcall_type.NORMAL → c.loaded = true :=
    fun h => (pending_false_iff _).mp (hbar h)
  refine ⟨h1, ?_, ?_⟩
  · intro i c hb hf hg hl
    refine ⟨h1, fun hall => ?_⟩
    have hfresh := load_modname_fresh E T info.name u s hp hb hf hg hl
    have hinv := invoked_run_initcall E info.name u i c.fn
      { s with lazy_initcalls := set_loaded i s.lazy_initcalls }
    by_cases h1c : (load_modname E T info.name u s).completed = true
    · have hev := load_module_after_inner E T info u s hp hc
      rw [load_module_inner_valid E T info u s hv] at hev
      exact hev.completed h1c
    · have h1c : (load_modname E T info.name u s).completed = false := by simpa using h1c
      have heq := load_module_pending E T info u s hv hp hc h1c
      rw [heq] at hall
      have hnp := (pending_false_iff _).mpr hall
      simp only at hnp
      rw [hfresh, hinv.completed] at h1c
      rw [hfresh, hinv.reg] at hnp
      rw [hnp] at h1c
      simp at h1c
  · rintro (hb | ⟨i, c, hf, hg, hl⟩ | ⟨h2, h3⟩)
    · exact load_module_blacklisted E T info u s hv hb
    · exact load_module_already_loaded E T info u s hv hf hg hl
    · exact load_module_builtin E T info u s hv h2 h3

theorem C16_barrier_after_invocation_witness :
    ((load_module demo_env demo_tables (valid_image "d") Uargs.null
        demo_deferred_only).2.completed = true ↔
      ∀ c ∈ (load_module demo_env demo_tables (valid_image "d") Uargs.null
          demo_deferred_only).2.lazy_initcalls,
        c.type = lazy_initcall_type.NORMAL → c.loaded = true) ∧
    load_module demo_env demo_tables (valid_image "c") Uargs.null demo_deferred_only =
      (0, demo_deferred_only) :=
  ⟨(C16_barrier_after_invocation demo_env demo_tables (valid_image "d") Uargs.null
      demo_deferred_only (by decide) (by decide) (by decide)).2.1 0
      { fn := 3, modname := "d", filename := "fd", type := lazy_initcall_type.DEFERRED,
        loaded := false } (by decide) (by decide) (by decide) rfl,
    (C16_barrier_after_invocation demo_env demo_tables (valid_image "c") Uargs.null
      demo_deferred_only (by decide) (by decide) (by decide)).2.2
      (Or.inr (Or.inr (by decide)))⟩

/-! ## The order of the barrier's dispatches -/

theorem called_names_append (l : List lazy_initcall) (a b : List Event) :
    called_names l (a ++ b) = called_names l a ++ called_names l b := by
  simp [called_names, List.filterMap_append]

theorem called_names_quiet (l : List lazy_initcall) (d : List Event)
    (h : ∀ e ∈ d, Event.is_call e = false) : called_names l d = [] := by
  unfold called_names
  rw [List.filterMap_eq_nil_iff]
  intro e he
  have := h e he
  cases e <;> simp_all [Event.is_call]

theorem called_names_of_shape {l l1 : List lazy_initcall} (h : l1.map shape = l.map shape)
    (tr : List Event) : called_names l1 tr = called_names l tr := by
  unfold called_names
  congr 1
  funext e
  cases e with
  | initcall i f =>
    have h2 := congrArg (fun x : List lazy_initcall => (x[i]?).map (fun c => c.modname)) h
    simpa [List.getElem?_map, Option.map_map, Function.comp_def, shape] using h2
  | _ => rfl

theorem load_modname_called (E : Env) (T : Tables) (n : String) (u : Uargs) (s : State) :
    ∃ d, (load_modname E T n u s).trace = s.trace ++ d ∧
      (called_names s.lazy_initcalls d = [] ∨ called_names s.lazy_initcalls d = [n]) := by
  rcases load_modname_cases E T n u s with h | ⟨_, _, _, _, h⟩ | ⟨i, c, _, _, hf, hg, hl, h⟩
  · exact ⟨[], by rw [h]; simp, Or.inl rfl⟩
  · obtain ⟨_, _, _, _, e, h5, he⟩ := fatal_fields E n s
    refine ⟨[e], by rw [h, h5], Or.inl ?_⟩
    exact called_names_quiet _ _ (by simpa using he)
  · obtain ⟨d1, d2, ht, hd1, hd2, _⟩ := (invoked_run_initcall E n u i c.fn
      { s with lazy_initcalls := set_loaded i s.lazy_initcalls }).trace
    refine ⟨d1 ++ Event.initcall i c.fn :: d2, by rw [h, ht]; simp, Or.inr ?_⟩
    obtain ⟨c0, hc0, hn0, _⟩ := find_modname_some hf
    rw [called_names_append, called_names_quiet _ d1 hd1]
    have : called_names s.lazy_initcalls (Event.initcall i c.fn :: d2) =
        c0.modname :: called_names s.lazy_initcalls d2 := by
      simp [called_names, hc0]
    rw [this, called_names_quiet _ d2 hd2, hn0]
    rfl

theorem load_deferred_called (E : Env) (T : Tables) (ds : List String) (s : State) :
    ∃ d, (load_deferred E T ds s).trace = s.trace ++ d ∧
      (called_names s.lazy_initcalls d).Sublist ds := by
  induction ds generalizing s with
  | nil => exact ⟨[], by simp [load_deferred], by simp [called_names]⟩
  | cons a as ih =>
    have hstep : load_deferred E T (a :: as) s =
        load_deferred E T as (load_modname E T a Uargs.null s) := rfl
    obtain ⟨d1, ht1, hc1⟩ := load_modname_called E T a Uargs.null s
    obtain ⟨d2, ht2, hc2⟩ := ih (load_modname E T a Uargs.null s)
    rw [called_names_of_shape (load_modname_evolves E T a Uargs.null s).shape] at hc2
    refine ⟨d1 ++ d2, by rw [hstep, ht2, ht1, List.append_assoc], ?_⟩
    rw [called_names_append]
    rcases hc1 with h | h
    · rw [h]; exact List.Sublist.cons a hc2
    · rw [h]; exact List.Sublist.cons₂ a hc2

set_option maxRecDepth 100000 in
/-- C15 as stated fails, with the shipped tables: `ufs_qcom` registers first (index 0),
`ufshcd_crypto_qti` second (index 1); when the request for "camera" fires the barrier,
the DEFERRED entry at index 1 is invoked before the one at index 0. -/
theorem C15_registration_order_counterexample :
    deferred_call_indices
      (run demo_env_ok shipped [request "camera"]
        (register_all shipped shipped_demo_regs State.boot)).lazy_initcalls
      (run demo_env_ok shipped [request "camera"]
        (register_all shipped shipped_demo_regs State.boot)).trace = [1, 0] ∧
    ¬ (deferred_call_indices
      (run demo_env_ok shipped [request "camera"]
        (register_all shipped shipped_demo_regs State.boot)).lazy_initcalls
      (run demo_env_ok shipped [request "camera"]
        (register_all shipped shipped_demo_regs State.boot)).trace).Pairwise (· < ·) := by
  decide

/-- C15 amended. The barrier dispatches the names of `deferred_list` in the order of
that table, whatever the registration order: in every dispatch (valid image, live state,
`completed` false) the entries invoked after `load_modname` has returned, that is by
the barrier, are invoked in the order in which their names stand in `deferred_list`. -/
theorem C15_deferred_in_table_order (E : Env) (T : Tables) (info : load_info) (u : Uargs)
    (s : State) (hp : s.panicked = false) (hc : s.completed = false) (hv : info.valid) :
    ∃ delta, (load_module E T info u s).2.trace =
        (load_modname E T info.name u s).trace ++ delta ∧
      (called_names s.lazy_initcalls delta).Sublist T.deferred_list := by
  have hinner := load_module_inner_valid E T info u s hv
  have hev1 := load_modname_evolves E T info.name u s
  by_cases h1p : (load_modname E T info.name u s).panicked = true
  · refine ⟨[], ?_, by simp [called_names]⟩
    simp [load_module, hp, hc, hinner, h1p]
  have h1p : (load_modname E T info.name u s).panicked = false := by simpa using h1p
  by_cases h1c : (load_modname E T info.name u s).completed = true
  · obtain ⟨d2, ht2, hc2⟩ := load_deferred_called E T T.deferred_list
      (load_modname E T info.name u s)
    rw [called_names_of_shape hev1.shape] at hc2
    by_cases h2p : (load_deferred E T T.deferred_list
        (load_modname E T info.name u s)).panicked = true
    · refine ⟨d2, ?_, hc2⟩
      rw [← ht2]
      simp [load_module, hp, hc, hinner, h1p, h1c, h2p]
    · have h2p : (load_deferred E T T.deferred_list
          (load_modname E T info.name u s)).panicked = false := by simpa using h2p
      have hq := load_module_fired E T info u s hp hc (by rw [hinner]; exact h1p)
        (by rw [hinner]; exact h1c) (by rw [hinner]; exact h2p)
      rw [hinner] at hq
      obtain ⟨d3, ht3, hd3⟩ := hq.trace
      refine ⟨d2 ++ d3, by rw [ht3, ht2, List.append_assoc], ?_⟩
      rw [called_names_append, called_names_quiet _ d3 hd3, List.append_nil]
      exact hc2
  · have h1c : (load_modname E T info.name u s).completed = false := by simpa using h1c
    refine ⟨[], ?_, by simp [called_names]⟩
    rw [load_module_pending E T info u s hv hp hc h1c]
    simp

theorem C15_deferred_in_table_order_witness :
    ∃ delta, (load_module demo_env demo_tables (valid_image "a") Uargs.null
        (run demo_env demo_tables [request "b"] demo_boot)).2.trace =
        (load_modname demo_env demo_tables (valid_image "a").name Uargs.null
          (run demo_env demo_tables [request "b"] demo_boot)).trace ++ delta ∧
      (called_names (run demo_env demo_tables [request "b"] demo_boot).lazy_initcalls
        delta).Sublist demo_tables.deferred_list :=
  C15_deferred_in_table_order demo_env demo_tables (valid_image "a") Uargs.null
    (run demo_env demo_tables [request "b"] demo_boot) (by decide) (by decide) (by decide)

/-! ## Bounded stores -/

theorem c_str_append_nul (b rest : List Char) (hb : NUL ∉ b) :
    c_str (b ++ NUL :: rest) = b := by
  unfold c_str
  induction b with
  | nil => simp [List.takeWhile]
  | cons x xs ih =>
    have hx : x ≠ NUL := fun h => hb (by rw [h]; exact List.mem_cons_self _ _)
    have hxs : NUL ∉ xs := fun h => hb (List.mem_cons_of_mem _ h)
    simp only [List.cons_append, List.takeWhile_cons, hx, ne_eq, not_false_eq_true,
      decide_True, if_true]
    rw [ih hxs]

theorem mem_write_frontier (pre tail data : List Char) (h : data.length ≤ tail.length) :
    mem_write (pre ++ tail) pre.length data = some (pre ++ data ++ tail.drop data.length) := by
  unfold mem_write
  have hle : pre.length + data.length ≤ (pre ++ tail).length := by
    rw [List.length_append]; omega
  rw [if_pos hle]
  congr 2
  · simp
  · rw [List.drop_append_eq_append_drop]
    have : pre.length + data.length - pre.length = data.length := by omega
    rw [this, List.drop_of_length_le (by omega)]
    simp

theorem mem_write_length {mem : List Char} {off : Nat} {data buf : List Char}
    (h : mem_write mem off data = some buf) : buf.length = mem.length := by
  unfold mem_write at h
  split at h
  · rename_i hle
    cases h
    simp only [List.length_append, List.length_take, List.length_drop]
    omega
  · cases h

theorem take_append_cap (b line : List Char) (n : Nat) (hb : b.length ≤ n) :
    b ++ line.take (n - b.length) = (b ++ line).take (min (b.length + line.length) n) := by
  rw [List.take_append_eq_append_take]
  have h1 : List.take (min (b.length + line.length) n) b = b := by
    apply List.take_of_length_le
    omega
  rw [h1]
  congr 1
  by_cases hl : b.length + line.length ≤ n
  · rw [Nat.min_eq_left hl]
    rw [List.take_of_length_le (by omega), List.take_of_length_le (by omega)]
  · rw [Nat.min_eq_right (by omega)]

/-- C18. `__err` is a bounded append. Let the 16384-byte memory of `errors_str` hold
the NUL-terminated content `b` (so `b` has at most 16383 bytes) and let `line` be the
formatted text (a C string, without NUL). Then the stores of `__err` all fall inside
the array (the result exists and has the same 16384 bytes), the new content is exactly
the first `min (|b| + |line|) 16383` bytes of `b ++ line` followed by a NUL, `b` is a
prefix of it, the bytes after the new terminator are untouched, and this content is
what the state-level `__err` records, which raises no error: an over-long line is
cut silently. -/
theorem C18_err_bounded_append (mem b rest line : List Char) (s : State)
    (hmem : mem = b ++ NUL :: rest) (hlen : mem.length = ERRORS_STR_SIZE)
    (hb : NUL ∉ b) (hline : NUL ∉ line) (hs : s.errors_str = b) :
    b.length ≤ 16383 ∧
    ∃ buf, __err_mem mem line = some buf ∧ buf.length = ERRORS_STR_SIZE ∧
      c_str buf = (b ++ line).take (min (b.length + line.length) 16383) ∧
      buf = c_str buf ++ NUL :: mem.drop ((c_str buf).length + 1) ∧
      b <+: c_str buf ∧ (c_str buf).length ≤ 16383 ∧
      (__err line s).errors_str = c_str buf ∧
      (__err line s).panicked = s.panicked ∧
      (__err line s).lazy_initcalls = s.lazy_initcalls ∧
      (__err line s).completed = s.completed := by
  have hcs : c_str mem = b := by rw [hmem]; exact c_str_append_nul b rest hb
  have hblen : b.length + (rest.length + 1) = 16384 := by
    have := hlen
    rw [hmem] at this
    simpa [ERRORS_STR_SIZE] using this
  have hb16 : b.length ≤ 16383 := by omega
  refine ⟨hb16, ?_⟩
  have hsize : ERRORS_STR_SIZE - b.length ≠ 0 := by simp only [ERRORS_STR_SIZE]; omega
  have hfree : ERRORS_STR_SIZE - b.length - 1 = 16383 - b.length := by
    simp only [ERRORS_STR_SIZE]; omega
  -- what `snprintf` stores
  obtain ⟨stored, hst⟩ : ∃ st, st = line.take (16383 - b.length) := ⟨_, rfl⟩
  have hstl : stored.length ≤ 16383 - b.length := by
    rw [hst, List.length_take]; omega
  have hstored : NUL ∉ stored := fun h => hline (List.mem_of_mem_take (by rw [hst] at h; exact h))
  have hdata : (stored ++ [NUL]).length ≤ (NUL :: rest).length := by
    simp only [List.length_append, List.length_cons, List.length_nil]
    omega
  have hw := mem_write_frontier b (NUL :: rest) (stored ++ [NUL]) hdata
  have hres : __err_mem mem line =
      some (b ++ (stored ++ [NUL]) ++ (NUL :: rest).drop (stored ++ [NUL]).length) := by
    unfold __err_mem snprintf_mem
    rw [hcs, if_neg hsize, hfree, ← hst, hmem]
    exact hw
  have hbuf : b ++ (stored ++ [NUL]) ++ (NUL :: rest).drop (stored ++ [NUL]).length =
      (b ++ stored) ++ NUL :: (NUL :: rest).drop (stored ++ [NUL]).length := by
    simp
  have hnew : NUL ∉ b ++ stored := by
    intro h
    rcases List.mem_append.mp h with h | h
    · exact hb h
    · exact hstored h
  have hcs2 : c_str (b ++ (stored ++ [NUL]) ++ (NUL :: rest).drop (stored ++ [NUL]).length) =
      b ++ stored := by
    rw [hbuf]; exact c_str_append_nul _ _ hnew
  have hcap : b ++ stored = (b ++ line).take (min (b.length + line.length) 16383) := by
    rw [hst]; exact take_append_cap b line 16383 hb16
  refine ⟨_, hres, ?_, ?_, ?_, ?_, ?_, ?_, rfl, rfl, rfl⟩
  · rw [mem_write_length hw, ← hmem, hlen]
  · rw [hcs2]; exact hcap
  · rw [hcs2, hbuf, hmem]
    have hl : (b ++ stored).length + 1 = b.length + (stored ++ [NUL]).length := by
      simp only [List.length_append, List.length_cons, List.length_nil]; omega
    rw [hl, List.drop_append]
  · rw [hcs2]; exact List.prefix_append _ _
  · rw [hcs2, List.length_append]
    omega
  · rw [hcs2]
    simp only [__err, hs, hfree, hst]

theorem C18_err_bounded_append_witness :
    ['a', 'b'].length ≤ 16383 ∧
    ∃ buf, __err_mem demo_buffer_mem ['c', '\n'] = some buf ∧ buf.length = ERRORS_STR_SIZE ∧
      c_str buf = (['a', 'b'] ++ ['c', '\n']).take
        (min (['a', 'b'].length + ['c', '\n'].length) 16383) ∧
      buf = c_str buf ++ NUL :: demo_buffer_mem.drop ((c_str buf).length + 1) ∧
      ['a', 'b'] <+: c_str buf ∧ (c_str buf).length ≤ 16383 ∧
      (__err ['c', '\n'] demo_buffer_state).errors_str = c_str buf ∧
      (__err ['c', '\n'] demo_buffer_state).panicked = demo_buffer_state.panicked ∧
      (__err ['c', '\n'] demo_buffer_state).lazy_initcalls = demo_buffer_state.lazy_initcalls ∧
      (__err ['c', '\n'] demo_buffer_state).completed = demo_buffer_state.completed :=
  C18_err_bounded_append demo_buffer_mem ['a', 'b'] (List.replicate 16381 'x') ['c', '\n']
    demo_buffer_state rfl
    (by simp only [demo_buffer_mem, ERRORS_STR_SIZE, List.length_append, List.length_cons,
      List.length_nil, List.length_replicate])
    (by decide) (by decide) rfl

/-! ## The namespaced parameter -/

theorem mem_write_at (pre tail data : List Char) (off : Nat) (hoff : off = pre.length)
    (h : data.length ≤ tail.length) :
    mem_write (pre ++ tail) off data = some ((pre ++ data) ++ tail.drop data.length) := by
  subst hoff
  exact mem_write_frontier pre tail data h

/-- The stores for `modname.param`: all inside a block of `nlen + plen + 2` bytes. -/
theorem write_chain_short (mem m p : List Char) (hsz : mem.length = m.length + p.length + 2) :
    ((mem_write mem 0 m).bind fun m1 =>
      (mem_write m1 m.length ['.']).bind fun m2 =>
      (mem_write m2 (m.length + 1) p).bind fun m3 =>
      mem_write m3 (m.length + 1 + p.length) [NUL]) = some (m ++ ['.'] ++ p ++ [NUL]) := by
  have h1 : mem_write mem 0 m = some (([] ++ m) ++ mem.drop m.length) :=
    mem_write_at [] mem m 0 rfl (by omega)
  have h2 := mem_write_at ([] ++ m) (mem.drop m.length) ['.'] m.length (by simp only [List.length_append, List.length_nil, List.length_singleton]; omega)
    (by simp only [List.length_drop, List.length_singleton]; omega)
  have h3 := mem_write_at (([] ++ m) ++ ['.']) ((mem.drop m.length).drop ['.'].length) p
    (m.length + 1) (by simp only [List.length_append, List.length_nil, List.length_singleton]; omega)
    (by simp only [List.length_drop, List.length_singleton]; omega)
  have h4 := mem_write_at ((([] ++ m) ++ ['.']) ++ p)
    (((mem.drop m.length).drop ['.'].length).drop p.length) [NUL]
    (m.length + 1 + p.length) (by simp only [List.length_append, List.length_nil, List.length_singleton]; omega)
    (by simp only [List.length_drop, List.length_singleton]; omega)
  have hend : (((mem.drop m.length).drop ['.'].length).drop p.length).drop [NUL].length = [] := by
    apply List.eq_nil_of_length_eq_zero
    simp only [List.length_drop, List.length_singleton]; omega
  simp only [h1, Option.some_bind, h2, h3, h4, hend]
  simp

/-- The stores for `modname.param=val`: all inside a block of `nlen + plen + vlen + 3`
bytes. -/
theorem write_chain_long (mem m p v : List Char)
    (hsz : mem.length = m.length + p.length + v.length + 3) :
    ((mem_write mem 0 m).bind fun m1 =>
      (mem_write m1 m.length ['.']).bind fun m2 =>
      (mem_write m2 (m.length + 1) p).bind fun m3 =>
      (mem_write m3 (m.length + 1 + p.length) ['=']).bind fun m4 =>
      (mem_write m4 (m.length + 1 + p.length + 1) v).bind fun m5 =>
      mem_write m5 (m.length + 1 + p.length + 1 + v.length) [NUL]) =
      some (m ++ ['.'] ++ p ++ ['='] ++ v ++ [NUL]) := by
  have h1 : mem_write mem 0 m = some (([] ++ m) ++ mem.drop m.length) :=
    mem_write_at [] mem m 0 rfl (by omega)
  have h2 := mem_write_at ([] ++ m) (mem.drop m.length) ['.'] m.length (by simp only [List.length_append, List.length_nil, List.length_singleton]; omega)
    (by simp only [List.length_drop, List.length_singleton]; omega)
  have h3 := mem_write_at (([] ++ m) ++ ['.']) ((mem.drop m.length).drop ['.'].length) p
    (m.length + 1) (by simp only [List.length_append, List.length_nil, List.length_singleton]; omega)
    (by simp only [List.length_drop, List.length_singleton]; omega)
  have h4 := mem_write_at ((([] ++ m) ++ ['.']) ++ p)
    (((mem.drop m.length).drop ['.'].length).drop p.length) ['=']
    (m.length + 1 + p.length) (by simp only [List.length_append, List.length_nil, List.length_singleton]; omega)
    (by simp only [List.length_drop, List.length_singleton]; omega)
  have h5 := mem_write_at (((([] ++ m) ++ ['.']) ++ p) ++ ['='])
    ((((mem.drop m.length).drop ['.'].length).drop p.length).drop ['='].length) v
    (m.length + 1 + p.length + 1) (by simp only [List.length_append, List.length_nil, List.length_singleton]; omega)
    (by simp only [List.length_drop, List.length_singleton]; omega)
  have h6 := mem_write_at ((((([] ++ m) ++ ['.']) ++ p) ++ ['=']) ++ v)
    (((((mem.drop m.length).drop ['.'].length).drop p.length).drop ['='].length).drop v.length)
    [NUL] (m.length + 1 + p.length + 1 + v.length) (by simp only [List.length_append, List.length_nil, List.length_singleton]; omega)
    (by simp only [List.length_drop, List.length_singleton]; omega)
  have hend : ((((((mem.drop m.length).drop ['.'].length).drop p.length).drop
      ['='].length).drop v.length).drop [NUL].length) = [] := by
    apply List.eq_nil_of_length_eq_zero
    simp only [List.length_drop, List.length_singleton]; omega
  simp only [h1, Option.some_bind, h2, h3, h4, h5, h6, hend]
  simp

theorem build_modparam_eq (mem : List Char) (modname param : String) (val : Option String)
    (hlen : mem.length = modparam_size modname param val) :
    build_modparam mem modname param val =
      some (modparam_of modname param val ++ [NUL]) := by
  cases val with
  | none =>
    have hsz : mem.length = modname.toList.length + param.toList.length + 2 := by
      rw [hlen]; simp only [modparam_size, ne_eq, not_true_eq_false, if_false]
    have := write_chain_short mem modname.toList param.toList hsz
    simp only [build_modparam, modparam_of, ne_eq, not_true_eq_false, if_false]
    exact this
  | some v =>
    by_cases hv : v.toList.length = 0
    · have hsz : mem.length = modname.toList.length + param.toList.length + 2 := by
        rw [hlen]; simp only [modparam_size, hv, ne_eq, not_true_eq_false, if_false]
      have := write_chain_short mem modname.toList param.toList hsz
      simp only [build_modparam, modparam_of, hv, ne_eq, not_true_eq_false, if_false]
      exact this
    · have hsz : mem.length =
          modname.toList.length + param.toList.length + v.toList.length + 3 := by
        rw [hlen]; simp only [modparam_size, hv, ne_eq, not_false_eq_true, if_true]
      have := write_chain_long mem modname.toList param.toList v.toList hsz
      simp only [build_modparam, modparam_of, hv, ne_eq, not_false_eq_true, if_true,
        Option.getD_some]
      exact this

theorem modparam_of_no_nul (modname param : String) (val : Option String)
    (hm : NUL ∉ modname.toList) (hpn : NUL ∉ param.toList)
    (hvn : ∀ v, val = some v → NUL ∉ v.toList) :
    NUL ∉ modparam_of modname param val := by
  have hdot : NUL ≠ '.' := by decide
  have heq : NUL ≠ '=' := by decide
  unfold modparam_of
  cases val with
  | none =>
    simp only [ne_eq, not_true_eq_false, if_false, List.mem_append, List.mem_singleton]
    rintro ((h | h) | h)
    · exact hm h
    · exact hdot h
    · exact hpn h
  | some v =>
    by_cases hv : v.toList.length = 0
    · simp only [hv, ne_eq, not_true_eq_false, if_false, List.mem_append, List.mem_singleton]
      rintro ((h | h) | h)
      · exact hm h
      · exact hdot h
      · exact hpn h
    · simp only [hv, ne_eq, not_false_eq_true, if_true, List.mem_append, List.mem_singleton,
        Option.getD_some]
      rintro ((((h | h) | h) | h) | h)
      · exact hm h
      · exact hdot h
      · exact hpn h
      · exact heq h
      · exact hvn v rfl h

theorem modparam_of_length (modname param : String) (val : Option String) :
    (modparam_of modname param val ++ [NUL]).length = modparam_size modname param val := by
  unfold modparam_of modparam_size
  cases val with
  | none =>
    simp only [ne_eq, not_true_eq_false, if_false, List.length_append, List.length_singleton]
    omega
  | some v =>
    by_cases hv : v.toList.length = 0
    · simp only [hv, ne_eq, not_true_eq_false, if_false, List.length_append,
        List.length_singleton]
      omega
    · simp only [hv, ne_eq, not_false_eq_true, if_true, List.length_append,
        List.length_singleton, Option.getD_some]
      omega

/-- C19. Namespaced parameter construction. For C strings `modname`, `param` and an
optional C string `val` (no NUL inside), and whatever the block of the requested size
holds before: the allocation has `nlen + plen + vlen + 3` bytes when `val` is present
and non-empty and `nlen + plen + 2` bytes otherwise; every store of
`integrated_module_param_cb` falls inside the block (the stores succeed and fill it
exactly); the block then holds the NUL-terminated string `modname.param=val` in the
first case and `modname.param` in the second (so an explicit empty value is forwarded
without the `=`); and the callback returns 0 whether the allocation fails or not, with
the state-level effect of `integrated_module_param_cb`. -/
theorem C19_namespaced_parameter (E : Env) (mem : List Char) (param : String)
    (val : Option String) (modname : String) (s : State)
    (hlen : mem.length = modparam_size modname param val)
    (hm : NUL ∉ modname.toList) (hpn : NUL ∉ param.toList)
    (hvn : ∀ v, val = some v → NUL ∉ v.toList) :
    (∀ v, val = some v → v.toList ≠ [] →
      modparam_size modname param val =
        modname.toList.length + param.toList.length + v.toList.length + 3 ∧
      modparam_of modname param val =
        modname.toList ++ ['.'] ++ param.toList ++ ['='] ++ v.toList) ∧
    ((val = none ∨ ∃ v, val = some v ∧ v.toList = []) →
      modparam_size modname param val = modname.toList.length + param.toList.length + 2 ∧
      modparam_of modname param val = modname.toList ++ ['.'] ++ param.toList) ∧
    (∃ buf, build_modparam mem modname param val = some buf ∧
      buf = modparam_of modname param val ++ [NUL] ∧ buf.length = mem.length ∧
      c_str buf = modparam_of modname param val) ∧
    integrated_module_param_cb_mem E mem param val modname s =
      some (0, integrated_module_param_cb E param val modname s) := by
  have hbuild := build_modparam_eq mem modname param val hlen
  have hcs : c_str (modparam_of modname param val ++ [NUL]) = modparam_of modname param val :=
    c_str_append_nul _ [] (modparam_of_no_nul modname param val hm hpn hvn)
  refine ⟨?_, ?_, ⟨_, hbuild, rfl, ?_, hcs⟩, ?_⟩
  · intro v hval hv
    subst hval
    have hv0 : v.toList.length ≠ 0 := fun h => hv (List.eq_nil_of_length_eq_zero h)
    simp only [modparam_size, modparam_of, hv0, ne_eq, not_false_eq_true, if_true,
      Option.getD_some, and_self]
  · rintro (hval | ⟨v, hval, hv⟩)
    · subst hval
      simp only [modparam_size, modparam_of, ne_eq, not_true_eq_false, if_false, and_self]
    · subst hval
      have hv0 : v.toList.length = 0 := by rw [hv]; rfl
      simp only [modparam_size, modparam_of, hv0, ne_eq, not_true_eq_false, if_false, and_self]
  · rw [modparam_of_length, hlen]
  · unfold integrated_module_param_cb_mem integrated_module_param_cb
    split
    · rfl
    · rw [hbuild]
      simp only [hcs]

theorem C19_namespaced_parameter_witness :
    (∀ v, some "fast" = some v → v.toList ≠ [] →
      modparam_size "camera" "mode" (some "fast") =
        "camera".toList.length + "mode".toList.length + v.toList.length + 3 ∧
      modparam_of "camera" "mode" (some "fast") =
        "camera".toList ++ ['.'] ++ "mode".toList ++ ['='] ++ v.toList) ∧
    ((some "fast" = none ∨ ∃ v, some "fast" = some v ∧ v.toList = []) →
      modparam_size "camera" "mode" (some "fast") =
        "camera".toList.length + "mode".toList.length + 2 ∧
      modparam_of "camera" "mode" (some "fast") = "camera".toList ++ ['.'] ++ "mode".toList) ∧
    (∃ buf, build_modparam (List.replicate 17 'x') "camera" "mode" (some "fast") = some buf ∧
      buf = modparam_of "camera" "mode" (some "fast") ++ [NUL] ∧
      buf.length = (List.replicate 17 'x').length ∧
      c_str buf = modparam_of "camera" "mode" (some "fast")) ∧
    integrated_module_param_cb_mem demo_env (List.replicate 17 'x') "mode" (some "fast")
        "camera" demo_boot =
      some (0, integrated_module_param_cb demo_env "mode" (some "fast") "camera" demo_boot) :=
  C19_namespaced_parameter demo_env (List.replicate 17 'x') "mode" (some "fast") "camera"
    demo_boot (by decide) (by decide) (by decide)
    (fun v hv => by cases hv; decide)

/-! ## The flush at the barrier -/

theorem show_errors_str_ret (E : Env) (s : State) :
    (show_errors_str E s).1 = true ↔ s.errors_str ≠ [] := by
  unfold show_errors_str
  by_cases h : s.errors_str.length = 0
  · have : s.errors_str = [] := List.eq_nil_of_length_eq_zero h
    simp [this]
  · have hne : s.errors_str ≠ [] := fun he => h (by rw [he]; rfl)
    rw [if_neg h]
    split <;> simp [hne]

theorem flush_lines_nil : flush_lines [] = [] := by
  simp [flush_lines, strsep_all]

theorem show_errors_str_state (E : Env) (s : State) :
    (show_errors_str E s).2 =
      { s with trace := s.trace ++
        (if E.kstrdup_ok s.trace = true then flush_lines s.errors_str else []) } := by
  unfold show_errors_str
  by_cases h : s.errors_str.length = 0
  · have : s.errors_str = [] := List.eq_nil_of_length_eq_zero h
    have hf : flush_lines s.errors_str = [] := by rw [this]; exact flush_lines_nil
    rw [if_pos h]
    simp [hf]
  · rw [if_neg h]
    by_cases hk : E.kstrdup_ok s.trace = true
    · simp [hk, flush_lines]
    · simp [hk]

/-- The tail of `load_modname` when the initializer succeeds and no parameter is
unknown: nothing is recorded. -/
theorem run_initcall_errors_ok (E : Env) (modname : String) (u : Uargs) (i fn : Nat)
    (s : State) (hcall : ∀ tr f, E.call tr f = 0)
    (hunk : ∀ m mp, E.unknown_params m mp = []) :
    (run_initcall E modname u i fn s).errors_str = s.errors_str := by
  have hs := setup_args_no_unknown E modname u s (fun _ _ pv _ => hunk _ _)
  unfold run_initcall
  simp only [hcall, ne_eq, not_true_eq_false, if_false]
  split
  · simpa [emit] using hs
  · simpa [emit] using hs

theorem load_modname_errors_ok (E : Env) (T : Tables) (n : String) (u : Uargs) (s : State)
    (hcall : ∀ tr f, E.call tr f = 0) (hunk : ∀ m mp, E.unknown_params m mp = []) :
    (load_modname E T n u s).errors_str = s.errors_str := by
  rcases load_modname_cases E T n u s with h | ⟨_, _, _, _, h⟩ | ⟨i, c, _, _, _, _, _, h⟩
  · rw [h]
  · rw [h]; exact (fatal_fields E n s).2.2.1
  · rw [h, run_initcall_errors_ok E n u i c.fn _ hcall hunk]

theorem load_deferred_errors_ok (E : Env) (T : Tables) (ds : List String) (s : State)
    (hcall : ∀ tr f, E.call tr f = 0) (hunk : ∀ m mp, E.unknown_params m mp = []) :
    (load_deferred E T ds s).errors_str = s.errors_str := by
  induction ds generalizing s with
  | nil => rfl
  | cons a as ih =>
    have hstep : load_deferred E T (a :: as) s =
        load_deferred E T as (load_modname E T a Uargs.null s) := rfl
    rw [hstep, ih, load_modname_errors_ok E T a Uargs.null s hcall hunk]

theorem load_module_errors_ok (E : Env) (T : Tables) (info : load_info) (u : Uargs) (s : State)
    (hcall : ∀ tr f, E.call tr f = 0) (hunk : ∀ m mp, E.unknown_params m mp = []) :
    (load_module E T info u s).2.errors_str = s.errors_str := by
  have h1 : (__load_module E T info u s).2.errors_str = s.errors_str := by
    rcases load_module_inner_cases E T info u s with ⟨_, _⟩ | ⟨_, he⟩
    · unfold __load_module
      split
      · rfl
      · split
        · rfl
        · exact load_modname_errors_ok E T _ _ _ hcall hunk
    · rw [he]; exact load_modname_errors_ok E T _ _ _ hcall hunk
  have h2 := load_deferred_errors_ok E T T.deferred_list (__load_module E T info u s).2
    hcall hunk
  unfold load_module
  split
  · rfl
  · split
    · rfl
    · simp only
      split
      · exact h1
      · split
        · split
          · rw [h2, h1]
          · have h3 := (quiet_show_errors_str E
              (load_deferred E T T.deferred_list (__load_module E T info u s).2)).errors
            simp only [emit]
            split
            · rw [show_errors_str_state]; simp only; rw [h2, h1]
            · rw [show_errors_str_state]; simp only; rw [h2, h1]
        · exact h1

theorem run_errors_ok (E : Env) (T : Tables) (ops : List Op) (s : State)
    (hcall : ∀ tr f, E.call tr f = 0) (hunk : ∀ m mp, E.unknown_params m mp = []) :
    (run E T ops s).errors_str = s.errors_str := by
  induction ops generalizing s with
  | nil => rfl
  | cons op ops ih =>
    rw [run_cons, ih]
    cases op with
    | load info u => exact load_module_errors_ok E T info u s hcall hunk
    | tick t =>
      show (show_errors E t s).errors_str = s.errors_str
      unfold show_errors
      split
      · rfl
      · split
        · rfl
        · simp only [emit]
          rw [show_errors_str_state]

theorem err_nonempty (line : List Char) (st : State) (h : line ≠ []) :
    (__err line st).errors_str ≠ [] := by
  unfold __err
  simp only
  intro he
  obtain ⟨h1, h2⟩ := List.append_eq_nil.mp he
  rw [h1] at h2
  rcases List.take_eq_nil_iff.mp h2 with h3 | h3
  · simp [ERRORS_STR_SIZE] at h3
  · exact h h3

theorem nonempty_of_prefix {a b : List Char} (h : a <+: b) (ha : a ≠ []) : b ≠ [] := by
  intro hb
  rw [hb] at h
  exact ha (List.prefix_nil.mp h)

theorem init_failed_line_ne (i : Nat) (m : String) (r : Int) : init_failed_line i m r ≠ [] := by
  simp [init_failed_line]

theorem unknown_param_line_ne (m p : String) : unknown_param_line m p ≠ [] := by
  simp [unknown_param_line]

theorem load_module_halt_inner (E : Env) (T : Tables) (info : load_info) (u : Uargs) (s : State)
    (hp : s.panicked = false) (hc : s.completed = false)
    (h1p : (__load_module E T info u s).2.panicked = true) :
    (load_module E T info u s).2 = (__load_module E T info u s).2 := by
  unfold load_module
  simp only [hp, hc, h1p, if_true, if_false, Bool.false_eq_true]

theorem load_module_not_fired (E : Env) (T : Tables) (info : load_info) (u : Uargs) (s : State)
    (hp : s.panicked = false) (hc : s.completed = false)
    (h1p : (__load_module E T info u s).2.panicked = false)
    (h1c : (__load_module E T info u s).2.completed = false) :
    (load_module E T info u s).2 = (__load_module E T info u s).2 := by
  unfold load_module
  simp only [hp, hc, h1p, h1c, if_true, if_false, Bool.false_eq_true]

theorem load_module_halt_deferred (E : Env) (T : Tables) (info : load_info) (u : Uargs)
    (s : State) (hp : s.panicked = false) (hc : s.completed = false)
    (h1p : (__load_module E T info u s).2.panicked = false)
    (h1c : (__load_module E T info u s).2.completed = true)
    (h2p : (load_deferred E T T.deferred_list (__load_module E T info u s).2).panicked = true) :
    (load_module E T info u s).2 =
      load_deferred E T T.deferred_list (__load_module E T info u s).2 := by
  unfold load_module
  simp only [hp, hc, h1p, h1c, h2p, if_true, if_false, Bool.false_eq_true]

/-- A dispatch that starts with the barrier open and ends live with the barrier fired
went through every stage: a valid image, `load_modname`, the deferred loop. -/
theorem load_module_fired_stages (E : Env) (T : Tables) (info : load_info) (u : Uargs)
    (s : State) (hc : s.completed = false)
    (hdone : (load_module E T info u s).2.completed = true)
    (hlive : (load_module E T info u s).2.panicked = false) :
    s.panicked = false ∧ info.valid ∧
    __load_module E T info u s = (0, load_modname E T info.name u s) ∧
    (load_modname E T info.name u s).panicked = false ∧
    (load_modname E T info.name u s).completed = true ∧
    (load_deferred E T T.deferred_list (load_modname E T info.name u s)).panicked = false := by
  have hp : s.panicked = false := by
    cases h : s.panicked with
    | false => rfl
    | true =>
      rw [load_module_of_panicked E T info u s h] at hdone
      rw [hc] at hdone; cases hdone
  have h1p : (__load_module E T info u s).2.panicked = false := by
    cases h : (__load_module E T info u s).2.panicked with
    | false => rfl
    | true =>
      rw [load_module_halt_inner E T info u s hp hc h, h] at hlive; cases hlive
  have h1c : (__load_module E T info u s).2.completed = true := by
    cases h : (__load_module E T info u s).2.completed with
    | true => rfl
    | false =>
      rw [load_module_not_fired E T info u s hp hc h1p h, h] at hdone; cases hdone
  have h2p : (load_deferred E T T.deferred_list (__load_module E T info u s).2).panicked
      = false := by
    cases h : (load_deferred E T T.deferred_list (__load_module E T info u s).2).panicked with
    | false => rfl
    | true =>
      rw [load_module_halt_deferred E T info u s hp hc h1p h1c h, h] at hlive; cases hlive
  rcases load_module_inner_cases E T info u s with ⟨hq, _⟩ | ⟨hv, he⟩
  · rw [hq.completed, hc] at h1c; cases h1c
  · rw [he] at h1p h1c h2p
    exact ⟨hp, hv, he, h1p, h1c, h2p⟩

/-- The log and the buffer at the end of a dispatch in which the barrier fired. -/
theorem load_module_fired_trace (E : Env) (T : Tables) (info : load_info) (u : Uargs)
    (s : State) (hc : s.completed = false)
    (hdone : (load_module E T info u s).2.completed = true)
    (hlive : (load_module E T info u s).2.panicked = false) :
    (load_module E T info u s).2.trace =
      (load_deferred E T T.deferred_list (load_modname E T info.name u s)).trace ++
      (if E.kstrdup_ok
          (load_deferred E T T.deferred_list (load_modname E T info.name u s)).trace = true
        then flush_lines
          (load_deferred E T T.deferred_list (load_modname E T info.name u s)).errors_str
        else []) ++
      (if (load_deferred E T T.deferred_list (load_modname E T info.name u s)).errors_str = []
        then [] else [Event.warn]) ++
      [Event.free_initmem, Event.mark_readonly] ∧
    (load_module E T info u s).2.errors_str =
      (load_deferred E T T.deferred_list (load_modname E T info.name u s)).errors_str ∧
    (load_module E T info u s).2.lazy_initcalls =
      (load_deferred E T T.deferred_list (load_modname E T info.name u s)).lazy_initcalls := by
  obtain ⟨hp, hv, he, h1p, h1c, h2p⟩ := load_module_fired_stages E T info u s hc hdone hlive
  have heq := load_module_fired_eq E T info u s hp hc (by rw [he]; exact h1p)
    (by rw [he]; exact h1c) (by rw [he]; exact h2p)
  rw [he] at heq
  simp only at heq
  rw [heq]
  generalize load_deferred E T T.deferred_list (load_modname E T info.name u s) = s2
  have hret := show_errors_str_ret E s2
  have hst := show_errors_str_state E s2
  by_cases hb : s2.errors_str = []
  · have hr : ¬ (show_errors_str E s2).1 = true := fun h => hret.mp h hb
    rw [if_neg hr, hst, if_pos hb]
    simp [emit]
  · have hr : (show_errors_str E s2).1 = true := hret.mpr hb
    rw [if_pos hr, hst, if_neg hb]
    simp [emit]

theorem flush_lines_quiet (buf : List Char) : ∀ e ∈ flush_lines buf, Event.is_call e = false := by
  intro e he
  unfold flush_lines at he
  obtain ⟨tok, _, rfl⟩ := List.mem_map.mp he
  rfl

theorem flush_lines_no_warn (buf : List Char) : Event.warn ∉ flush_lines buf := by
  intro he
  unfold flush_lines at he
  obtain ⟨tok, _, h⟩ := List.mem_map.mp he
  cases h

theorem run_initcall_records (E : Env) (m : String) (u : Uargs) (i fn : Nat) (st : State)
    (h : E.call (setup_args E m u st).trace fn ≠ 0) :
    (run_initcall E m u i fn st).errors_str ≠ [] := by
  have hne := err_nonempty (init_failed_line i m (E.call (setup_args E m u st).trace fn))
    (emit (Event.initcall i fn) (setup_args E m u st)) (init_failed_line_ne _ _ _)
  unfold run_initcall
  simp only [h, ne_eq, not_false_eq_true, if_true]
  split
  · simpa [emit] using hne
  · simpa [emit] using hne

theorem run_snoc_load (E : Env) (T : Tables) (ops : List Op) (info : load_info) (u : Uargs)
    (s : State) :
    run E T (ops ++ [Op.load info u]) s = (load_module E T info u (run E T ops s)).2 := by
  rw [run_append]; rfl

theorem run_take_prefix_evolves (E : Env) (T : Tables) (ops : List Op) (s : State) (k : Nat) :
    Evolves (run E T (ops.take k) s) (run E T ops s) := by
  have h := run_evolves E T (ops.drop k) (run E T (ops.take k) s)
  rw [← run_append, List.take_append_drop] at h
  exact h

/-- C20. Barrier-time flush and warning. Take any state `s` reached from boot and a
dispatch from `s` that starts with `completed` false and returns with `completed` true
(the barrier fired in it). Then:
(1) the log of the dispatch is the log up to the end of the deferred loop, followed by
the flush lines (one `pr_err` per non-empty line of the buffer, or nothing when
`kstrdup` fails), then the warning when the buffer is non-empty, then `free_initmem`
and `mark_readonly`; (2) the flush leaves the buffer as it was; (3) no flush line is an
initializer call, and (4) when registered names are distinct every registered entry,
DEFERRED ones included, has been invoked exactly once in the log before the flush;
(5) the warning is raised in this dispatch if and only if the buffer is non-empty at
the flush; (6) the buffer of every earlier state since boot is a prefix of the buffer
at the flush, so anything recorded earlier is still there; (7) a non-zero initializer
status and an unknown parameter each leave the buffer non-empty; (8) when every
initializer returns 0 and no parameter is unknown, the buffer is empty at the flush;
(9) `show_errors_str` returns true exactly when the buffer is non-empty, whatever
`kstrdup` does. -/
theorem C20_barrier_flush_and_warning (E : Env) (T : Tables)
    (regs : List (Nat × String × String)) (ops : List Op) (info : load_info) (u : Uargs)
    (s : State) (hs : s = run E T ops (register_all T regs State.boot))
    (hc : s.completed = false)
    (hdone : (load_module E T info u s).2.completed = true)
    (hlive : (load_module E T info u s).2.panicked = false) :
    ((load_module E T info u s).2.trace =
      (load_deferred E T T.deferred_list (load_modname E T info.name u s)).trace ++
      (if E.kstrdup_ok
          (load_deferred E T T.deferred_list (load_modname E T info.name u s)).trace = true
        then flush_lines
          (load_deferred E T T.deferred_list (load_modname E T info.name u s)).errors_str
        else []) ++
      (if (load_deferred E T T.deferred_list (load_modname E T info.name u s)).errors_str = []
        then [] else [Event.warn]) ++
      [Event.free_initmem, Event.mark_readonly]) ∧
    ((load_module E T info u s).2.errors_str =
      (load_deferred E T T.deferred_list (load_modname E T info.name u s)).errors_str) ∧
    (∀ e ∈ flush_lines
        (load_deferred E T T.deferred_list (load_modname E T info.name u s)).errors_str,
      Event.is_call e = false) ∧
    ((names s.lazy_initcalls).Nodup → ∀ i, i < s.lazy_initcalls.length →
      calls i (load_deferred E T T.deferred_list (load_modname E T info.name u s)).trace = 1) ∧
    (∀ delta, (load_module E T info u s).2.trace = s.trace ++ delta →
      (Event.warn ∈ delta ↔
        (load_deferred E T T.deferred_list (load_modname E T info.name u s)).errors_str
          ≠ [])) ∧
    (∀ k, (run E T (ops.take k) (register_all T regs State.boot)).errors_str <+:
      (load_deferred E T T.deferred_list (load_modname E T info.name u s)).errors_str) ∧
    ((∀ (m : String) (a : Uargs) (i fn : Nat) (st : State),
        E.call (setup_args E m a st).trace fn ≠ 0 →
        (run_initcall E m a i fn st).errors_str ≠ []) ∧
      (∀ (p m : String) (st : State),
        (unknown_integrated_module_param_cb p m st).errors_str ≠ [])) ∧
    ((∀ tr fn, E.call tr fn = 0) → (∀ m mp, E.unknown_params m mp = []) →
      (load_deferred E T T.deferred_list (load_modname E T info.name u s)).errors_str = []) ∧
    (∀ (E1 : Env) (st : State), (show_errors_str E1 st).1 = true ↔ st.errors_str ≠ []) := by
  obtain ⟨htr, herr, hreg⟩ := load_module_fired_trace E T info u s hc hdone hlive
  have hev := load_module_evolves E T info u s
  refine ⟨htr, herr, flush_lines_quiet _, ?_, ?_, ?_, ⟨?_, ?_⟩, ?_, show_errors_str_ret⟩
  · -- every entry has been invoked before the flush
    intro hnd i hi
    have hsh := (run_evolves E T ops (register_all T regs State.boot)).shape
    rw [← hs] at hsh
    have hnd0 : (names (register_all T regs State.boot).lazy_initcalls).Nodup := by
      rw [← names_of_shape hsh]; exact hnd
    have hD := doneInv_run E T (ops ++ [Op.load info u]) _ (boot_registered T regs) hnd0
      (boot_doneInv T regs)
    have hC := callsInv_run E T (ops ++ [Op.load info u]) _ (boot_callsInv T regs)
    rw [run_snoc_load, ← hs] at hD hC
    have hlen : (load_module E T info u s).2.lazy_initcalls.length = s.lazy_initcalls.length := by
      have := congrArg List.length hev.shape
      simpa using this
    have hl := hD hdone hlive i (by rw [hlen]; exact hi)
    have h1 := hC.1 i
    rw [hl, if_pos rfl, htr, List.append_assoc, List.append_assoc, calls_append] at h1
    have h0 : calls i
        ((if E.kstrdup_ok
            (load_deferred E T T.deferred_list (load_modname E T info.name u s)).trace = true
          then flush_lines
            (load_deferred E T T.deferred_list (load_modname E T info.name u s)).errors_str
          else []) ++
        ((if (load_deferred E T T.deferred_list
            (load_modname E T info.name u s)).errors_str = []
          then [] else [Event.warn]) ++
        [Event.free_initmem, Event.mark_readonly])) = 0 := by
      apply calls_quiet
      intro e he
      rcases List.mem_append.mp he with h | h
      · split at h
        · exact flush_lines_quiet _ e h
        · cases h
      · rcases List.mem_append.mp h with h | h
        · split at h
          · cases h
          · rw [List.mem_singleton.mp h]; rfl
        · simp only [List.mem_cons, List.mem_singleton, List.mem_nil_iff, or_false] at h
          rcases h with rfl | rfl <;> rfl
    omega
  · -- the warning is raised iff the buffer is non-empty
    intro delta hdelta
    have hA1 := @emits_load_modname (fun e => e ≠ Event.warn) (fun _ h => Event.noConfusion h)
      (fun h => Event.noConfusion h) (fun h => Event.noConfusion h)
      (fun _ _ h => Event.noConfusion h) E T info.name u s
      (fun _ _ _ h => Event.noConfusion h)
    have hA2 := @emits_load_deferred (fun e => e ≠ Event.warn) (fun _ h => Event.noConfusion h)
      (fun h => Event.noConfusion h) (fun h => Event.noConfusion h)
      (fun _ _ h => Event.noConfusion h) E T T.deferred_list (load_modname E T info.name u s)
      (fun _ _ _ _ _ h => Event.noConfusion h)
    obtain ⟨d, hd, hdA⟩ := emits_trans hA1 hA2
    rw [htr, hd] at hdelta
    simp only [List.append_assoc] at hdelta
    have hde := List.append_cancel_left hdelta
    rw [← hde]
    constructor
    · intro hw
      rcases List.mem_append.mp hw with h | h
      · exact absurd rfl (hdA _ h)
      · rcases List.mem_append.mp h with h | h
        · split at h
          · exact absurd h (flush_lines_no_warn _)
          · cases h
        · rcases List.mem_append.mp h with h | h
          · split at h
            · cases h
            · assumption
          · simp at h
    · intro hne
      apply List.mem_append_right
      apply List.mem_append_right
      apply List.mem_append_left
      rw [if_neg hne]
      exact List.mem_singleton.mpr rfl
  · -- nothing recorded since boot is lost
    intro k
    have h1 := (run_take_prefix_evolves E T ops (register_all T regs State.boot) k).errors
    rw [← hs] at h1
    have h2 := hev.errors
    rw [herr] at h2
    exact h1.trans h2
  · exact fun m a i fn st h => run_initcall_records E m a i fn st h
  · exact fun p m st => err_nonempty _ st (unknown_param_line_ne m p)
  · intro hcall hunk
    rw [← herr, load_module_errors_ok E T info u s hcall hunk, hs,
      run_errors_ok E T ops _ hcall hunk]
    exact (boot_fields T regs).2.2.1

theorem C20_barrier_flush_and_warning_witness :
    (load_module demo_env demo_tables (valid_image "a") Uargs.null
        (run demo_env demo_tables [request "b"] demo_boot)).2.trace =
      (load_deferred demo_env demo_tables demo_tables.deferred_list
        (load_modname demo_env demo_tables (valid_image "a").name Uargs.null
          (run demo_env demo_tables [request "b"] demo_boot))).trace ++
      [Event.pr_err "lazy_initcalls[0]: a\x27s init function returned -5\n".toList] ++
      [Event.warn] ++ [Event.free_initmem, Event.mark_readonly] ∧
    calls 2 (load_deferred demo_env demo_tables demo_tables.deferred_list
        (load_modname demo_env demo_tables (valid_image "a").name Uargs.null
          (run demo_env demo_tables [request "b"] demo_boot))).trace = 1 :=
  ⟨(C20_barrier_flush_and_warning demo_env demo_tables demo_regs [request "b"]
      (valid_image "a") Uargs.null (run demo_env demo_tables [request "b"] demo_boot) rfl
      (by decide) (by decide) (by decide)).1.trans (by decide),
   (C20_barrier_flush_and_warning demo_env demo_tables demo_regs [request "b"]
      (valid_image "a") Uargs.null (run demo_env demo_tables [request "b"] demo_boot) rfl
      (by decide) (by decide) (by decide)).2.2.2.1 (by decide) 2 (by decide)⟩

/-! ## The periodic tick -/

theorem not_loaded_events_eq (k : Nat) (l : List lazy_initcall) :
    not_loaded_events k l =
      ((l.enumFrom k).filter (fun p => !p.2.loaded)).map
        (fun p => Event.pr_err (not_loaded_line p.1 p.2.modname)) := by
  induction l generalizing k with
  | nil => rfl
  | cons c cs ih =>
    unfold not_loaded_events
    rw [ih (k + 1)]
    cases hl : c.loaded <;> simp [List.enumFrom, hl]

theorem not_loaded_events_report (l : List lazy_initcall) :
    not_loaded_events 0 l = unloaded_report l :=
  not_loaded_events_eq 0 l

theorem show_errors_early (E : Env) (t : Nat) (s : State) (hp : s.panicked = false)
    (ht : t < 30 * 1000000) : show_errors E t s = emit Event.queue_work s := by
  unfold show_errors
  simp only [hp, Bool.false_eq_true, if_false, ht, if_true]

theorem show_errors_late (E : Env) (t : Nat) (s : State) (hp : s.panicked = false)
    (ht : 30 * 1000000 ≤ t) :
    show_errors E t s =
      { s with trace := s.trace ++
        (if E.kstrdup_ok s.trace = true then flush_lines s.errors_str else []) ++
        unloaded_report s.lazy_initcalls ++ [Event.queue_work] } := by
  have hnt : ¬ t < 30 * 1000000 := by omega
  unfold show_errors
  rw [if_neg (by rw [hp]; exact Bool.false_ne_true), if_neg hnt]
  simp only
  rw [show_errors_str_state]
  simp only [emit, not_loaded_events_report]

theorem show_errors_errors (E : Env) (t : Nat) (s : State) :
    (show_errors E t s).errors_str = s.errors_str := by
  unfold show_errors
  split
  · rfl
  · split
    · rfl
    · simp only [emit]
      rw [show_errors_str_state]

/-- C21 as stated fails when `kstrdup` fails: the buffer holds the failure line of
entry "a", the tick comes after 31 s, and it prints only the two "not loaded yet"
lines; no segment of the buffer is emitted. -/
theorem C21_nomem_counterexample :
    (run demo_env demo_tables [request "a"] demo_boot).panicked = false ∧
    (run demo_env demo_tables [request "a"] demo_boot).errors_str =
      "lazy_initcalls[0]: a\x27s init function returned -5\n".toList ∧
    (show_errors demo_env_nomem 31000000
        (run demo_env demo_tables [request "a"] demo_boot)).trace =
      (run demo_env demo_tables [request "a"] demo_boot).trace ++
        [Event.pr_err "lazy_initcalls[1]: b not loaded yet\n".toList,
         Event.pr_err "lazy_initcalls[2]: d not loaded yet\n".toList,
         Event.queue_work] ∧
    Event.pr_err "lazy_initcalls[0]: a\x27s init function returned -5\n".toList ∉
      [Event.pr_err "lazy_initcalls[1]: b not loaded yet\n".toList,
       Event.pr_err "lazy_initcalls[2]: d not loaded yet\n".toList,
       Event.queue_work] := by
  decide

/-- C21 amended. For a live state and a boot-time reading `t` (in microseconds): a tick
with `t` below 30 s only reschedules itself; a tick with `t` at least 30 s emits, in
order, each non-empty segment of the buffer split at the newline when `kstrdup`
succeeds and nothing of the buffer when it fails, then exactly one "not loaded yet"
line for each index whose entry has `loaded` false, in increasing index order and none
for a loaded entry, then reschedules itself; in both cases the registry, `completed`
and the buffer are unchanged. -/
theorem C21_tick_output (E : Env) (t : Nat) (s : State) (hp : s.panicked = false) :
    (t < 30 * 1000000 → show_errors E t s = emit Event.queue_work s) ∧
    (30 * 1000000 ≤ t →
      (show_errors E t s).trace =
        s.trace ++
        (if E.kstrdup_ok s.trace = true then flush_lines s.errors_str else []) ++
        unloaded_report s.lazy_initcalls ++ [Event.queue_work]) ∧
    (show_errors E t s).lazy_initcalls = s.lazy_initcalls ∧
    (show_errors E t s).completed = s.completed ∧
    (show_errors E t s).errors_str = s.errors_str ∧
    (show_errors E t s).panicked = s.panicked := by
  have hq := quiet_show_errors E t s
  refine ⟨show_errors_early E t s hp, fun ht => ?_, hq.reg, hq.completed,
    show_errors_errors E t s, hq.panicked⟩
  rw [show_errors_late E t s hp ht]

theorem C21_tick_output_witness :
    (show_errors demo_env 31000000
        (run demo_env demo_tables [request "a"] demo_boot)).trace =
      (run demo_env demo_tables [request "a"] demo_boot).trace ++
        [Event.pr_err "lazy_initcalls[0]: a\x27s init function returned -5\n".toList,
         Event.pr_err "lazy_initcalls[1]: b not loaded yet\n".toList,
         Event.pr_err "lazy_initcalls[2]: d not loaded yet\n".toList,
         Event.queue_work] ∧
    show_errors demo_env 29999999 (run demo_env demo_tables [request "a"] demo_boot) =
      emit Event.queue_work (run demo_env demo_tables [request "a"] demo_boot) :=
  ⟨((C21_tick_output demo_env 31000000 (run demo_env demo_tables [request "a"] demo_boot)
      (by decide)).2.1 (by decide)).trans (by decide),
   (C21_tick_output demo_env 29999999 (run demo_env demo_tables [request "a"] demo_boot)
      (by decide)).1 (by decide)⟩

/-! ## Nothing pending at the release; duplicates -/

theorem boot_releaseInv (T : Tables) (regs : List (Nat × String × String)) :
    ReleaseInv (register_all T regs State.boot) := by
  left
  rw [(boot_fields T regs).2.2.2]
  exact ⟨⟨by simp, by simp⟩, fun _ => (boot_fields T regs).1⟩

theorem boot_barInv (T : Tables) (regs : List (Nat × String × String)) :
    BarInv (register_all T regs State.boot) := by
  intro h
  rw [(boot_fields T regs).1] at h; cases h

theorem loaded_of_loaded_at {l : List lazy_initcall} {i : Nat} {c : lazy_initcall}
    (hc : l[i]? = some c) (h : loaded_at l i = true) : c.loaded = true := by
  simpa [loaded_at, hc] using h

/-- In a live state with `completed` set that is reached from a boot scan with distinct
names, every entry is loaded and has been invoked exactly once. -/
theorem done_all_loaded (E : Env) (T : Tables) (regs : List (Nat × String × String))
    (ops : List Op)
    (hnd : (names (register_all T regs State.boot).lazy_initcalls).Nodup)
    (hc : (run E T ops (register_all T regs State.boot)).completed = true)
    (hp : (run E T ops (register_all T regs State.boot)).panicked = false)
    (i : Nat) (hi : i < (run E T ops (register_all T regs State.boot)).lazy_initcalls.length) :
    loaded_at (run E T ops (register_all T regs State.boot)).lazy_initcalls i = true ∧
    calls i (run E T ops (register_all T regs State.boot)).trace = 1 := by
  have hD := doneInv_run E T ops _ (boot_registered T regs) hnd (boot_doneInv T regs)
  have hC := callsInv_run E T ops _ (boot_callsInv T regs)
  have hl := hD hc hp i hi
  refine ⟨hl, ?_⟩
  rw [hC.1 i, hl, if_pos rfl]

/-- C22. Nothing is left unrun when startup memory is released. For a registry built by
the boot scan with pairwise distinct names and every sequence of dispatches and ticks:
in every live state (the last dispatch returned; always so in a debug build) in which
`completed` is true, every entry, NORMAL or DEFERRED, has `loaded` true and has been
invoked exactly once; whenever the log holds `free_initmem` or `mark_readonly`, the
machine is live, `completed` is true and every entry is loaded; and in the dispatch
that performs the release, the log splits into a part without the release in which
every entry has already been invoked, followed by a part that starts the release. -/
theorem C22_nothing_left_unrun (E : Env) (T : Tables) (regs : List (Nat × String × String))
    (ops : List Op)
    (hnd : (names (register_all T regs State.boot).lazy_initcalls).Nodup) :
    ((run E T ops (register_all T regs State.boot)).completed = true →
      (run E T ops (register_all T regs State.boot)).panicked = false →
      ∀ (i : Nat) (c : lazy_initcall),
        (run E T ops (register_all T regs State.boot)).lazy_initcalls[i]? = some c →
        c.loaded = true ∧ calls i (run E T ops (register_all T regs State.boot)).trace = 1) ∧
    (E.debug = true → (run E T ops (register_all T regs State.boot)).panicked = false) ∧
    ((Event.free_initmem ∈ (run E T ops (register_all T regs State.boot)).trace ∨
        Event.mark_readonly ∈ (run E T ops (register_all T regs State.boot)).trace) →
      (run E T ops (register_all T regs State.boot)).completed = true ∧
      (run E T ops (register_all T regs State.boot)).panicked = false ∧
      ∀ c ∈ (run E T ops (register_all T regs State.boot)).lazy_initcalls, c.loaded = true) ∧
    (∀ (info : load_info) (u : Uargs),
      (run E T ops (register_all T regs State.boot)).completed = false →
      (load_module E T info u (run E T ops (register_all T regs State.boot))).2.completed
        = true →
      (load_module E T info u (run E T ops (register_all T regs State.boot))).2.panicked
        = false →
      ∃ pre post,
        (load_module E T info u (run E T ops (register_all T regs State.boot))).2.trace =
          pre ++ post ++ [Event.free_initmem, Event.mark_readonly] ∧
        no_release pre ∧ no_release post ∧
        (∀ e ∈ post, Event.is_call e = false) ∧
        ∀ i, i < (run E T ops (register_all T regs State.boot)).lazy_initcalls.length →
          calls i pre = 1) := by
  have hall := done_all_loaded E T regs ops hnd
  refine ⟨fun hc hp i c hic => ?_, fun hd => ?_, fun hm => ?_, fun info u hc hdone hlive => ?_⟩
  · have hi : i < (run E T ops (register_all T regs State.boot)).lazy_initcalls.length := by
      by_contra hne
      have := List.getElem?_eq_none_iff.mpr (Nat.le_of_not_lt hne)
      rw [this] at hic; cases hic
    obtain ⟨hl, hcalls⟩ := hall hc hp i hi
    exact ⟨loaded_of_loaded_at hic hl, hcalls⟩
  · exact run_debug_live E T hd ops _ (boot_fields T regs).2.1
  · have hR := releaseInv_run E T ops _ (boot_releaseInv T regs)
    rcases hR with ⟨h0, _⟩ | ⟨hc, hp, _⟩
    · rcases hm with hm | hm
      · exact absurd hm h0.1
      · exact absurd hm h0.2
    · refine ⟨hc, hp, fun c hcm => ?_⟩
      obtain ⟨i, hic⟩ := List.mem_iff_getElem?.mp hcm
      have hi : i < (run E T ops (register_all T regs State.boot)).lazy_initcalls.length := by
        by_contra hne
        have := List.getElem?_eq_none_iff.mpr (Nat.le_of_not_lt hne)
        rw [this] at hic; cases hic
      exact loaded_of_loaded_at hic (hall hc hp i hi).1
  · -- the dispatch that performs the release
    have hall2 := done_all_loaded E T regs (ops ++ [Op.load info u]) hnd
    have hRs := releaseInv_run E T ops _ (boot_releaseInv T regs)
    rw [run_snoc_load] at hall2
    generalize run E T ops (register_all T regs State.boot) = s at hc hdone hlive hall2 hRs ⊢
    obtain ⟨htr, _, _⟩ := load_module_fired_trace E T info u s hc hdone hlive
    have hev := load_module_evolves E T info u s
    have hlen : (load_module E T info u s).2.lazy_initcalls.length = s.lazy_initcalls.length := by
      have := congrArg List.length hev.shape
      simpa using this
    have hpost : ∀ e ∈
        (if E.kstrdup_ok
            (load_deferred E T T.deferred_list (load_modname E T info.name u s)).trace = true
          then flush_lines
            (load_deferred E T T.deferred_list (load_modname E T info.name u s)).errors_str
          else []) ++
        (if (load_deferred E T T.deferred_list (load_modname E T info.name u s)).errors_str = []
          then [] else [Event.warn]),
        (∃ t, e = Event.pr_err t) ∨ e = Event.warn := by
      intro e he
      rcases List.mem_append.mp he with h | h
      · split at h
        · unfold flush_lines at h
          obtain ⟨tok, _, rfl⟩ := List.mem_map.mp h
          exact Or.inl ⟨_, rfl⟩
        · cases h
      · split at h
        · cases h
        · exact Or.inr (List.mem_singleton.mp h)
    have hs0 : no_release s.trace := by
      rcases hRs with ⟨h0, _⟩ | ⟨h1, _⟩
      · exact h0
      · rw [hc] at h1; cases h1
    have hA1 := @emits_load_modname
      (fun e => e ≠ Event.free_initmem ∧ e ≠ Event.mark_readonly)
      (fun _ => ⟨fun h => Event.noConfusion h, fun h => Event.noConfusion h⟩)
      ⟨fun h => Event.noConfusion h, fun h => Event.noConfusion h⟩
      ⟨fun h => Event.noConfusion h, fun h => Event.noConfusion h⟩
      (fun _ _ => ⟨fun h => Event.noConfusion h, fun h => Event.noConfusion h⟩)
      E T info.name u s
      (fun _ _ _ => ⟨fun h => Event.noConfusion h, fun h => Event.noConfusion h⟩)
    have hA2 := @emits_load_deferred
      (fun e => e ≠ Event.free_initmem ∧ e ≠ Event.mark_readonly)
      (fun _ => ⟨fun h => Event.noConfusion h, fun h => Event.noConfusion h⟩)
      ⟨fun h => Event.noConfusion h, fun h => Event.noConfusion h⟩
      ⟨fun h => Event.noConfusion h, fun h => Event.noConfusion h⟩
      (fun _ _ => ⟨fun h => Event.noConfusion h, fun h => Event.noConfusion h⟩)
      E T T.deferred_list (load_modname E T info.name u s)
      (fun _ _ _ _ _ => ⟨fun h => Event.noConfusion h, fun h => Event.noConfusion h⟩)
    obtain ⟨d, hd, hnr⟩ := no_release_emits (emits_trans hA1 hA2)
    have hquiet : ∀ e ∈
        (if E.kstrdup_ok
            (load_deferred E T T.deferred_list (load_modname E T info.name u s)).trace = true
          then flush_lines
            (load_deferred E T T.deferred_list (load_modname E T info.name u s)).errors_str
          else []) ++
        (if (load_deferred E T T.deferred_list (load_modname E T info.name u s)).errors_str = []
          then [] else [Event.warn]), Event.is_call e = false := by
      intro e he
      rcases hpost e he with ⟨t, rfl⟩ | rfl <;> rfl
    refine ⟨(load_deferred E T T.deferred_list (load_modname E T info.name u s)).trace,
      (if E.kstrdup_ok
          (load_deferred E T T.deferred_list (load_modname E T info.name u s)).trace = true
        then flush_lines
          (load_deferred E T T.deferred_list (load_modname E T info.name u s)).errors_str
        else []) ++
      (if (load_deferred E T T.deferred_list (load_modname E T info.name u s)).errors_str = []
        then [] else [Event.warn]), ?_, ?_, ?_, hquiet, ?_⟩
    · rw [htr]; simp only [List.append_assoc]
    · rw [hd]; exact no_release_append hs0 hnr
    · constructor
      · intro hm
        rcases hpost _ hm with ⟨t, h⟩ | h <;> cases h
      · intro hm
        rcases hpost _ hm with ⟨t, h⟩ | h <;> cases h
    · intro i hi
      have h1 := (hall2 hdone hlive i (by rw [hlen]; exact hi)).2
      rw [htr, List.append_assoc, List.append_assoc, ← List.append_assoc _ _
        [Event.free_initmem, Event.mark_readonly], calls_append, calls_append] at h1
      have h2 := calls_quiet i _ hquiet
      have h3 : calls i [Event.free_initmem, Event.mark_readonly] = 0 := by
        apply calls_quiet
        intro e he
        simp only [List.mem_cons, List.mem_singleton, List.mem_nil_iff, or_false] at he
        rcases he with rfl | rfl <;> rfl
      omega

theorem C22_nothing_left_unrun_witness :
    (∀ (i : Nat) (c : lazy_initcall),
      (run demo_env demo_tables [request "b", request "a"]
        (register_all demo_tables demo_regs State.boot)).lazy_initcalls[i]? = some c →
      c.loaded = true ∧
      calls i (run demo_env demo_tables [request "b", request "a"]
        (register_all demo_tables demo_regs State.boot)).trace = 1) ∧
    Event.free_initmem ∈ (run demo_env demo_tables [request "b", request "a"]
        (register_all demo_tables demo_regs State.boot)).trace :=
  ⟨(C22_nothing_left_unrun demo_env demo_tables demo_regs [request "b", request "a"]
      (by decide)).1 (by decide) (by decide), by decide⟩

/-- C23. Duplicate registration starves the later entry. If the boot scan leaves two
entries with the same name at indices `i < j`, then after every sequence of dispatches
and ticks the entry at `j` has `loaded` false and its initializer has never been
invoked; and if that entry is NORMAL, `completed` is still false and neither
`free_initmem` nor `mark_readonly` has been performed. -/
theorem C23_duplicate_starves (E : Env) (T : Tables) (regs : List (Nat × String × String))
    (ops : List Op) (i j : Nat) (ci cj : lazy_initcall) (hij : i < j)
    (hi : (register_all T regs State.boot).lazy_initcalls[i]? = some ci)
    (hj : (register_all T regs State.boot).lazy_initcalls[j]? = some cj)
    (hn : ci.modname = cj.modname) :
    loaded_at (run E T ops (register_all T regs State.boot)).lazy_initcalls j = false ∧
    calls j (run E T ops (register_all T regs State.boot)).trace = 0 ∧
    (∀ f, Event.initcall j f ∉ (run E T ops (register_all T regs State.boot)).trace) ∧
    (cj.type = lazy_initcall_type.NORMAL →
      (run E T ops (register_all T regs State.boot)).completed = false ∧
      Event.free_initmem ∉ (run E T ops (register_all T regs State.boot)).trace ∧
      Event.mark_readonly ∉ (run E T ops (register_all T regs State.boot)).trace) := by
  have hsh := (run_evolves E T ops (register_all T regs State.boot)).shape
  have hF := firstInv_run E T ops _ (boot_firstInv T regs)
  have hC := callsInv_run E T ops _ (boot_callsInv T regs)
  have hB := barInv_run E T ops _ (boot_barInv T regs)
  have hR := releaseInv_run E T ops _ (boot_releaseInv T regs)
  generalize run E T ops (register_all T regs State.boot) = s at hsh hF hC hB hR ⊢
  obtain ⟨c0, hc0, hn0, _, _⟩ := entry_of_shape hsh hi
  obtain ⟨c1, hc1, hn1, ht1, _⟩ := entry_of_shape hsh hj
  have hl : loaded_at s.lazy_initcalls j = false := by
    cases h : loaded_at s.lazy_initcalls j with
    | false => rfl
    | true =>
      have hfind := hF j c1 hc1 (loaded_of_loaded_at hc1 h)
      obtain ⟨_, _, _, hlt⟩ := find_modname_some hfind
      exact absurd (by rw [hn0, hn, hn1]) (hlt i c0 hij hc0)
  have hcalls : calls j s.trace = 0 := by
    rw [hC.1 j, hl]; rfl
  refine ⟨hl, hcalls, fun f hm => ?_, fun ht => ?_⟩
  · have hpos : 0 < calls j s.trace := by
      unfold calls
      exact List.countP_pos_iff.mpr ⟨_, hm, by simp⟩
    omega
  · have hcomp : s.completed = false := by
      cases h : s.completed with
      | false => rfl
      | true =>
        have := loaded_of_not_pending (hB h) hc1 (by rw [ht1]; exact ht)
        rw [hl] at this; cases this
    refine ⟨hcomp, ?_⟩
    rcases hR with ⟨h0, _⟩ | ⟨h1, _⟩
    · exact h0
    · rw [hcomp] at h1; cases h1

theorem C23_duplicate_starves_witness :
    loaded_at (run demo_env demo_tables [request "a", request "b", request "a", request "d"]
      (register_all demo_tables demo_dup_regs State.boot)).lazy_initcalls 1 = false ∧
    calls 1 (run demo_env demo_tables [request "a", request "b", request "a", request "d"]
      (register_all demo_tables demo_dup_regs State.boot)).trace = 0 ∧
    (run demo_env demo_tables [request "a", request "b", request "a", request "d"]
      (register_all demo_tables demo_dup_regs State.boot)).completed = false :=
  ⟨(C23_duplicate_starves demo_env demo_tables demo_dup_regs
      [request "a", request "b", request "a", request "d"] 0 1
      (new_entry demo_tables 1 "a" "fa") (new_entry demo_tables 9 "a" "fa2")
      (by decide) (by decide) (by decide) (by decide)).1,
   (C23_duplicate_starves demo_env demo_tables demo_dup_regs
      [request "a", request "b", request "a", request "d"] 0 1
      (new_entry demo_tables 1 "a" "fa") (new_entry demo_tables 9 "a" "fa2")
      (by decide) (by decide) (by decide) (by decide)).2.1,
   ((C23_duplicate_starves demo_env demo_tables demo_dup_regs
      [request "a", request "b", request "a", request "d"] 0 1
      (new_entry demo_tables 1 "a" "fa") (new_entry demo_tables 9 "a" "fa2")
      (by decide) (by decide) (by decide) (by decide)).2.2.2 (by decide)).1⟩

/-! ## The buffer is never cleared -/

theorem strsep_all_ne_nil (b : List Char) : strsep_all b ≠ [] := by
  cases b with
  | nil => simp [strsep_all]
  | cons c cs =>
    unfold strsep_all
    split
    · simp
    · split <;> simp

theorem strsep_all_cons (c : Char) (cs : List Char) :
    strsep_all (c :: cs) =
      if c = '\n' then [] :: strsep_all cs
      else
        match strsep_all cs with
        | [] => [[c]]
        | tok :: toks => (c :: tok) :: toks := by
  rw [strsep_all]

theorem strsep_all_append_newline (x y : List Char) :
    strsep_all (x ++ '\n' :: y) = strsep_all x ++ strsep_all y := by
  induction x with
  | nil => simp [strsep_all]
  | cons c cs ih =>
    rw [List.cons_append, strsep_all_cons, strsep_all_cons c cs, ih]
    by_cases hc : c = '\n'
    · rw [if_pos hc, if_pos hc]; rfl
    · rw [if_neg hc, if_neg hc]
      cases hs : strsep_all cs with
      | nil => exact absurd hs (strsep_all_ne_nil cs)
      | cons t ts => rfl

theorem flush_lines_append_newline (x y : List Char) :
    flush_lines (x ++ '\n' :: y) = flush_lines x ++ flush_lines y := by
  unfold flush_lines
  rw [strsep_all_append_newline, List.filter_append, List.map_append]

/-- Everything an earlier flush prints is printed again, first and in the same order,
by a flush of any later content of the buffer. -/
theorem flush_lines_prefix {b b1 : List Char} (hb : BufInv b) (hb1 : b1.length ≤ 16383)
    (h : b <+: b1) : flush_lines b <+: flush_lines b1 := by
  obtain ⟨ext, rfl⟩ := h
  rcases hb.2 with h0 | ⟨x, hx⟩ | hfull
  · rw [h0, flush_lines_nil]; exact List.nil_prefix
  · rw [hx, List.append_assoc, List.singleton_append, flush_lines_append_newline,
      flush_lines_append_newline, flush_lines_nil, List.append_nil]
    exact List.prefix_append _ _
  · have : ext = [] := by
      rw [List.length_append] at hb1
      exact List.eq_nil_of_length_eq_zero (by omega)
    rw [this, List.append_nil]

theorem err_bufInv (line : List Char) (s : State) (hline : ∃ l0, line = l0 ++ ['\n'])
    (h : BufInv s.errors_str) : BufInv (__err line s).errors_str := by
  obtain ⟨l0, rfl⟩ := hline
  obtain ⟨hlen, _⟩ := h
  unfold __err
  simp only [ERRORS_STR_SIZE]
  by_cases hk : (l0 ++ ['\n']).length ≤ 16 * 1024 - s.errors_str.length - 1
  · rw [List.take_of_length_le hk]
    refine ⟨?_, Or.inr (Or.inl ⟨s.errors_str ++ l0, by simp⟩)⟩
    rw [List.length_append]; omega
  · have hl : ((l0 ++ ['\n']).take (16 * 1024 - s.errors_str.length - 1)).length =
        16 * 1024 - s.errors_str.length - 1 := by
      rw [List.length_take]; omega
    refine ⟨?_, Or.inr (Or.inr ?_)⟩
    · rw [List.length_append, hl]; omega
    · rw [List.length_append, hl]; omega

theorem unknown_param_line_ends (m p : String) :
    ∃ l0, unknown_param_line m p = l0 ++ ['\n'] :=
  ⟨m.toList ++ ": unknown parameter \x27".toList ++ p.toList ++ "\x27 ignored".toList, by
    unfold unknown_param_line
    rw [List.append_assoc _ _ ['\n']]
    rfl⟩

theorem bufInv_foldl {α : Type} (f : State → α → State)
    (hf : ∀ s a, BufInv s.errors_str → BufInv (f s a).errors_str) (l : List α) (s : State)
    (h : BufInv s.errors_str) : BufInv (l.foldl f s).errors_str := by
  induction l generalizing s with
  | nil => exact h
  | cons a as ih => exact ih _ (hf s a h)

theorem bufInv_integrated_module_param_cb (E : Env) (param : String) (val : Option String)
    (modname : String) (s : State) (h : BufInv s.errors_str) :
    BufInv (integrated_module_param_cb E param val modname s).errors_str := by
  unfold integrated_module_param_cb
  split
  · exact h
  · apply bufInv_foldl _ _ _ _ h
    intro st p hst
    exact err_bufInv _ st (unknown_param_line_ends modname p) hst

theorem bufInv_setup_args (E : Env) (modname : String) (u : Uargs) (s : State)
    (h : BufInv s.errors_str) : BufInv (setup_args E modname u s).errors_str := by
  cases u with
  | null => exact h
  | fault err => exact h
  | str args =>
    unfold setup_args
    simp only
    split
    · exact bufInv_foldl _ (fun st pv hst =>
        bufInv_integrated_module_param_cb E pv.1 pv.2 modname st hst) _ _ h
    · exact h

theorem bufInv_run_initcall (E : Env) (modname : String) (u : Uargs) (i fn : Nat) (s : State)
    (h : BufInv s.errors_str) : BufInv (run_initcall E modname u i fn s).errors_str := by
  have h2 : BufInv (emit (Event.initcall i fn) (setup_args E modname u s)).errors_str :=
    bufInv_setup_args E modname u s h
  have h3 := err_bufInv
    (init_failed_line i modname (E.call (setup_args E modname u s).trace fn))
    (emit (Event.initcall i fn) (setup_args E modname u s)) ⟨_, rfl⟩ h2
  unfold run_initcall
  simp only
  split <;> split <;> first | exact h3 | exact h2

theorem bufInv_load_modname (E : Env) (T : Tables) (n : String) (u : Uargs) (s : State)
    (h : BufInv s.errors_str) : BufInv (load_modname E T n u s).errors_str := by
  rcases load_modname_cases E T n u s with h1 | ⟨_, _, _, _, h1⟩ | ⟨i, c, _, _, _, _, _, h1⟩
  · rw [h1]; exact h
  · rw [h1, (fatal_fields E n s).2.2.1]; exact h
  · rw [h1]; exact bufInv_run_initcall E n u i c.fn _ h

theorem bufInv_load_deferred (E : Env) (T : Tables) (ds : List String) (s : State)
    (h : BufInv s.errors_str) : BufInv (load_deferred E T ds s).errors_str :=
  bufInv_foldl _ (fun st d hst => bufInv_load_modname E T d Uargs.null st hst) ds s h

theorem load_module_errors_cases (E : Env) (T : Tables) (info : load_info) (u : Uargs)
    (s : State) :
    (load_module E T info u s).2.errors_str = s.errors_str ∨
    (load_module E T info u s).2.errors_str = (load_modname E T info.name u s).errors_str ∨
    (load_module E T info u s).2.errors_str =
      (load_deferred E T T.deferred_list (load_modname E T info.name u s)).errors_str := by
  rcases load_module_inner_cases E T info u s with ⟨hq, _⟩ | ⟨_, he⟩
  · left
    by_cases hp : s.panicked = true
    · rw [load_module_of_panicked E T info u s hp]
    by_cases hc : s.completed = true
    · rw [load_module_of_completed E T info u s hc]
    have hp : s.panicked = false := by simpa using hp
    have hc : s.completed = false := by simpa using hc
    have h1 : (__load_module E T info u s).2.errors_str = s.errors_str := by
      unfold __load_module
      split
      · rfl
      · split
        · rfl
        · rename_i h1 h2
          exact absurd ⟨by simpa using h1, by simpa using h2⟩ ‹¬ info.valid›
    rw [load_module_not_fired E T info u s hp hc (by rw [hq.panicked]; exact hp)
      (by rw [hq.completed]; exact hc)]
    exact h1
  · by_cases hp : s.panicked = true
    · left; rw [load_module_of_panicked E T info u s hp]
    by_cases hc : s.completed = true
    · left; rw [load_module_of_completed E T info u s hc]
    have hp : s.panicked = false := by simpa using hp
    have hc : s.completed = false := by simpa using hc
    cases h1p : (__load_module E T info u s).2.panicked with
    | true =>
      right; left
      rw [load_module_halt_inner E T info u s hp hc h1p, he]
    | false =>
      cases h1c : (__load_module E T info u s).2.completed with
      | false =>
        right; left
        rw [load_module_not_fired E T info u s hp hc h1p h1c, he]
      | true =>
        right; right
        cases h2p : (load_deferred E T T.deferred_list
            (__load_module E T info u s).2).panicked with
        | true =>
          rw [load_module_halt_deferred E T info u s hp hc h1p h1c h2p, he]
        | false =>
          rw [load_module_fired_eq E T info u s hp hc h1p h1c h2p, he]
          simp only [emit]
          split
          · rw [show_errors_str_state]
          · rw [show_errors_str_state]

theorem bufInv_load_module (E : Env) (T : Tables) (info : load_info) (u : Uargs) (s : State)
    (h : BufInv s.errors_str) : BufInv (load_module E T info u s).2.errors_str := by
  rcases load_module_errors_cases E T info u s with h1 | h1 | h1
  · rw [h1]; exact h
  · rw [h1]; exact bufInv_load_modname E T _ _ _ h
  · rw [h1]; exact bufInv_load_deferred E T _ _ (bufInv_load_modname E T _ _ _ h)

theorem bufInv_run (E : Env) (T : Tables) (ops : List Op) (s : State)
    (h : BufInv s.errors_str) : BufInv (run E T ops s).errors_str := by
  induction ops generalizing s with
  | nil => exact h
  | cons op ops ih =>
    rw [run_cons]
    apply ih
    cases op with
    | load info u => exact bufInv_load_module E T info u s h
    | tick t =>
      show BufInv (show_errors E t s).errors_str
      rw [show_errors_errors]; exact h

theorem boot_bufInv (T : Tables) (regs : List (Nat × String × String)) :
    BufInv (register_all T regs State.boot).errors_str := by
  rw [(boot_fields T regs).2.2.1]
  exact ⟨by simp, Or.inl rfl⟩

/-- C24 as stated fails when the copy of a later flush cannot be allocated: after the
failed request for "a" the buffer holds one line; the first tick prints it, the second
tick (whose `kstrdup` fails) prints only the "not loaded yet" lines, although the
buffer is unchanged. -/
theorem C24_later_flush_counterexample :
    (show_errors demo_env_flaky 31000000
        (run demo_env_flaky demo_tables [request "a"] demo_boot)).trace =
      (run demo_env_flaky demo_tables [request "a"] demo_boot).trace ++
        [Event.pr_err "lazy_initcalls[0]: a\x27s init function returned -5\n".toList,
         Event.pr_err "lazy_initcalls[1]: b not loaded yet\n".toList,
         Event.pr_err "lazy_initcalls[2]: d not loaded yet\n".toList,
         Event.queue_work] ∧
    (show_errors demo_env_flaky 36000000
        (show_errors demo_env_flaky 31000000
          (run demo_env_flaky demo_tables [request "a"] demo_boot))).trace =
      (show_errors demo_env_flaky 31000000
          (run demo_env_flaky demo_tables [request "a"] demo_boot)).trace ++
        [Event.pr_err "lazy_initcalls[1]: b not loaded yet\n".toList,
         Event.pr_err "lazy_initcalls[2]: d not loaded yet\n".toList,
         Event.queue_work] ∧
    (show_errors demo_env_flaky 31000000
        (run demo_env_flaky demo_tables [request "a"] demo_boot)).errors_str =
      "lazy_initcalls[0]: a\x27s init function returned -5\n".toList := by
  decide

/-- C24 amended. The flush does not clear the buffer: `show_errors_str`, the periodic
tick and the barrier-time flush leave `errors_str` unchanged; a flush prints the
non-empty lines of the buffer when `kstrdup` succeeds and nothing when it fails; along
every run from boot the buffer at an earlier point is a prefix of the buffer at any
later point; and the lines an earlier flush prints are printed again, first and in the
same order, by every later flush whose `kstrdup` succeeds. -/
theorem C24_flush_keeps_buffer (E : Env) (T : Tables) (regs : List (Nat × String × String))
    (ops : List Op) :
    (∀ (E1 : Env) (st : State),
      (show_errors_str E1 st).2.errors_str = st.errors_str ∧
      (show_errors_str E1 st).2.trace = st.trace ++
        (if E1.kstrdup_ok st.trace = true then flush_lines st.errors_str else [])) ∧
    (∀ (E1 : Env) (t : Nat) (st : State), (show_errors E1 t st).errors_str = st.errors_str) ∧
    (∀ (info : load_info) (u : Uargs) (st : State), st.completed = false →
      (load_module E T info u st).2.completed = true →
      (load_module E T info u st).2.panicked = false →
      (load_module E T info u st).2.errors_str =
        (load_deferred E T T.deferred_list (load_modname E T info.name u st)).errors_str) ∧
    (∀ j k, j ≤ k →
      (run E T (ops.take j) (register_all T regs State.boot)).errors_str <+:
        (run E T (ops.take k) (register_all T regs State.boot)).errors_str) ∧
    (∀ j k, j ≤ k →
      flush_lines (run E T (ops.take j) (register_all T regs State.boot)).errors_str <+:
        flush_lines (run E T (ops.take k) (register_all T regs State.boot)).errors_str) := by
  refine ⟨fun E1 st => ?_, show_errors_errors, fun info u st hc hd hl =>
    (load_module_fired_trace E T info u st hc hd hl).2.1, fun j k hjk =>
    (run_take_evolves E T ops _ hjk).errors, fun j k hjk => ?_⟩
  · rw [show_errors_str_state]
    exact ⟨rfl, rfl⟩
  · exact flush_lines_prefix (bufInv_run E T _ _ (boot_bufInv T regs))
      (bufInv_run E T _ _ (boot_bufInv T regs)).1 (run_take_evolves E T ops _ hjk).errors

theorem C24_flush_keeps_buffer_witness :
    flush_lines (run demo_env demo_tables ([request "a", request "b"].take 1)
        (register_all demo_tables demo_regs State.boot)).errors_str <+:
      flush_lines (run demo_env demo_tables ([request "a", request "b"].take 2)
        (register_all demo_tables demo_regs State.boot)).errors_str :=
  (C24_flush_keeps_buffer demo_env demo_tables demo_regs
    [request "a", request "b"]).2.2.2.2 1 2 (by decide)

/-! ## The shipped tables -/

set_option maxRecDepth 100000 in
/-- The shipped `builtin_list` is the shipped `targets_list` with the two deferred
names inserted after its first 362 names. -/
theorem shipped_builtin_split :
    shipped.builtin_list =
      shipped.targets_list.take 362 ++ ["ufs_qcom", "ufshcd_crypto_qti"] ++
        shipped.targets_list.drop 362 := by
  decide

theorem shipped_targets_builtin : ∀ n ∈ shipped.targets_list, n ∈ shipped.builtin_list := by
  intro n hn
  rw [shipped_builtin_split]
  rw [← List.take_append_drop 362 shipped.targets_list] at hn
  rcases List.mem_append.mp hn with h | h
  · exact List.mem_append_left _ (List.mem_append_left _ h)
  · exact List.mem_append_right _ h

theorem shipped_blacklist_nil : shipped.blacklist = [] := rfl

/-- A dispatch of a `builtin_list` name ends in one of the two non-fatal ways: the
state is returned unchanged, or the matched entry is marked and invoked. -/
theorem load_modname_builtin_cases (E : Env) (T : Tables) (n : String) (u : Uargs) (s : State)
    (h : n ∈ T.builtin_list) :
    load_modname E T n u s = s ∨
    (∃ (i : Nat) (c : lazy_initcall), find_modname n s.lazy_initcalls = some i ∧
      s.lazy_initcalls[i]? = some c ∧ c.loaded = false ∧
      load_modname E T n u s =
        run_initcall E n u i c.fn { s with lazy_initcalls := set_loaded i s.lazy_initcalls }) := by
  rcases load_modname_cases E T n u s with h1 | ⟨_, _, _, hb, _⟩ | ⟨i, c, _, _, hf, hc, hl, h1⟩
  · exact Or.inl h1
  · exact absurd h hb
  · exact Or.inr ⟨i, c, hf, hc, hl, h1⟩

theorem load_module_live (E : Env) (T : Tables) (info : load_info) (u : Uargs) (s : State)
    (hp : s.panicked = false) (h1 : info.name ∈ T.builtin_list)
    (h2 : ∀ d ∈ T.deferred_list, d ∈ T.builtin_list) :
    (load_module E T info u s).2.panicked = false := by
  by_cases hc : s.completed = true
  · rw [load_module_of_completed E T info u s hc]; exact hp
  have hc : s.completed = false := by simpa using hc
  have h1p : (__load_module E T info u s).2.panicked = false := by
    rcases load_module_inner_cases E T info u s with ⟨hq, _⟩ | ⟨_, he⟩
    · rw [hq.panicked]; exact hp
    · rw [he]; exact load_modname_live E T _ _ _ hp (Or.inr (Or.inl h1))
  cases h1c : (__load_module E T info u s).2.completed with
  | false => rw [load_module_not_fired E T info u s hp hc h1p h1c]; exact h1p
  | true =>
    have h2p := load_deferred_live E T T.deferred_list (__load_module E T info u s).2 h1p
      (Or.inr h2)
    rw [(load_module_fired E T info u s hp hc h1p h1c h2p).panicked]
    exact h2p

theorem load_modname_debug_indep (E : Env) (T : Tables) (b : Bool) (n : String) (u : Uargs)
    (s : State) (h : n ∈ T.builtin_list) :
    load_modname { E with debug := b } T n u s = load_modname E T n u s := by
  unfold load_modname
  simp only [h, if_true]
  rfl

theorem load_deferred_debug_indep (E : Env) (T : Tables) (b : Bool) (ds : List String)
    (s : State) (h : ∀ d ∈ ds, d ∈ T.builtin_list) :
    load_deferred { E with debug := b } T ds s = load_deferred E T ds s := by
  induction ds generalizing s with
  | nil => rfl
  | cons a as ih =>
    have hstep : ∀ (E1 : Env), load_deferred E1 T (a :: as) s =
        load_deferred E1 T as (load_modname E1 T a Uargs.null s) := fun _ => rfl
    rw [hstep, hstep, load_modname_debug_indep E T b a _ s (h a (List.mem_cons_self _ _))]
    exact ih _ (fun d hd => h d (List.mem_cons_of_mem _ hd))

theorem load_module_debug_indep (E : Env) (T : Tables) (b : Bool) (info : load_info)
    (u : Uargs) (s : State) (h1 : info.name ∈ T.builtin_list)
    (h2 : ∀ d ∈ T.deferred_list, d ∈ T.builtin_list) :
    load_module { E with debug := b } T info u s = load_module E T info u s := by
  have hinner : __load_module { E with debug := b } T info u s = __load_module E T info u s := by
    unfold __load_module
    rw [load_modname_debug_indep E T b info.name u s h1]
  have hdef : ∀ st, load_deferred { E with debug := b } T T.deferred_list st =
      load_deferred E T T.deferred_list st :=
    fun st => load_deferred_debug_indep E T b T.deferred_list st h2
  have hshow : ∀ st, show_errors_str { E with debug := b } st = show_errors_str E st :=
    fun _ => rfl
  unfold load_module
  simp only [hinner, hdef, hshow]

/-- C25. The shipped tables never make an eligible name fatal. In the shipped tables
every `targets_list` name and every `deferred_list` name is in `builtin_list`, and
`blacklist` is empty. Hence, for every environment, registry and state, and every
requested name of `targets_list` or `deferred_list`: the condition guarding the
`__fatal` call of `load_modname` is false for that name and for every name the barrier
dispatches; each such `load_modname` call either returns the state unchanged or invokes
the matched entry; the whole `load_module` dispatch, barrier included, leaves the halted
flag as it was and logs no panic; and its outcome does not depend on what `__fatal`
stands for (the debug switch). -/
theorem C25_shipped_never_fatal (E : Env) (info : load_info) (u : Uargs) (s : State)
    (hn : info.name ∈ shipped.targets_list ∨ info.name ∈ shipped.deferred_list) :
    ((∀ n ∈ shipped.targets_list, n ∈ shipped.builtin_list) ∧
      (∀ n ∈ shipped.deferred_list, n ∈ shipped.builtin_list) ∧
      shipped.blacklist = []) ∧
    (∀ (st : State) (n : String) (a : Uargs), n = info.name ∨ n ∈ shipped.deferred_list →
      ¬ (n ∉ shipped.blacklist ∧ find_modname n st.lazy_initcalls = none ∧
          n ∉ shipped.builtin_list) ∧
      (load_modname E shipped n a st = st ∨
        ∃ (i : Nat) (c : lazy_initcall), find_modname n st.lazy_initcalls = some i ∧
          st.lazy_initcalls[i]? = some c ∧ c.loaded = false ∧
          load_modname E shipped n a st =
            run_initcall E n a i c.fn
              { st with lazy_initcalls := set_loaded i st.lazy_initcalls }) ∧
      (load_modname E shipped n a st).panicked = st.panicked) ∧
    (load_module E shipped info u s).2.panicked = s.panicked ∧
    (∀ delta, (load_module E shipped info u s).2.trace = s.trace ++ delta →
      ∀ t, Event.panic t ∉ delta) ∧
    (∀ b : Bool, load_module { E with debug := b } shipped info u s =
      load_module E shipped info u s) := by
  have hT := shipped_targets_builtin
  have hD := shipped_deferred_builtin
  have hb : info.name ∈ shipped.builtin_list := by
    rcases hn with h | h
    · exact hT _ h
    · exact hD _ h
  have hall : ∀ n, n = info.name ∨ n ∈ shipped.deferred_list → n ∈ shipped.builtin_list := by
    intro n h
    rcases h with rfl | h
    · exact hb
    · exact hD _ h
  refine ⟨⟨hT, hD, shipped_blacklist_nil⟩, fun st n a h => ⟨fun hc => hc.2.2 (hall n h),
    load_modname_builtin_cases E shipped n a st (hall n h), ?_⟩, ?_, ?_, fun b =>
    load_module_debug_indep E shipped b info u s hb hD⟩
  · cases hp : st.panicked with
    | false => exact load_modname_live E shipped n a st hp (Or.inr (Or.inl (hall n h)))
    | true => exact (load_modname_evolves E shipped n a st).panicked hp
  · cases hp : s.panicked with
    | false => exact load_module_live E shipped info u s hp hb hD
    | true => rw [load_module_of_panicked E shipped info u s hp]; exact hp
  · intro delta hdelta t hm
    obtain ⟨d, hd, hA⟩ := @emits_load_module (fun e => ∀ t, e ≠ Event.panic t)
      (fun _ _ h => Event.noConfusion h) (fun _ h => Event.noConfusion h)
      (fun _ h => Event.noConfusion h) (fun _ _ _ h => Event.noConfusion h)
      (fun _ h => Event.noConfusion h) (fun _ h => Event.noConfusion h)
      (fun _ h => Event.noConfusion h) E shipped info u s
      (fun d hdm _ _ hnb => absurd (hall d hdm) hnb)
    rw [hd] at hdelta
    rw [← List.append_cancel_left hdelta] at hm
    exact hA _ hm t rfl

set_option maxRecDepth 100000 in
theorem C25_shipped_never_fatal_witness :
    load_module demo_env shipped (valid_image "camera") Uargs.null State.boot =
      (0, State.boot) ∧
    (load_module demo_env shipped (valid_image "ufs_qcom") Uargs.null State.boot).2.panicked =
      State.boot.panicked :=
  ⟨by decide,
   (C25_shipped_never_fatal demo_env (valid_image "ufs_qcom") Uargs.null State.boot
      (Or.inr (by decide))).2.2.1⟩

end LazyInitcall
